import Mathlib

/-!
# Blackbox safe-memory pool (`rdr_safemem.c`)

A shallow embedding of `drivers/soc/cix/cix_dst/blackbox/rdr_safemem.c`:
the chunked BCH wrappers `rdr_bch_encode` / `rdr_bch_checkout` and the
ID-addressed bump allocator `rdr_safemem_pool_init` / `rdr_safemem_alloc` /
`rdr_safemem_get`.

Conventions.
* Machine integers are `Nat` with explicit reduction: `uint` values modulo
  `2^32`, pointers and `u64` values modulo `2^64`.
* A pointer argument is an `Option`: `none` is a pointer for which
  `IS_ERR_OR_NULL` holds, `some x` a valid pointer to contents `x`.
* A function that stores through a pointer returns the new contents.
* Buffers are byte lists (every element below 256).  A store past the end of
  a modelled buffer is not recorded: the memory behind it is outside the model.
* `spin_lock` / `spin_unlock` pairs on the single-threaded path leave the lock
  word as it was; `spin_lock_init` stores 0.
-/

/-! ## Error numbers and constants -/

/-- Linux errno `EINVAL`. -/
def EINVAL : Int := 22

/-- Linux errno `ENOMEM`. -/
def ENOMEM : Int := 12

/-- Linux errno `ENODEV`. -/
def ENODEV : Int := 19

/-- Linux errno `EIO` (named with a suffix). -/
def EIO_errno : Int := 5

/-- Linux errno `EEXIST`, the kernel's "already exists" code. -/
def EEXIST : Int := 17

/-- The pool sentinel `SAFEMEM_POOL_MAGIC` of `rdr_safemem.c`, line 17. -/
def SAFEMEM_POOL_MAGIC : Nat := 0xdeaeaabe

/-- Range of a C `uint`. -/
def U32 : Nat := 4294967296

/-- Range of a pointer or `u64` on the 64-bit target. -/
def U64 : Nat := 18446744073709551616

/-- Addition of pointer-sized words. -/
def add64 (a b : Nat) : Nat := (a + b) % U64

/-- Subtraction of pointer-sized words (wraps below zero). -/
def sub64 (a b : Nat) : Nat := (a % U64 + U64 - b % U64) % U64

/-- Build-time constants of the absent header `rdr_pub.h`, taken as parameters:
the BCH block size, the ECC bytes per block, the correction strength, and the
sizes of the pool header, of one directory entry and of the pool name field. -/
structure Config where
  RDR_BCH_MAX_BYTES : Nat
  RDR_BCH_ECC_BYTES : Nat
  RDR_BCH_T : Nat
  sizeof_pool : Nat
  sizeof_safemem : Nat
  sizeof_name : Nat
deriving DecidableEq, Repr

/-! ## Directory entry layout -/

/-- Little-endian bytes of `n`, `w` of them. -/
def le_bytes (n : Nat) : Nat → List Nat
  | 0 => []
  | w + 1 => (n % 256) :: le_bytes (n / 256) w

/-- Value of a little-endian byte string. -/
def le_val : List Nat → Nat
  | [] => 0
  | b :: bs => b + 256 * le_val bs

/-- Modelled from the spec: `sizeof(safe.rawdata)` of `struct rdr_safemem`
(declared in the absent `rdr_pub.h`).  The spec gives the protected tuple as
`id: u32, size: u32, vaddr (pointer-sized), paddr: u64`, 24 bytes in all. -/
def SAFE_BYTES : Nat := 24

/-- Modelled from the spec: `sizeof(safemem->ecc)` of `struct rdr_safemem`
(absent `rdr_pub.h`); the spec gives the entry's ECC field as
`byte[RDR_BCH_ECC_BYTES]`. -/
def sizeof_ecc (cfg : Config) : Nat := cfg.RDR_BCH_ECC_BYTES

/-- Modelled from the spec: the bytes of the tuple `(id, size, vaddr, paddr)`
of `struct rdr_safemem` (absent `rdr_pub.h`), fields in the spec's order,
little-endian as on the arm64 target. -/
def pack_safe (id size vaddr paddr : Nat) : List Nat :=
  le_bytes id 4 ++ le_bytes size 4 ++ le_bytes vaddr 8 ++ le_bytes paddr 8

/-- Field `safe.id` read from the tuple bytes. -/
def safe_id (raw : List Nat) : Nat := le_val (raw.take 4)

/-- Field `safe.size` read from the tuple bytes. -/
def safe_size (raw : List Nat) : Nat := le_val ((raw.drop 4).take 4)

/-- Field `safe.vaddr` read from the tuple bytes. -/
def safe_vaddr (raw : List Nat) : Nat := le_val ((raw.drop 8).take 8)

/-- Field `safe.paddr` read from the tuple bytes. -/
def safe_paddr (raw : List Nat) : Nat := le_val ((raw.drop 16).take 8)

/-- One directory entry, `struct rdr_safemem`: the tuple bytes (the union
`safe`, seen through `rawdata`) and its ECC bytes. -/
structure rdr_safemem where
  rawdata : List Nat
  ecc : List Nat
deriving DecidableEq, Repr

/-- The record `bbox_mem` handed to and from callers. -/
structure bbox_mem where
  vaddr : Nat
  paddr : Nat
  size : Nat
deriving DecidableEq, Repr

/-- The pool header `struct rdr_safemem_pool` followed by its directory
`mem[]`; `mem` lists the entry slots that follow the header in memory. -/
structure rdr_safemem_pool where
  lock : Nat
  magic : Nat
  name : List Nat
  maxnum : Nat
  curnum : Nat
  low_to_high : Bool
  base_alloc_addr : Nat
  end_alloc_addr : Nat
  cur_alloc_addr : Nat
  phyaddr : Nat
  pool_size : Nat
  mem : List rdr_safemem
deriving DecidableEq, Repr

/-- An all-zero directory entry, as left by `memset`. -/
def zero_safemem (cfg : Config) : rdr_safemem :=
  { rawdata := List.replicate SAFE_BYTES 0, ecc := List.replicate (sizeof_ecc cfg) 0 }

/-! ## Byte buffers -/

/-- Store `bytes` into `buf` starting at offset `off`. -/
def write_at (buf : List Nat) (off : Nat) (bytes : List Nat) : List Nat :=
  buf.take off ++ bytes ++ buf.drop (off + bytes.length)

/-- The statement `data[idx] ^= mask` on a `char` buffer. -/
def xor_byte : List Nat → Nat → Nat → List Nat
  | [], _, _ => []
  | b :: bs, 0, mask => ((b ^^^ mask) % 256) :: bs
  | b :: bs, idx + 1, mask => b :: xor_byte bs idx mask

/-- The loop `for (j = 0; j < err; j++) datatmp[errloc[j] >> 3] ^= BIT(errloc[j] & 7)`
of `rdr_bch_checkout`, with `datatmp = data + dt`. -/
def fix_bits (data : List Nat) (dt : Nat) (errloc : List Nat) : List Nat :=
  errloc.foldl (fun d loc => xor_byte d (dt + loc / 8) (1 <<< (loc % 8))) data

/-! ## The BCH library -/

/-- Modelled from the spec: the kernel BCH library behind `bch_encode` and
`bch_decode` (`lib/bch.c`, absent).  `encode block` is the ECC written for one
block.  `decode block ecc` is `none` when the library reports a decode failure
(a negative return) and `some errloc` when it returns `errloc.length` with the
bit locations `errloc`; a location `l` names bit `l % 8` of byte `l / 8` of the
block. -/
structure bch_control where
  encode : List Nat → List Nat
  decode : List Nat → List Nat → Option (List Nat)

/-- The loop of `rdr_bch_encode`, lines 35-39: `n` full blocks remain, `dt` and
`et` are the offsets of `datatmp` and `ecctmp`. -/
def encode_loop (cfg : Config) (c : bch_control) (data : List Nat) :
    Nat → Nat → Nat → List Nat → Nat × Nat × List Nat
  | 0, dt, et, ecc => (dt, et, ecc)
  | n + 1, dt, et, ecc =>
    encode_loop cfg c data n (dt + cfg.RDR_BCH_MAX_BYTES) (et + cfg.RDR_BCH_ECC_BYTES)
      (write_at ecc et (c.encode ((data.drop dt).take cfg.RDR_BCH_MAX_BYTES)))

/-- The function `rdr_bch_encode(data, data_len, ecc, ecc_len)`: the return
value and the new contents of `ecc`. -/
def rdr_bch_encode (cfg : Config) (rdr_bch : Option bch_control) (data : List Nat)
    (data_len : Nat) (ecc : List Nat) (ecc_len : Nat) : Int × List Nat :=
  match rdr_bch with
  | none => (-ENODEV, ecc)
  | some c =>
    let ecc_times := ((data_len + cfg.RDR_BCH_MAX_BYTES - 1) % U32) / cfg.RDR_BCH_MAX_BYTES
    if ecc_len < (ecc_times * cfg.RDR_BCH_ECC_BYTES) % U32 then (-EINVAL, ecc)
    else
      let int_times := data_len / cfg.RDR_BCH_MAX_BYTES
      let (dt, et, ecc1) := encode_loop cfg c data int_times 0 0 ecc
      if int_times = ecc_times then (0, ecc1)
      else if data_len % cfg.RDR_BCH_MAX_BYTES ≠ 0 then
        (0, write_at ecc1 et (c.encode ((data.drop dt).take (data_len % cfg.RDR_BCH_MAX_BYTES))))
      else (0, ecc1)

/-- What `rdr_bch_checkout` leaves behind: the return value, the contents of
`data`, and the number passed to `BB_PN("bch check num: %d")` when that line
runs. -/
structure checkout_ret where
  ret : Int
  data : List Nat
  printed : Option Nat
deriving DecidableEq, Repr

/-- The loop of `rdr_bch_checkout`, lines 70-84.  The first component is
`false` when a block failed to decode (the function then returns `-EIO`). -/
def checkout_loop (cfg : Config) (c : bch_control) (ecc : List Nat) :
    Nat → Nat → Nat → List Nat → Nat → Bool × Nat × Nat × List Nat × Nat
  | 0, dt, et, data, num => (true, dt, et, data, num)
  | n + 1, dt, et, data, num =>
    match c.decode ((data.drop dt).take cfg.RDR_BCH_MAX_BYTES)
        ((ecc.drop et).take cfg.RDR_BCH_ECC_BYTES) with
    | none => (false, dt, et, data, num)
    | some errloc =>
      checkout_loop cfg c ecc n (dt + cfg.RDR_BCH_MAX_BYTES) (et + cfg.RDR_BCH_ECC_BYTES)
        (fix_bits data dt errloc) (num + errloc.length)

/-- The function `rdr_bch_checkout(data, data_len, ecc, ecc_len)`. -/
def rdr_bch_checkout (cfg : Config) (rdr_bch : Option bch_control) (data : List Nat)
    (data_len : Nat) (ecc : List Nat) (ecc_len : Nat) : checkout_ret :=
  match rdr_bch with
  | none => { ret := -ENODEV, data := data, printed := none }
  | some c =>
    let ecc_times := ((data_len + cfg.RDR_BCH_MAX_BYTES - 1) % U32) / cfg.RDR_BCH_MAX_BYTES
    if ecc_len < (ecc_times * cfg.RDR_BCH_ECC_BYTES) % U32 then
      { ret := -EINVAL, data := data, printed := none }
    else
      let int_times := data_len / cfg.RDR_BCH_MAX_BYTES
      match checkout_loop cfg c ecc int_times 0 0 data 0 with
      | (false, _, _, data1, _) => { ret := -EIO_errno, data := data1, printed := none }
      | (true, dt, et, data1, num) =>
        if data_len % cfg.RDR_BCH_MAX_BYTES ≠ 0 then
          match c.decode ((data1.drop dt).take (data_len % cfg.RDR_BCH_MAX_BYTES))
              ((ecc.drop et).take cfg.RDR_BCH_ECC_BYTES) with
          | none => { ret := -EIO_errno, data := data1, printed := none }
          | some errloc =>
            let num2 := num + errloc.length
            { ret := 0, data := fix_bits data1 dt errloc,
              printed := if num2 ≠ 0 then some num2 else none }
        else { ret := 0, data := data1, printed := if num ≠ 0 then some num else none }

/-- What `rdr_bch_checkout` leaves behind when `data` and `ecc` point into one
memory: the return value, the contents of that memory, the number passed to
`BB_PN("bch check num: %d")` when that line runs, and the byte offsets from
`data` at which the fix loops stored, in order. -/
structure checkout_mem_ret where
  ret : Int
  mem : List Nat
  printed : Option Nat
  stores : List Nat
deriving DecidableEq, Repr

/-- The loop of `rdr_bch_checkout`, lines 70-84, on one memory `mem` that
holds `data` at offset 0 and `ecc` at offset `ecc_off`.  Each block is decoded
against the ECC bytes the memory holds when its turn comes, and the store
`datatmp[errloc >> 3] ^= BIT(errloc & 7)` changes the memory where it lands,
also behind the data bytes. -/
def checkout_loop_mem (cfg : Config) (c : bch_control) (ecc_off : Nat) :
    Nat → Nat → Nat → List Nat → Nat → List Nat →
    Bool × Nat × Nat × List Nat × Nat × List Nat
  | 0, dt, et, mem, num, st => (true, dt, et, mem, num, st)
  | n + 1, dt, et, mem, num, st =>
    match c.decode ((mem.drop dt).take cfg.RDR_BCH_MAX_BYTES)
        ((mem.drop (ecc_off + et)).take cfg.RDR_BCH_ECC_BYTES) with
    | none => (false, dt, et, mem, num, st)
    | some errloc =>
      checkout_loop_mem cfg c ecc_off n (dt + cfg.RDR_BCH_MAX_BYTES)
        (et + cfg.RDR_BCH_ECC_BYTES) (fix_bits mem dt errloc) (num + errloc.length)
        (st ++ errloc.map (fun loc => dt + loc / 8))

/-- The function `rdr_bch_checkout(data, data_len, ecc, ecc_len)` called with
`data` pointing to the memory `mem` and `ecc = data + ecc_off`, the form of the
call in `rdr_create_last_backup`.  A store behind the end of `mem` is not
recorded in `mem`; its offset is in `stores`. -/
def rdr_bch_checkout_mem (cfg : Config) (rdr_bch : Option bch_control) (mem : List Nat)
    (data_len ecc_off ecc_len : Nat) : checkout_mem_ret :=
  match rdr_bch with
  | none => { ret := -ENODEV, mem := mem, printed := none, stores := [] }
  | some c =>
    let ecc_times := ((data_len + cfg.RDR_BCH_MAX_BYTES - 1) % U32) / cfg.RDR_BCH_MAX_BYTES
    if ecc_len < (ecc_times * cfg.RDR_BCH_ECC_BYTES) % U32 then
      { ret := -EINVAL, mem := mem, printed := none, stores := [] }
    else
      let int_times := data_len / cfg.RDR_BCH_MAX_BYTES
      match checkout_loop_mem cfg c ecc_off int_times 0 0 mem 0 [] with
      | (false, _, _, mem1, _, st) =>
        { ret := -EIO_errno, mem := mem1, printed := none, stores := st }
      | (true, dt, et, mem1, num, st) =>
        if data_len % cfg.RDR_BCH_MAX_BYTES ≠ 0 then
          match c.decode ((mem1.drop dt).take (data_len % cfg.RDR_BCH_MAX_BYTES))
              ((mem1.drop (ecc_off + et)).take cfg.RDR_BCH_ECC_BYTES) with
          | none => { ret := -EIO_errno, mem := mem1, printed := none, stores := st }
          | some errloc =>
            let num2 := num + errloc.length
            { ret := 0, mem := fix_bits mem1 dt errloc,
              printed := if num2 ≠ 0 then some num2 else none,
              stores := st ++ errloc.map (fun loc => dt + loc / 8) }
        else
          { ret := 0, mem := mem1, printed := if num ≠ 0 then some num else none, stores := st }

/-! ## The pool -/

/-- Length of a C string held in a byte list: the bytes before the first NUL. -/
def strlen (s : List Nat) : Nat := (s.takeWhile (fun b => b != 0)).length

/-- The function `rdr_safemem_pool_init(pool, name, size, mem, low_to_high)`:
the return value and the new contents of `*pool`. -/
def rdr_safemem_pool_init (cfg : Config) (pool : Option rdr_safemem_pool)
    (name : Option (List Nat)) (size : Nat) (mem : Option bbox_mem) (low_to_high : Bool) :
    Int × Option rdr_safemem_pool :=
  match pool, name, mem with
  | some p, some nm, some m =>
    if size < cfg.sizeof_pool + 2 * cfg.sizeof_safemem then (-EINVAL, pool)
    else
      let len := if strlen nm > cfg.sizeof_name - 1 then cfg.sizeof_name - 1 else strlen nm
      let end_addr := add64 m.vaddr m.size
      let maxnum := ((size - cfg.sizeof_pool) / cfg.sizeof_safemem - 1) % U32
      (0, some
        { lock := 0
          magic := SAFEMEM_POOL_MAGIC
          name := (write_at p.name 0 (nm.take len)).set len 0
          maxnum := maxnum
          curnum := 0
          low_to_high := low_to_high
          base_alloc_addr := m.vaddr
          end_alloc_addr := end_addr
          cur_alloc_addr := if low_to_high then m.vaddr else end_addr
          phyaddr := m.paddr
          pool_size := m.size
          mem := List.replicate maxnum (zero_safemem cfg) ++ p.mem.drop maxnum })
  | _, _, _ => (-EINVAL, pool)

/-- The function `rdr_safemem_pool_reinit(pool)`. -/
def rdr_safemem_pool_reinit (pool : Option rdr_safemem_pool) : Int × Option rdr_safemem_pool :=
  match pool with
  | none => (-EINVAL, none)
  | some p => (0, some { p with lock := 0 })

/-- The function `rdr_safemem_alloc(pool, id, size, mem)`: the return value,
the new contents of `*pool` and of `*mem`.

The four field stores of lines 208-218 overwrite every byte of the tuple, so
the slot's `rawdata` becomes `pack_safe id size vaddr paddr`. -/
def rdr_safemem_alloc (cfg : Config) (rdr_bch : Option bch_control)
    (pool : Option rdr_safemem_pool) (id size : Nat) (mem : Option bbox_mem) :
    Int × Option rdr_safemem_pool × Option bbox_mem :=
  match pool, mem with
  | some p, some _ =>
    if p.magic ≠ SAFEMEM_POOL_MAGIC ∨ id = 0 then (-EINVAL, pool, mem)
    else
      let index := p.curnum
      if index = p.maxnum then (-ENOMEM, pool, mem)
      else if (p.mem.take index).any (fun e => id == safe_id e.rawdata) then (-EINVAL, pool, mem)
      else
        let check : Bool :=
          if p.low_to_high then decide (add64 p.cur_alloc_addr size > p.end_alloc_addr)
          else decide (sub64 p.cur_alloc_addr size < p.base_alloc_addr)
        if check then (-ENOMEM, pool, mem)
        else
          let vaddr := if p.low_to_high then p.cur_alloc_addr else sub64 p.cur_alloc_addr size
          let cur := if p.low_to_high then add64 p.cur_alloc_addr size
            else sub64 p.cur_alloc_addr size
          let paddr := add64 (sub64 vaddr p.base_alloc_addr) p.phyaddr
          let raw := pack_safe id size vaddr paddr
          let enc := rdr_bch_encode cfg rdr_bch raw SAFE_BYTES
            (p.mem.getD index (zero_safemem cfg)).ecc (sizeof_ecc cfg)
          let safemem : rdr_safemem := { rawdata := raw, ecc := enc.2 }
          let p1 := { p with curnum := (p.curnum + 1) % U32, cur_alloc_addr := cur,
                             mem := p.mem.set index safemem }
          if enc.1 ≠ 0 then
            (-ENOMEM, some { p1 with curnum := (p1.curnum + U32 - 1) % U32 }, mem)
          else
            (0, some p1, some { paddr := safe_paddr safemem.rawdata,
                                size := safe_size safemem.rawdata,
                                vaddr := safe_vaddr safemem.rawdata })
  | _, _ => (-EINVAL, pool, mem)

/-- The scan of `rdr_safemem_get`, lines 248-251, over the entries from index
`i` on: the first index whose id matches. -/
def find_id (id : Nat) : List rdr_safemem → Nat → Option Nat
  | [], _ => none
  | e :: es, i => if id = safe_id e.rawdata then some i else find_id id es (i + 1)

/-- What `rdr_safemem_get` leaves behind: the return value, the contents of
`*pool` and `*mem`, and what `rdr_bch_checkout` printed, if it ran and
printed. -/
structure get_ret where
  ret : Int
  pool : Option rdr_safemem_pool
  mem : Option bbox_mem
  printed : Option Nat
  checked : Bool
deriving DecidableEq, Repr

/-- The function `rdr_safemem_get(pool, id, mem)`.  Field `checked` records
whether `rdr_bch_checkout` was called.  The model is of a call that finds
`pool->lock` free (`spin_lock`, line 247, returns), and it records the fix
stores that land in the tuple: a store for a decoder location behind the
tuple bytes is not recorded. -/
def rdr_safemem_get (cfg : Config) (rdr_bch : Option bch_control)
    (pool : Option rdr_safemem_pool) (id : Nat) (mem : Option bbox_mem) : get_ret :=
  match pool, mem with
  | some p, some _ =>
    if p.magic ≠ SAFEMEM_POOL_MAGIC ∨ id = 0 then
      { ret := -EINVAL, pool := pool, mem := mem, printed := none, checked := false }
    else
      match find_id id (p.mem.take p.curnum) 0 with
      | none => { ret := -ENOMEM, pool := pool, mem := mem, printed := none, checked := false }
      | some index =>
        let e := p.mem.getD index (zero_safemem cfg)
        let r := rdr_bch_checkout cfg rdr_bch e.rawdata SAFE_BYTES e.ecc (sizeof_ecc cfg)
        let e1 : rdr_safemem := { e with rawdata := r.data }
        let p1 := { p with mem := p.mem.set index e1 }
        if r.ret ≠ 0 then
          { ret := -EIO_errno, pool := some p1, mem := mem, printed := r.printed, checked := true }
        else
          { ret := 0, pool := some p1,
            mem := some { paddr := safe_paddr e1.rawdata, size := safe_size e1.rawdata,
                          vaddr := safe_vaddr e1.rawdata },
            printed := r.printed, checked := true }
  | _, _ => { ret := -EINVAL, pool := pool, mem := mem, printed := none, checked := false }

/-! ## A concrete configuration and codec

A small single-error-correcting code (every block stored three times: once as
data, twice in the ECC), used to evaluate the functions on concrete inputs. -/

/-- A concrete instance of the build-time constants. -/
def cfg0 : Config :=
  { RDR_BCH_MAX_BYTES := 24, RDR_BCH_ECC_BYTES := 48, RDR_BCH_T := 1,
    sizeof_pool := 96, sizeof_safemem := 72, sizeof_name := 16 }

/-- ECC of the repetition code: two copies of the block, zero-padded to 48 bytes. -/
def rep3_encode (d : List Nat) : List Nat := (d ++ d ++ List.replicate 48 0).take 48

/-- Decoder of the repetition code: accepts an intact ECC and a block that
equals the stored copy or differs from it in exactly one bit. -/
def rep3_decode (d e : List Nat) : Option (List Nat) :=
  let x := e.take d.length
  if e ≠ rep3_encode x then none
  else if d = x then some []
  else
    match (List.range (8 * d.length)).find? (fun j => fix_bits d 0 [j] = x) with
    | some j => some [j]
    | none => none

/-- The repetition code as a codec instance. -/
def rep3 : bch_control := { encode := rep3_encode, decode := rep3_decode }

/-- Pool memory before initialisation: `n` zeroed slots behind a zeroed header. -/
def blank_pool (n : Nat) : rdr_safemem_pool :=
  { lock := 0, magic := 0, name := List.replicate 16 0, maxnum := 0, curnum := 0,
    low_to_high := false, base_alloc_addr := 0, end_alloc_addr := 0, cur_alloc_addr := 0,
    phyaddr := 0, pool_size := 0, mem := List.replicate n (zero_safemem cfg0) }

/-- The name "rdr_mem" as bytes. -/
def name0 : List Nat := [114, 100, 114, 95, 109, 101, 109]

/-- A caller's output record before the call. -/
def mem0 : bbox_mem := { vaddr := 0, paddr := 0, size := 0 }

/-! ## Well-formedness, codec contract and reachable pools -/

/-- Constraints on the build-time constants: the `compiletime_assert` of
`rdr_bch_init` (the tuple fits one BCH block), the two BCH sizes are C `int`
constants, and a directory entry has positive size. -/
def Config.wf (cfg : Config) : Prop :=
  SAFE_BYTES ≤ cfg.RDR_BCH_MAX_BYTES ∧ cfg.RDR_BCH_MAX_BYTES < 2147483648 ∧
  cfg.RDR_BCH_ECC_BYTES < 2147483648 ∧ 0 < cfg.sizeof_safemem

instance (cfg : Config) : Decidable cfg.wf := by
  unfold Config.wf; infer_instance

/-- Modelled from the spec: the contract of the absent BCH library
(`bch_encode` / `bch_decode`, `lib/bch.c`), "a binary error-correcting code
correcting up to `T` bit errors per fixed-size block" with "bounded-distance
decoding".  For every block of at most `RDR_BCH_MAX_BYTES` bytes:
* the ECC has `RDR_BCH_ECC_BYTES` bytes;
* if at most `T` distinct bits of the block are flipped and the ECC is intact,
  decoding succeeds, reports as many locations as bits were flipped, and
  flipping the reported locations restores the block;
* decoding succeeds only on a word that at most `T` bit flips turn into a
  codeword (a block followed by its ECC). -/
def bch_spec (cfg : Config) (c : bch_control) : Prop :=
  (∀ d : List Nat, d.length ≤ cfg.RDR_BCH_MAX_BYTES →
    (c.encode d).length = cfg.RDR_BCH_ECC_BYTES) ∧
  (∀ d S : List Nat, d.length ≤ cfg.RDR_BCH_MAX_BYTES → (∀ b ∈ d, b < 256) →
    S.Nodup → (∀ s ∈ S, s < 8 * d.length) → S.length ≤ cfg.RDR_BCH_T →
    ∃ L, c.decode (fix_bits d 0 S) (c.encode d) = some L ∧ L.length = S.length ∧
      fix_bits (fix_bits d 0 S) 0 L = d) ∧
  (∀ d e L : List Nat, d.length ≤ cfg.RDR_BCH_MAX_BYTES → c.decode d e = some L →
    ∃ x F : List Nat, x.length = d.length ∧ F.length ≤ cfg.RDR_BCH_T ∧
      fix_bits (d ++ e) 0 F = x ++ c.encode x)

/-- A word that no `T` or fewer bit flips turn into a codeword of the same
block length: more than `T` bits away from every valid (tuple, ECC) pair. -/
def uncorrectable (cfg : Config) (c : bch_control) (d e : List Nat) : Prop :=
  ∀ x F : List Nat, x.length = d.length → F.length ≤ cfg.RDR_BCH_T →
    fix_bits (d ++ e) 0 F ≠ x ++ c.encode x

/-- The first `curnum` directory entries, the ones a reader may see. -/
def live (p : rdr_safemem_pool) : List rdr_safemem := p.mem.take p.curnum

/-- The ids of the live entries, in directory order. -/
def live_ids (p : rdr_safemem_pool) : List Nat := (live p).map (fun e => safe_id e.rawdata)

/-- A valid pool: the magic is set, the directory counters are consistent with
the slots behind the header, the addresses are machine words, and every live
entry is a 24-byte tuple with a non-zero id, no id occurring twice. -/
def pool_wf (p : rdr_safemem_pool) : Prop :=
  p.magic = SAFEMEM_POOL_MAGIC ∧ p.curnum ≤ p.maxnum ∧ p.maxnum < U32 ∧
  p.maxnum ≤ p.mem.length ∧
  p.base_alloc_addr < U64 ∧ p.end_alloc_addr < U64 ∧ p.cur_alloc_addr < U64 ∧
  p.phyaddr < U64 ∧
  (∀ e ∈ live p, e.rawdata.length = SAFE_BYTES ∧ (∀ b ∈ e.rawdata, b < 256) ∧
    safe_id e.rawdata ≠ 0) ∧
  (live_ids p).Nodup

instance (p : rdr_safemem_pool) : Decidable (pool_wf p) := by
  unfold pool_wf; infer_instance

/-- Every live entry carries the ECC the codec `c` computes for its tuple. -/
def pool_ecc (cfg : Config) (c : bch_control) (p : rdr_safemem_pool) : Prop :=
  ∀ e ∈ live p, e.ecc.take cfg.RDR_BCH_ECC_BYTES = c.encode e.rawdata

/-- Pools reached from a successful `rdr_safemem_pool_init` by any sequence of
`rdr_safemem_alloc` calls, succeeding or failing.  At each call the process-wide
codec is either not constructed or is `c`; ids and sizes are C `uint`s. -/
inductive Reachable (cfg : Config) (c : bch_control) : rdr_safemem_pool → Prop
  | init (p q : rdr_safemem_pool) (nm : List Nat) (size : Nat) (m : bbox_mem) (dir : Bool) :
      size < U32 → m.vaddr < U64 → m.paddr < U64 → m.size < U64 →
      rdr_safemem_pool_init cfg (some p) (some nm) size (some m) dir = (0, some q) →
      Reachable cfg c q
  | alloc (p q : rdr_safemem_pool) (bch : Option bch_control) (id size : Nat)
      (m : bbox_mem) (m' : Option bbox_mem) (r : Int) :
      Reachable cfg c p → (bch = none ∨ bch = some c) → id < U32 → size < U32 →
      rdr_safemem_alloc cfg bch (some p) id size (some m) = (r, some q, m') →
      Reachable cfg c q

/-- Pools reached from `p` by further `rdr_safemem_alloc` calls, succeeding or
failing, none of which uses the id `id0`. -/
inductive AllocsAvoiding (cfg : Config) (c : bch_control) (id0 : Nat) :
    rdr_safemem_pool → rdr_safemem_pool → Prop
  | refl (p : rdr_safemem_pool) : AllocsAvoiding cfg c id0 p p
  | step (p q q' : rdr_safemem_pool) (bch : Option bch_control) (id size : Nat)
      (m : bbox_mem) (m' : Option bbox_mem) (r : Int) :
      AllocsAvoiding cfg c id0 p q → (bch = none ∨ bch = some c) → id < U32 → size < U32 →
      id ≠ id0 →
      rdr_safemem_alloc cfg bch (some q) id size (some m) = (r, some q', m') →
      AllocsAvoiding cfg c id0 p q'

/-- A run of `rdr_safemem_alloc` calls `(id, size)` with the codec `bch`: the
return values in call order and the final pool. -/
def alloc_all (cfg : Config) (bch : Option bch_control) :
    rdr_safemem_pool → List (Nat × Nat) → List Int × rdr_safemem_pool
  | p, [] => ([], p)
  | p, (id, size) :: rest =>
    let r := rdr_safemem_alloc cfg bch (some p) id size (some mem0)
    let t := alloc_all cfg bch (r.2.1.getD p) rest
    (r.1 :: t.1, t.2)

/-- The space check of `rdr_safemem_alloc`, lines 193-199: `true` when `check`
is set to -1. -/
def no_room (p : rdr_safemem_pool) (size : Nat) : Bool :=
  if p.low_to_high then decide (add64 p.cur_alloc_addr size > p.end_alloc_addr)
  else decide (sub64 p.cur_alloc_addr size < p.base_alloc_addr)

/-- The address `rdr_safemem_alloc` stores in `safe.vaddr`, lines 210-216. -/
def alloc_vaddr (p : rdr_safemem_pool) (size : Nat) : Nat :=
  if p.low_to_high then p.cur_alloc_addr else sub64 p.cur_alloc_addr size

/-- The cursor `rdr_safemem_alloc` leaves in `cur_alloc_addr`, lines 210-216. -/
def alloc_cursor (p : rdr_safemem_pool) (size : Nat) : Nat :=
  if p.low_to_high then add64 p.cur_alloc_addr size else sub64 p.cur_alloc_addr size

/-- The address `rdr_safemem_alloc` stores in `safe.paddr`, lines 217-218. -/
def alloc_paddr (p : rdr_safemem_pool) (size : Nat) : Nat :=
  add64 (sub64 (alloc_vaddr p size) p.base_alloc_addr) p.phyaddr

/-- The tuple bytes `rdr_safemem_alloc` stores in the new slot. -/
def alloc_raw (p : rdr_safemem_pool) (id size : Nat) : List Nat :=
  pack_safe id size (alloc_vaddr p size) (alloc_paddr p size)

/-- The record a successful `rdr_safemem_alloc` hands back. -/
def alloc_out (p : rdr_safemem_pool) (id size : Nat) : bbox_mem :=
  { paddr := safe_paddr (alloc_raw p id size), size := safe_size (alloc_raw p id size),
    vaddr := safe_vaddr (alloc_raw p id size) }

/-- The slot contents after `rdr_safemem_alloc` has stored the tuple and
`rdr_bch_encode` has written its ECC with the codec `c`. -/
def alloc_entry (cfg : Config) (c : bch_control) (p : rdr_safemem_pool) (id size : Nat) :
    rdr_safemem :=
  { rawdata := alloc_raw p id size,
    ecc := write_at (p.mem.getD p.curnum (zero_safemem cfg)).ecc 0
      (c.encode (alloc_raw p id size)) }

/-- The pool a successful `rdr_safemem_alloc` leaves behind. -/
def alloc_pool_ok (cfg : Config) (c : bch_control) (p : rdr_safemem_pool) (id size : Nat) :
    rdr_safemem_pool :=
  { p with
      curnum := (p.curnum + 1) % U32
      cur_alloc_addr := alloc_cursor p size
      mem := p.mem.set p.curnum (alloc_entry cfg c p id size) }

/-- The pool `rdr_safemem_alloc` leaves behind when `rdr_bch_encode` fails
without a codec: `curnum` incremented and decremented again, the cursor and
the slot as written before the encode. -/
def alloc_pool_rollback (cfg : Config) (p : rdr_safemem_pool) (id size : Nat) :
    rdr_safemem_pool :=
  { p with
      curnum := ((p.curnum + 1) % U32 + U32 - 1) % U32
      cur_alloc_addr := alloc_cursor p size
      mem := p.mem.set p.curnum
        { rawdata := alloc_raw p id size,
          ecc := (p.mem.getD p.curnum (zero_safemem cfg)).ecc } }

/-! ## Concrete pools -/

/-- A backing range in the kernel's virtual address space. -/
def bk0 : bbox_mem := { vaddr := 0xffff800010000000, paddr := 0x80000000, size := 0x100000 }

/-- The contents of `*pool` after a `rdr_safemem_pool_init` call on pool memory
with `n` slots behind the header, or the untouched memory when there was no
pool to write. -/
def init_pool (cfg : Config) (n size : Nat) (m : bbox_mem) (dir : Bool) : rdr_safemem_pool :=
  (rdr_safemem_pool_init cfg (some (blank_pool n)) (some name0) size (some m) dir).2.getD
    (blank_pool n)

/-- A downward pool with a directory of 312 bytes: header and three slots,
so `maxnum = 2`. -/
def pool_small : rdr_safemem_pool := init_pool cfg0 3 312 bk0 false

/-- The contents of `*pool` after `rdr_safemem_alloc`. -/
def pool_after_alloc (cfg : Config) (bch : Option bch_control) (p : rdr_safemem_pool)
    (id size : Nat) : rdr_safemem_pool :=
  (rdr_safemem_alloc cfg bch (some p) id size (some mem0)).2.1.getD p

/-- The pool `pool_small` after `alloc(id = 7, size = 64)`. -/
def pool7 : rdr_safemem_pool := pool_after_alloc cfg0 (some rep3) pool_small 7 64

/-- The pool `pool7` after `alloc(id = 8, size = 128)`: the directory is full. -/
def pool78 : rdr_safemem_pool := pool_after_alloc cfg0 (some rep3) pool7 8 128

/-- A backing range at a low address, `[0x1000, 0x2000)`. -/
def bk_low : bbox_mem := { vaddr := 0x1000, paddr := 0x80000000, size := 0x1000 }

/-- A downward pool over `bk_low`. -/
def pool_low : rdr_safemem_pool := init_pool cfg0 3 312 bk_low false

/-- Room for `total` more bytes between the cursor and the opposite bound. -/
def has_room (p : rdr_safemem_pool) (total : Nat) : Prop :=
  if p.low_to_high then p.cur_alloc_addr + total ≤ p.end_alloc_addr
  else p.base_alloc_addr + total ≤ p.cur_alloc_addr

/-- Memory corruption of one directory slot: the slot at index `i` holds `x`
instead of what was stored. -/
def overwrite_entry (p : rdr_safemem_pool) (i : Nat) (x : rdr_safemem) : rdr_safemem_pool :=
  { p with mem := p.mem.set i x }

/-- The slot at index `i` of the directory. -/
def entry_at (p : rdr_safemem_pool) (i : Nat) : rdr_safemem := p.mem.getD i ⟨[], []⟩

/-- Memory corruption of one directory slot: the bits `S` of the tuple bytes
of entry `i` are flipped, its ECC bytes are intact. -/
def corrupt_tuple (p : rdr_safemem_pool) (i : Nat) (S : List Nat) : rdr_safemem_pool :=
  overwrite_entry p i { entry_at p i with rawdata := fix_bits (entry_at p i).rawdata 0 S }

/-- The pool with 4096 bytes of directory of the round-trip scenario. -/
def pool_4096 : rdr_safemem_pool := init_pool cfg0 55 4096 bk0 false

/-- The pool `pool_4096` after `alloc(id = 7, size = 64)`. -/
def pool_4096_7 : rdr_safemem_pool := pool_after_alloc cfg0 (some rep3) pool_4096 7 64

/-- The pool `pool7` with bit 33 of the tuple of entry 0 flipped (bit 1 of
the first `size` byte). -/
def pool7_one_flip : rdr_safemem_pool := corrupt_tuple pool7 0 [33]

/-- The pool `pool7` with entry 0 turned into the codeword of the same tuple
with `size = 65`: bit 32 of the tuple (bit 0 of the first `size` byte) and the
same bit in both ECC copies (ECC bits 32 and 224) are flipped. -/
def pool7_three_flips : rdr_safemem_pool :=
  overwrite_entry pool7 0
    { rawdata := fix_bits (entry_at pool7 0).rawdata 0 [32],
      ecc := fix_bits (entry_at pool7 0).ecc 0 [32, 224] }

/-- The tuple of entry 0 of `pool7` with bits 32 and 33 flipped (`size` reads
67 instead of 64). -/
def raw7_two_flips : List Nat := fix_bits (entry_at pool7 0).rawdata 0 [32, 33]

/-- The contents of `*pool` after `rdr_safemem_pool_reinit`. -/
def pool_after_reinit (p : rdr_safemem_pool) : rdr_safemem_pool :=
  (rdr_safemem_pool_reinit (some p)).2.getD p

/-- Pools reached from a successful `rdr_safemem_pool_init` by any sequence of
`rdr_safemem_alloc`, `rdr_safemem_get` and `rdr_safemem_pool_reinit` calls,
succeeding or failing, with no other store to the pool memory.  At each call
the process-wide codec is either not constructed or is `c`; ids and sizes are
C `uint`s. -/
inductive ReachableByCalls (cfg : Config) (c : bch_control) : rdr_safemem_pool → Prop
  | init (p q : rdr_safemem_pool) (nm : List Nat) (size : Nat) (m : bbox_mem) (dir : Bool) :
      size < U32 → m.vaddr < U64 → m.paddr < U64 → m.size < U64 →
      rdr_safemem_pool_init cfg (some p) (some nm) size (some m) dir = (0, some q) →
      ReachableByCalls cfg c q
  | alloc (p q : rdr_safemem_pool) (bch : Option bch_control) (id size : Nat)
      (m : bbox_mem) (m' : Option bbox_mem) (r : Int) :
      ReachableByCalls cfg c p → (bch = none ∨ bch = some c) → id < U32 → size < U32 →
      rdr_safemem_alloc cfg bch (some p) id size (some m) = (r, some q, m') →
      ReachableByCalls cfg c q
  | get (p q : rdr_safemem_pool) (bch : Option bch_control) (id : Nat) (m : bbox_mem) :
      ReachableByCalls cfg c p → (bch = none ∨ bch = some c) → id < U32 →
      (rdr_safemem_get cfg bch (some p) id (some m)).pool = some q →
      ReachableByCalls cfg c q
  | reinit (p q : rdr_safemem_pool) (r : Int) :
      ReachableByCalls cfg c p → rdr_safemem_pool_reinit (some p) = (r, some q) →
      ReachableByCalls cfg c q

/-! ## Chunking in the words of the specification

Second definitions of the two codec wrappers, written from the specification's
description of the chunking ("splits data into `MAX_BLOCK_BYTES`-sized chunks,
a final short chunk if `data_len` is not a multiple; encodes each chunk
independently into its own `ECC_BYTES_PER_BLOCK`-sized slice"), to be compared
with `rdr_bch_encode` and `rdr_bch_checkout` above. -/

/-- The number of chunks in the specification's words:
`ceil(data_len / MAX_BLOCK_BYTES)`, the exact ceiling over the naturals. -/
def spec_chunks (cfg : Config) (data_len : Nat) : Nat :=
  (data_len + cfg.RDR_BCH_MAX_BYTES - 1) / cfg.RDR_BCH_MAX_BYTES

/-- Chunk `i` in the specification's words: the data bytes
`[i * MAX_BLOCK_BYTES, min((i+1) * MAX_BLOCK_BYTES, data_len))`. -/
def spec_chunk (cfg : Config) (data : List Nat) (data_len i : Nat) : List Nat :=
  (data.drop (i * cfg.RDR_BCH_MAX_BYTES)).take
    (min ((i + 1) * cfg.RDR_BCH_MAX_BYTES) data_len - i * cfg.RDR_BCH_MAX_BYTES)

/-- ECC slice `i` in the specification's words: the ECC bytes
`[i * ECC_BYTES_PER_BLOCK, (i+1) * ECC_BYTES_PER_BLOCK)`. -/
def spec_slice (cfg : Config) (ecc : List Nat) (i : Nat) : List Nat :=
  (ecc.drop (i * cfg.RDR_BCH_ECC_BYTES)).take cfg.RDR_BCH_ECC_BYTES

/-- One chunk of the specification's encode: the ECC of chunk `i` is stored
from the first byte of slice `i` on. -/
def spec_encode_step (cfg : Config) (c : bch_control) (data : List Nat) (data_len : Nat)
    (ecc : List Nat) (i : Nat) : List Nat :=
  write_at ecc (i * cfg.RDR_BCH_ECC_BYTES) (c.encode (spec_chunk cfg data data_len i))

/-- The specification's encode: chunks `0, 1, ..., spec_chunks - 1` in order,
each encoded on its own. -/
def spec_encode (cfg : Config) (c : bch_control) (data : List Nat) (data_len : Nat)
    (ecc : List Nat) : List Nat :=
  (List.range (spec_chunks cfg data_len)).foldl (spec_encode_step cfg c data data_len) ecc

/-- State of the specification's checkout: whether every chunk so far decoded,
the data buffer, and the count of corrected bits. -/
structure spec_state where
  ok : Bool
  data : List Nat
  num : Nat
deriving DecidableEq, Repr

/-- One chunk of the specification's checkout: chunk `i` is decoded against
slice `i`; a failure stops the run, a success flips the reported bits of the
chunk in place and adds their number to the counter. -/
def spec_checkout_step (cfg : Config) (c : bch_control) (data_len : Nat) (ecc : List Nat)
    (st : spec_state) (i : Nat) : spec_state :=
  if st.ok then
    match c.decode (spec_chunk cfg st.data data_len i) (spec_slice cfg ecc i) with
    | none => { st with ok := false }
    | some errloc =>
      { ok := true, data := fix_bits st.data (i * cfg.RDR_BCH_MAX_BYTES) errloc,
        num := st.num + errloc.length }
  else st

/-- The specification's checkout over the first `n` chunks. -/
def spec_checkout_upto (cfg : Config) (c : bch_control) (data : List Nat) (data_len : Nat)
    (ecc : List Nat) (n : Nat) : spec_state :=
  (List.range n).foldl (spec_checkout_step cfg c data_len ecc)
    { ok := true, data := data, num := 0 }

/-- The specification's checkout: chunks `0, 1, ..., spec_chunks - 1` in order. -/
def spec_checkout (cfg : Config) (c : bch_control) (data : List Nat) (data_len : Nat)
    (ecc : List Nat) : spec_state :=
  spec_checkout_upto cfg c data data_len ecc (spec_chunks cfg data_len)

/-! ## Concrete multi-chunk buffers -/

/-- A data buffer of 40 bytes: with the constants `cfg0` a full block of 24
bytes followed by a short block of 16. -/
def buf40 : List Nat := List.range 40

/-- The ECC of `buf40` as `rdr_bch_encode` writes it into a zeroed buffer of
96 bytes. -/
def ecc40 : List Nat := (rdr_bch_encode cfg0 (some rep3) buf40 40 (List.replicate 96 0) 96).2

/-- Decoder of the repetition code that also repairs its ECC bytes: as
`rep3_decode`, and a block whose ECC differs from the ECC of the block in
exactly one bit `k` is accepted with the location `8 * len + k` (an error in
the ECC bytes is numbered after the data bits of the block). -/
def rep3e_decode (d e : List Nat) : Option (List Nat) :=
  match rep3_decode d e with
  | some L => some L
  | none =>
    match (List.range (8 * 48)).find? (fun k => fix_bits e 0 [k] = rep3_encode d) with
    | some k => some [8 * d.length + k]
    | none => none

/-- The repetition code with the decoder that also repairs the ECC. -/
def rep3e : bch_control := { encode := rep3_encode, decode := rep3e_decode }

/-- The buffer `buf40` with two flipped bits in its second chunk (bits 0 and 1
of byte 25). -/
def data40_bad : List Nat := fix_bits buf40 0 [200, 201]

/-- The ECC `ecc40` with one flipped bit in the slice of the first chunk (bit 3
of ECC byte 0). -/
def ecc40_bad : List Nat := fix_bits ecc40 0 [3]

/-! ## The area table (`rdr_field_core.c`) -/

/-- Macros of the absent header `rdr_field.h` that the area functions use,
taken as parameters: `RDR_CORE_INDEX_2_CORE` (area index to pool id) and the
range test `RDR_CORE_INDEX_IS_ERR`. -/
structure FieldConfig where
  RDR_CORE_INDEX_2_CORE : Int → Nat
  RDR_CORE_INDEX_IS_ERR : Int → Bool

/-- The argument `struct rdr_area_data` as `rdr_field_areainfo_init` reads it:
the number of areas `value` and the table `data[]` of their sizes. -/
structure rdr_area_data where
  value : Nat
  data : List Nat
deriving DecidableEq, Repr

/-- The loop of `rdr_field_areainfo_init`, lines 111-117, with `i` areas still
to allocate (`i`, `i - 1`, ..., 1): the return value when an allocation failed
(`none` when the loop ran to its end), the pool `g_rdr_head->pool` and the
local `mem`.  The id and the size are passed as `uint`. -/
def areainfo_loop (cfg : Config) (fc : FieldConfig) (rdr_bch : Option bch_control)
    (data : rdr_area_data) : Nat → rdr_safemem_pool → bbox_mem →
    Option Int × rdr_safemem_pool × bbox_mem
  | 0, pool, mem => (none, pool, mem)
  | i + 1, pool, mem =>
    let r := rdr_safemem_alloc cfg rdr_bch (some pool)
      (fc.RDR_CORE_INDEX_2_CORE ((i + 1 : Nat) : Int) % U32) (data.data.getD (i + 1) 0 % U32)
      (some mem)
    if r.1 ≠ 0 then (some r.1, r.2.1.getD pool, r.2.2.getD mem)
    else areainfo_loop cfg fc rdr_bch data i (r.2.1.getD pool) (r.2.2.getD mem)

/-- The function `rdr_field_areainfo_init(data)`: the return value and the new
contents of `g_rdr_head->pool`.  The argument `mem` stands for the contents of
the uninitialised local `mem`; `last = (int)data->value - 1`, and a negative
`last` runs the loop as often as `last = 0`, not at all.  The remainder is
computed in `u64` (line 119) and passed to the `uint size` parameter of
`rdr_safemem_alloc` (line 120). -/
def rdr_field_areainfo_init (cfg : Config) (fc : FieldConfig) (rdr_bch : Option bch_control)
    (pool : rdr_safemem_pool) (data : rdr_area_data) (mem : bbox_mem) :
    Int × rdr_safemem_pool :=
  let last : Nat := if data.value % U32 < 2147483648 then data.value % U32 - 1 else 0
  match areainfo_loop cfg fc rdr_bch data last pool mem with
  | (some ret, pool1, _) => (ret, pool1)
  | (none, pool1, mem1) =>
    let size := sub64 mem1.vaddr pool1.base_alloc_addr
    let r := rdr_safemem_alloc cfg rdr_bch (some pool1) (fc.RDR_CORE_INDEX_2_CORE 0 % U32)
      (size % U32) (some mem1)
    (r.1, r.2.1.getD pool1)

/-- The two fields of `struct rdr_register_module_result` that
`rdr_get_areainfo` stores. -/
structure rdr_register_module_result where
  log_addr : Nat
  log_len : Nat
deriving DecidableEq, Repr

/-- The function `rdr_get_areainfo(core_index, retinfo)`: the return value,
the new contents of `g_rdr_head->pool` (the lookup corrects the entry in
place) and of `*retinfo`.  The argument `mem` stands for the contents of the
uninitialised local `mem`. -/
def rdr_get_areainfo (cfg : Config) (fc : FieldConfig) (rdr_bch : Option bch_control)
    (pool : rdr_safemem_pool) (core_index : Int) (retinfo : Option rdr_register_module_result)
    (mem : bbox_mem) : Int × rdr_safemem_pool × Option rdr_register_module_result :=
  match retinfo with
  | none => (-1, pool, none)
  | some ri =>
    if fc.RDR_CORE_INDEX_IS_ERR core_index then (-1, pool, retinfo)
    else
      let r := rdr_safemem_get cfg rdr_bch (some pool)
        (fc.RDR_CORE_INDEX_2_CORE core_index % U32) (some mem)
      if r.ret ≠ 0 then (-1, r.pool.getD pool, retinfo)
      else
        (0, r.pool.getD pool,
          some { ri with log_addr := (r.mem.getD mem).paddr, log_len := (r.mem.getD mem).size })

/-- A concrete instance of the macros: three areas, area `i` has the pool id
`1 << i`. -/
def fc0 : FieldConfig :=
  { RDR_CORE_INDEX_2_CORE := fun i => 1 <<< i.toNat
    RDR_CORE_INDEX_IS_ERR := fun i => decide (i < 0 ∨ 3 ≤ i) }

/-- The area table of the remainder scenario: three areas, 100 bytes for area
1 and 200 bytes for area 2; the entry of area 0 is not read. -/
def areas3 : rdr_area_data := { value := 3, data := [0, 100, 200] }

/-- A downward pool over the 1 MiB of `bk0` with a directory of 384 bytes:
header and four slots, so `maxnum = 3`. -/
def pool_area : rdr_safemem_pool := init_pool cfg0 4 384 bk0 false

/-- A backing range of 4 GiB and 4096 bytes. -/
def bk_big : bbox_mem :=
  { vaddr := 0xffff800000000000, paddr := 0x80000000, size := 0x100001000 }

/-- A downward pool over `bk_big` with `maxnum = 3`. -/
def pool_area_big : rdr_safemem_pool := init_pool cfg0 4 384 bk_big false

/-- A caller's `*retinfo` before the call. -/
def retinfo0 : rdr_register_module_result := { log_addr := 0, log_len := 0 }

/-! ## The persistent head (`rdr_field_core.c`) -/

/-- Constants of the absent headers `rdr_field.h` and `rdr_pub.h` that the head
functions use, taken as parameters: magic and version, the number of areas,
the size of the base-info prefix, the offsets of `ecc` and `pool` in
`struct rdr_struct_s`, the size of the field `ecc`, the lengths of the string
fields, the product strings and the boot type of a cold boot. -/
structure HeadConfig where
  FILE_MAGIC : Nat
  RDR_VERSION : Nat
  RDR_CORE_MAX_INDEX : Nat
  RDR_BASEINFO_SIZE : Nat
  offsetof_ecc : Nat
  sizeof_head_ecc : Nat
  offsetof_pool : Nat
  RDR_BUILD_DATE_TIME_LEN : Nat
  RDR_PRODUCT_MAXLEN : Nat
  RDR_PRODUCT : List Nat
  RDR_PRODUCT_VERSION : List Nat
  MODULE_NAME_LEN : Nat
  STR_EXCEPTIONDESC_MAXLEN : Nat
  DATATIME_MAXLEN : Nat
  AP_S_COLDBOOT : Nat

/-- What the absent platform code hands to `rdr_field_init`: the reserved
region `rdr_reserved_mem()` (a `vaddr` of 0 is a NULL mapping), the boot type
`rdr_get_reboot_type()`, whether `vmalloc` returns memory, and the bytes
`rdr_get_builddatetime` stores. -/
structure Board where
  reserved : bbox_mem
  reboot_type : Nat
  vmalloc_ok : Bool
  builddatetime : List Nat

/-- The fields of `g_rdr_head->base_info` that `rdr_field_core.c` stores. -/
structure rdr_base_info where
  modid : Nat
  arg1 : Nat
  arg2 : Nat
  e_core : Nat
  e_type : Nat
  e_subtype : Nat
  start_flag : Nat
  savefile_flag : Nat
  reboot_flag : Nat
  e_module : List Nat
  e_desc : List Nat
  datetime : List Nat
deriving DecidableEq, Repr

/-- The reserved region as `struct rdr_struct_s` overlays it.  Modelled from
the spec: the bytes before the field `ecc`, which the head ECC covers, are the
top head (`magic: u32`, `version: u32`, `area_count: u32`, `base_address: u64`,
`total_size: u64`, then the build time and the two product strings), kept here
as raw bytes; `base_info` and the clear-text flag lie behind `ecc`; `pool` is
the last member, and `pool.mem` lists the entry-sized slots from the end of
the pool header to the end of the region: the first slots are the directory,
the slots from byte offset `RDR_BASEINFO_SIZE` on are area payload. -/
structure rdr_struct_s where
  top_head : List Nat
  ecc : List Nat
  base_info : rdr_base_info
  cleartext_savefile_flag : Nat
  pool : rdr_safemem_pool
deriving DecidableEq, Repr

/-- Field `top_head.magic` read from the head bytes. -/
def top_magic (h : List Nat) : Nat := le_val (h.take 4)

/-- Field `top_head.size` read from the head bytes. -/
def top_size (h : List Nat) : Nat := le_val ((h.drop 24).take 8)

/-- Offset of `top_head.build_time` in the head bytes. -/
def off_build_time : Nat := 32

/-- The globals of `rdr_field_core.c` and the memory they point to: the
contents of the reserved region, whether `g_rdr_head` points to it (or is
NULL), and the backup `g_last_rdr_head` (`none` is NULL). -/
structure field_state where
  region : rdr_struct_s
  g_rdr_head : Bool
  g_last_rdr_head : Option rdr_struct_s
deriving DecidableEq, Repr

/-- The number of whole directory slots between the pool header and byte
offset `RDR_BASEINFO_SIZE` of the region. -/
def dir_slots (cfg : Config) (hc : HeadConfig) : Nat :=
  (hc.RDR_BASEINFO_SIZE - hc.offsetof_pool - cfg.sizeof_pool) / cfg.sizeof_safemem

/-- The area payload: the slots of the region from byte offset
`RDR_BASEINFO_SIZE` on, for a layout in which a slot starts there. -/
def payload (cfg : Config) (hc : HeadConfig) (r : rdr_struct_s) : List rdr_safemem :=
  r.pool.mem.drop (dir_slots cfg hc)

/-- A zeroed `base_info` of the same size. -/
def zero_base_info (b : rdr_base_info) : rdr_base_info :=
  { modid := 0, arg1 := 0, arg2 := 0, e_core := 0, e_type := 0, e_subtype := 0,
    start_flag := 0, savefile_flag := 0, reboot_flag := 0,
    e_module := List.replicate b.e_module.length 0,
    e_desc := List.replicate b.e_desc.length 0,
    datetime := List.replicate b.datetime.length 0 }

/-- A zeroed slot of the same size. -/
def zero_slot (e : rdr_safemem) : rdr_safemem :=
  { rawdata := List.replicate e.rawdata.length 0, ecc := List.replicate e.ecc.length 0 }

/-- The call `memset(g_rdr_head, 0, n)` where `n` covers everything up to the
first `k` slots behind the pool header, and no byte behind them:
`k = dir_slots` for `n = RDR_BASEINFO_SIZE`, every slot for the size of the
region. -/
def memset_head (r : rdr_struct_s) (k : Nat) : rdr_struct_s :=
  { top_head := List.replicate r.top_head.length 0
    ecc := List.replicate r.ecc.length 0
    base_info := zero_base_info r.base_info
    cleartext_savefile_flag := 0
    pool :=
      { lock := 0, magic := 0, name := List.replicate r.pool.name.length 0, maxnum := 0,
        curnum := 0, low_to_high := false, base_alloc_addr := 0, end_alloc_addr := 0,
        cur_alloc_addr := 0, phyaddr := 0, pool_size := 0,
        mem := (r.pool.mem.take k).map zero_slot ++ r.pool.mem.drop k } }

/-- The function `rdr_field_top_init()`: the return value and the new region.
The field stores go to the head bytes at the offsets of the layout above;
`memcpy` copies `length` bytes of each product string. -/
def rdr_field_top_init (cfg : Config) (hc : HeadConfig) (rdr_bch : Option bch_control)
    (board : Board) (r : rdr_struct_s) : Int × rdr_struct_s :=
  let h1 := write_at r.top_head 0 (le_bytes hc.FILE_MAGIC 4)
  let h2 := write_at h1 4 (le_bytes hc.RDR_VERSION 4)
  let h3 := write_at h2 8 (le_bytes hc.RDR_CORE_MAX_INDEX 4)
  let h4 := write_at h3 16 (le_bytes board.reserved.paddr 8)
  let h5 := write_at h4 24 (le_bytes board.reserved.size 8)
  let h6 := write_at h5 off_build_time (board.builddatetime.take hc.RDR_BUILD_DATE_TIME_LEN)
  let len1 := if strlen hc.RDR_PRODUCT > hc.RDR_PRODUCT_MAXLEN then hc.RDR_PRODUCT_MAXLEN
    else strlen hc.RDR_PRODUCT
  let h7 := write_at h6 (off_build_time + hc.RDR_BUILD_DATE_TIME_LEN) (hc.RDR_PRODUCT.take len1)
  let len2 := if strlen hc.RDR_PRODUCT_VERSION > hc.RDR_PRODUCT_MAXLEN
    then hc.RDR_PRODUCT_MAXLEN else strlen hc.RDR_PRODUCT_VERSION
  let h8 := write_at h7 (off_build_time + hc.RDR_BUILD_DATE_TIME_LEN + hc.RDR_PRODUCT_MAXLEN)
    (hc.RDR_PRODUCT_VERSION.take len2)
  let enc := rdr_bch_encode cfg rdr_bch h8 hc.offsetof_ecc r.ecc hc.sizeof_head_ecc
  (enc.1, { r with top_head := h8, ecc := enc.2 })

/-- The function `rdr_field_baseinfo_init()`. -/
def rdr_field_baseinfo_init (hc : HeadConfig) (r : rdr_struct_s) : rdr_struct_s :=
  { r with
    base_info :=
      { modid := 0, arg1 := 0, arg2 := 0, e_core := 0, e_type := 0, e_subtype := 0,
        start_flag := 0, savefile_flag := 0, reboot_flag := 0,
        e_module := write_at r.base_info.e_module 0 (List.replicate hc.MODULE_NAME_LEN 0),
        e_desc := write_at r.base_info.e_desc 0 (List.replicate hc.STR_EXCEPTIONDESC_MAXLEN 0),
        datetime := write_at r.base_info.datetime 0 (List.replicate hc.DATATIME_MAXLEN 0) }
    cleartext_savefile_flag := 0 }

/-- The function `rdr_field_mempool_init()`: the return value and the new
region.  The pool is given the bytes from `offsetof(pool)` to
`RDR_BASEINFO_SIZE`, its backing range is the rest of the region. -/
def rdr_field_mempool_init (cfg : Config) (hc : HeadConfig) (board : Board)
    (r : rdr_struct_s) : Int × rdr_struct_s :=
  let size := (hc.RDR_BASEINFO_SIZE - hc.offsetof_pool) % U32
  let mem : bbox_mem :=
    { size := sub64 (top_size r.top_head) hc.RDR_BASEINFO_SIZE
      vaddr := add64 board.reserved.vaddr hc.RDR_BASEINFO_SIZE
      paddr := add64 board.reserved.paddr hc.RDR_BASEINFO_SIZE }
  let res := rdr_safemem_pool_init cfg (some r.pool) (some name0) size (some mem) false
  (res.1, { r with pool := res.2.getD r.pool })

/-- The loop of `rdr_show_base_info`, lines 346-355: one `rdr_safemem_get` on
`g_rdr_head->pool` for each area index. -/
def show_areas (cfg : Config) (fc : FieldConfig) (hc : HeadConfig)
    (rdr_bch : Option bch_control) (pool : rdr_safemem_pool) (mem : bbox_mem) :
    rdr_safemem_pool :=
  ((List.range hc.RDR_CORE_MAX_INDEX).foldl
    (fun (st : rdr_safemem_pool × bbox_mem) index =>
      let r := rdr_safemem_get cfg rdr_bch (some st.1)
        (fc.RDR_CORE_INDEX_2_CORE (index : Int) % U32) (some st.2)
      (r.pool.getD st.1, r.mem.getD st.2))
    (pool, mem)).1

/-- The four NUL stores of `rdr_show_base_info`, lines 317-320, on `*p`. -/
def terminate_strings (hc : HeadConfig) (p : rdr_struct_s) : rdr_struct_s :=
  { p with
    base_info :=
      { p.base_info with
        datetime := p.base_info.datetime.set (hc.DATATIME_MAXLEN - 1) 0
        e_module := p.base_info.e_module.set (hc.MODULE_NAME_LEN - 1) 0
        e_desc := p.base_info.e_desc.set (hc.STR_EXCEPTIONDESC_MAXLEN - 1) 0 }
    top_head := p.top_head.set (off_build_time + hc.RDR_BUILD_DATE_TIME_LEN - 1) 0 }

/-- The stores of the function `rdr_show_base_info(is_last)`.  The fields are
read and terminated through `p = rdr_get_head(is_last)`; the area lookups of
lines 345-355 go to `g_rdr_head->pool` for either value of `is_last`.  The
argument `mem` stands for the uninitialised local `mem`.  With `g_rdr_head`
NULL the lookups are not modelled; the lookups are those of
`rdr_safemem_get`, on a pool whose lock is free. -/
def rdr_show_base_info (cfg : Config) (fc : FieldConfig) (hc : HeadConfig)
    (rdr_bch : Option bch_control) (is_last : Bool) (s : field_state) (mem : bbox_mem) :
    field_state :=
  let p := if is_last then s.g_last_rdr_head else (if s.g_rdr_head then some s.region else none)
  match p with
  | none => s
  | some p0 =>
    if top_magic p0.top_head ≠ hc.FILE_MAGIC then s
    else
      let p1 := terminate_strings hc p0
      let s1 : field_state :=
        if is_last then { s with g_last_rdr_head := some p1 } else { s with region := p1 }
      if s1.g_rdr_head then
        { s1 with region :=
          { s1.region with pool := show_areas cfg fc hc rdr_bch s1.region.pool mem } }
      else s1

/-- The call `rdr_bch_checkout((void *)g_rdr_head, offsetof(struct
rdr_struct_s, ecc), g_rdr_head->ecc, sizeof(g_rdr_head->ecc))` of
`rdr_create_last_backup`, lines 195-197, on the region `r`: `data` points to
the head bytes and the field `ecc` lies right behind them, so the call works
on the memory `top_head ++ ecc`. -/
def head_checkout (cfg : Config) (hc : HeadConfig) (rdr_bch : Option bch_control)
    (r : rdr_struct_s) : checkout_mem_ret :=
  rdr_bch_checkout_mem cfg rdr_bch (r.top_head ++ r.ecc) hc.offsetof_ecc hc.offsetof_ecc
    hc.sizeof_head_ecc

/-- The region as the checkout of the head leaves it: the head bytes and the
bytes of the field `ecc` are those of the memory the checkout worked on. -/
def region_after_checkout (cfg : Config) (hc : HeadConfig) (rdr_bch : Option bch_control)
    (r : rdr_struct_s) : rdr_struct_s :=
  { r with
    top_head := (head_checkout cfg hc rdr_bch r).mem.take r.top_head.length
    ecc := (head_checkout cfg hc rdr_bch r).mem.drop r.top_head.length }

/-- The function `rdr_create_last_backup()`: the return value and the new
state.  `rdr_bch_checkout` corrects the head in place, and a fix store behind
the head bytes lands in the field `ecc`; `vmalloc` assigns `g_last_rdr_head`,
NULL when it fails; `memcpy` copies the whole region.  The model is of a call
that finds the lock of the pool in the region free: `rdr_show_base_info(true)`
looks the areas up in that pool, and `rdr_safemem_get` takes its lock
(`rdr_safemem.c`, line 247). -/
def rdr_create_last_backup (cfg : Config) (fc : FieldConfig) (hc : HeadConfig)
    (rdr_bch : Option bch_control) (board : Board) (s : field_state) (mem : bbox_mem) :
    Int × field_state :=
  let r := head_checkout cfg hc rdr_bch s.region
  let s1 : field_state := { s with region := region_after_checkout cfg hc rdr_bch s.region }
  if r.ret ≠ 0 then (0, s1)
  else if top_magic s1.region.top_head ≠ hc.FILE_MAGIC then (0, s1)
  else if board.vmalloc_ok = false then
    (-1, { s1 with g_rdr_head := false, g_last_rdr_head := none })
  else
    let copy : rdr_struct_s :=
      { s1.region with pool := (rdr_safemem_pool_reinit (some s1.region.pool)).2.getD s1.region.pool }
    (0, rdr_show_base_info cfg fc hc rdr_bch true { s1 with g_last_rdr_head := some copy } mem)

/-- The function `rdr_field_init(data)`: the return value and the new state.
The arguments `mem1`, `mem2` and `mem3` stand for the uninitialised locals
`mem` of the two `rdr_show_base_info` calls and of
`rdr_field_areainfo_init`. -/
def rdr_field_init (cfg : Config) (fc : FieldConfig) (hc : HeadConfig)
    (rdr_bch : Option bch_control) (board : Board) (data : rdr_area_data) (s : field_state)
    (mem1 mem2 mem3 : bbox_mem) : Int × field_state :=
  if board.reserved.vaddr = 0 then (-1, { s with g_rdr_head := false })
  else
    let s0 : field_state := { s with g_rdr_head := true }
    let b := rdr_create_last_backup cfg fc hc rdr_bch board s0 mem1
    if b.1 ≠ 0 then b
    else
      let s2 : field_state :=
        if board.reboot_type = hc.AP_S_COLDBOOT then
          { b.2 with region := memset_head b.2.region b.2.region.pool.mem.length }
        else { b.2 with region := memset_head b.2.region (dir_slots cfg hc) }
      let t := rdr_field_top_init cfg hc rdr_bch board s2.region
      if t.1 ≠ 0 then (t.1, { s2 with region := t.2 })
      else
        let r4 := rdr_field_baseinfo_init hc t.2
        let m := rdr_field_mempool_init cfg hc board r4
        if m.1 ≠ 0 then (m.1, { s2 with region := m.2 })
        else
          let a := rdr_field_areainfo_init cfg fc rdr_bch m.2.pool data mem3
          (a.1, rdr_show_base_info cfg fc hc rdr_bch false
            { s2 with region := { m.2 with pool := a.2 } } mem2)

/-- A concrete instance of the head constants: 72 head bytes in three BCH
blocks, 144 bytes of head ECC, the pool at offset 512 and a prefix of 896
bytes, which leaves 384 bytes to the pool: its header and four slots. -/
def hc0 : HeadConfig :=
  { FILE_MAGIC := 0x43495842, RDR_VERSION := 0x10000, RDR_CORE_MAX_INDEX := 3,
    RDR_BASEINFO_SIZE := 896, offsetof_ecc := 72, sizeof_head_ecc := 144, offsetof_pool := 512,
    RDR_BUILD_DATE_TIME_LEN := 16, RDR_PRODUCT_MAXLEN := 12,
    RDR_PRODUCT := [99, 105, 120], RDR_PRODUCT_VERSION := [49],
    MODULE_NAME_LEN := 12, STR_EXCEPTIONDESC_MAXLEN := 48, DATATIME_MAXLEN := 24,
    AP_S_COLDBOOT := 0 }

/-- A cold boot over the 1 MiB of `bk0`. -/
def board_cold : Board :=
  { reserved := bk0, reboot_type := 0, vmalloc_ok := true,
    builddatetime := [50, 48, 50, 53, 48, 49, 48, 49, 49, 50, 48, 48, 48, 48, 0, 0] }

/-- A warm boot over the same region. -/
def board_warm : Board := { board_cold with reboot_type := 1 }

/-- A cold boot on which `vmalloc` fails. -/
def board_cold_nomem : Board := { board_cold with vmalloc_ok := false }

/-- Memory of the region before the first boot: zeroes, with the pool header,
four directory slots and two slots of area payload at the end. -/
def blank_region : rdr_struct_s :=
  { top_head := List.replicate 72 0, ecc := List.replicate 144 0,
    base_info :=
      { modid := 0, arg1 := 0, arg2 := 0, e_core := 0, e_type := 0, e_subtype := 0,
        start_flag := 0, savefile_flag := 0, reboot_flag := 0,
        e_module := List.replicate 12 0, e_desc := List.replicate 48 0,
        datetime := List.replicate 24 0 },
    cleartext_savefile_flag := 0, pool := blank_pool 6 }

/-- The region as the first, cold boot leaves it. -/
def first_boot_region : rdr_struct_s :=
  (rdr_field_init cfg0 fc0 hc0 (some rep3) board_cold areas3
    { region := blank_region, g_rdr_head := false, g_last_rdr_head := none }
    mem0 mem0 mem0).2.region

/-- The directory entry of area 0 after the first boot with bit 33 of its
tuple flipped (bit 1 of the first `size` byte). -/
def stale_entry : rdr_safemem :=
  { entry_at first_boot_region.pool 2 with
    rawdata := fix_bits (entry_at first_boot_region.pool 2).rawdata 0 [33] }

/-- A region content found at a later boot: head, ECC and pool header of the
first boot, but the counter `curnum` reads 5, directory slot 2 is empty, and
the first payload slot (slot 4, at byte offset `RDR_BASEINFO_SIZE`) holds
`stale_entry`. -/
def prior_region : rdr_struct_s :=
  { first_boot_region with
    pool :=
      { first_boot_region.pool with
        curnum := 5
        mem := (first_boot_region.pool.mem.set 2 (zero_safemem cfg0)).set 4 stale_entry } }

/-- The state in which `rdr_field_init` finds the globals at boot. -/
def boot_state (r : rdr_struct_s) : field_state :=
  { region := r, g_rdr_head := false, g_last_rdr_head := none }

/-! ## `rdr_safemem_alloc` statement by statement -/

/-- A program point of `rdr_safemem_alloc`: the source line just executed,
whether this call holds `pool->lock`, and the contents of `*pool`. -/
structure alloc_point where
  line : Nat
  locked : Bool
  pool : rdr_safemem_pool
deriving DecidableEq, Repr

/-- The program points of one call `rdr_safemem_alloc(pool, id, size, mem)`
with non-null `pool` and `mem`, in execution order, from `spin_lock` (line
178) to the last store to `*pool`: the early returns unlock at lines 181, 187
and 201; otherwise `curnum++` (line 206), the stores of the tuple and of the
cursor (lines 208-218), `spin_unlock` (line 219), `rdr_bch_encode` (lines
221-223) and, when the encode failed, `spin_lock`, `curnum--` and
`spin_unlock` (lines 226-228).  A call that returns at line 176 has no
program point. -/
def alloc_points (cfg : Config) (rdr_bch : Option bch_control) (p : rdr_safemem_pool)
    (id size : Nat) : List alloc_point :=
  if p.magic ≠ SAFEMEM_POOL_MAGIC ∨ id = 0 then []
  else if p.curnum = p.maxnum then
    [{ line := 178, locked := true, pool := p }, { line := 181, locked := false, pool := p }]
  else if (p.mem.take p.curnum).any (fun e => id == safe_id e.rawdata) then
    [{ line := 178, locked := true, pool := p }, { line := 187, locked := false, pool := p }]
  else if no_room p size then
    [{ line := 178, locked := true, pool := p }, { line := 201, locked := false, pool := p }]
  else
    let slot := p.mem.getD p.curnum (zero_safemem cfg)
    let p1 : rdr_safemem_pool := { p with curnum := (p.curnum + 1) % U32 }
    let p2 : rdr_safemem_pool :=
      { p1 with
        cur_alloc_addr := alloc_cursor p size
        mem := p.mem.set p.curnum { slot with rawdata := alloc_raw p id size } }
    let enc := rdr_bch_encode cfg rdr_bch (alloc_raw p id size) SAFE_BYTES slot.ecc
      (sizeof_ecc cfg)
    let p3 : rdr_safemem_pool :=
      { p2 with mem := p.mem.set p.curnum { rawdata := alloc_raw p id size, ecc := enc.2 } }
    let pts : List alloc_point :=
      [{ line := 178, locked := true, pool := p }, { line := 206, locked := true, pool := p1 },
       { line := 218, locked := true, pool := p2 }, { line := 219, locked := false, pool := p2 },
       { line := 223, locked := false, pool := p3 }]
    if enc.1 ≠ 0 then
      pts ++
        [{ line := 226, locked := true, pool := p3 },
         { line := 227, locked := true,
           pool := { p3 with curnum := (p3.curnum + U32 - 1) % U32 } },
         { line := 228, locked := false,
           pool := { p3 with curnum := (p3.curnum + U32 - 1) % U32 } }]
    else pts

/-- The program point of a call at which the source line `l` has just been
executed, if the call reaches it. -/
def point_at (pts : List alloc_point) (l : Nat) : Option alloc_point :=
  pts.find? (fun x => x.line == l)

/-- A backing range of 4096 bytes that ends 4096 bytes below the top of the
address space. -/
def bk_high : bbox_mem := { vaddr := 0xffffffffffffe000, paddr := 0x80000000, size := 0x1000 }

/-- An upward pool over `bk_high`. -/
def pool_high : rdr_safemem_pool := init_pool cfg0 3 312 bk_high true

/-! ## After the backup: the rest of `rdr_field_init` -/

/-- The flag values of the absent header `rdr_field.h`, taken as parameters.
The value of a flag that was never set is the 0 of `rdr_field_baseinfo_init`. -/
structure FlagConfig where
  RDR_PROC_EXEC_START : Nat
  RDR_PROC_EXEC_DONE : Nat
  RDR_DUMP_LOG_START : Nat
  RDR_DUMP_LOG_DONE : Nat
  RDR_REBOOT_DONE : Nat

/-- The fields of `struct rdr_exception_info_s` that `rdr_fill_edata` reads. -/
structure rdr_exception_info_s where
  e_from_core : Nat
  e_exce_type : Nat
  e_exce_subtype : Nat
  e_from_module : List Nat
  e_desc : List Nat
deriving DecidableEq, Repr

/-- The function `rdr_field_baseinfo_reinit()`. -/
def rdr_field_baseinfo_reinit (hc : HeadConfig) (fl : FlagConfig) (r : rdr_struct_s) :
    rdr_struct_s :=
  { r with
    base_info :=
      { r.base_info with
        modid := 0, arg1 := 0, arg2 := 0, e_core := 0, e_type := 0, e_subtype := 0
        start_flag := fl.RDR_PROC_EXEC_START
        savefile_flag := fl.RDR_DUMP_LOG_START
        datetime := write_at r.base_info.datetime 0 (List.replicate hc.DATATIME_MAXLEN 0) }
    cleartext_savefile_flag := 0 }

/-- The function `rdr_field_dumplog_done()`. -/
def rdr_field_dumplog_done (fl : FlagConfig) (r : rdr_struct_s) : rdr_struct_s :=
  { r with base_info := { r.base_info with savefile_flag := fl.RDR_DUMP_LOG_DONE } }

/-- The function `rdr_field_procexec_done()`. -/
def rdr_field_procexec_done (fl : FlagConfig) (r : rdr_struct_s) : rdr_struct_s :=
  { r with base_info := { r.base_info with start_flag := fl.RDR_PROC_EXEC_DONE } }

/-- The function `rdr_field_reboot_done()`. -/
def rdr_field_reboot_done (fl : FlagConfig) (r : rdr_struct_s) : rdr_struct_s :=
  { r with base_info := { r.base_info with reboot_flag := fl.RDR_REBOOT_DONE } }

/-- The function `rdr_save_args(modid, arg1, arg2)`. -/
def rdr_save_args (modid arg1 arg2 : Nat) (r : rdr_struct_s) : rdr_struct_s :=
  { r with base_info := { r.base_info with modid := modid, arg1 := arg1, arg2 := arg2 } }

/-- The function `rdr_fill_edata(e, date)`: nothing is stored when `e` or
`date` is NULL. -/
def rdr_fill_edata (hc : HeadConfig) (e : Option rdr_exception_info_s)
    (date : Option (List Nat)) (r : rdr_struct_s) : rdr_struct_s :=
  match e, date with
  | some x, some d =>
    { r with
      base_info :=
        { r.base_info with
          e_core := x.e_from_core, e_type := x.e_exce_type, e_subtype := x.e_exce_subtype
          datetime := write_at r.base_info.datetime 0 (d.take hc.DATATIME_MAXLEN)
          e_module := write_at r.base_info.e_module 0 (x.e_from_module.take hc.MODULE_NAME_LEN)
          e_desc := write_at r.base_info.e_desc 0 (x.e_desc.take hc.STR_EXCEPTIONDESC_MAXLEN) } }
  | _, _ => r

/-- One call of a base-info operation, with its arguments. -/
inductive base_info_op where
  | save_args (modid arg1 arg2 : Nat)
  | fill_edata (e : Option rdr_exception_info_s) (date : Option (List Nat))
  | procexec_done
  | dumplog_done
  | reboot_done
  | baseinfo_reinit
deriving DecidableEq, Repr

/-- The region after one base-info operation. -/
def run_op (hc : HeadConfig) (fl : FlagConfig) (r : rdr_struct_s) : base_info_op → rdr_struct_s
  | .save_args modid arg1 arg2 => rdr_save_args modid arg1 arg2 r
  | .fill_edata e date => rdr_fill_edata hc e date r
  | .procexec_done => rdr_field_procexec_done fl r
  | .dumplog_done => rdr_field_dumplog_done fl r
  | .reboot_done => rdr_field_reboot_done fl r
  | .baseinfo_reinit => rdr_field_baseinfo_reinit hc fl r

/-- The region after a sequence of base-info operations, in call order. -/
def run_ops (hc : HeadConfig) (fl : FlagConfig) (r : rdr_struct_s) (ops : List base_info_op) :
    rdr_struct_s :=
  ops.foldl (run_op hc fl) r

/-- The stage of a lifecycle flag: 2 for the value `done`, 1 for the value
`start`, 0 (NONE) for anything else. -/
def stage (start done v : Nat) : Nat :=
  if v = done then 2 else if v = start then 1 else 0

/-- A concrete instance of the flag values. -/
def fl0 : FlagConfig :=
  { RDR_PROC_EXEC_START := 1, RDR_PROC_EXEC_DONE := 2, RDR_DUMP_LOG_START := 1,
    RDR_DUMP_LOG_DONE := 2, RDR_REBOOT_DONE := 1 }

/-- Linux errno `EPERM`. -/
def EPERM : Int := 1

/-- The constant `AMNTN_MODULE_NAME_LEN` of `rdr_ap_moddump.h`. -/
def AMNTN_MODULE_NAME_LEN : Nat := 12

/-- The constant `MEMID_MODULE_DUMP` of `rdr_ap_memid.h`. -/
def MEMID_MODULE_DUMP : Nat := 100

/-- The constant `MEMID_SUSPEND_INFO` of `rdr_ap_memid.h`. -/
def MEMID_SUSPEND_INFO : Nat := 220

/-- The type `struct module_dump_mem_info` of `rdr_ap_moddump.h`. -/
structure module_dump_mem_info where
  dump_funcptr : Option Nat
  mem : bbox_mem
  module_name : List Nat
deriving DecidableEq, Repr

/-- The type `struct property_table` of `rdr_ap_adapter.h`. -/
structure property_table where
  prop_name : Option (List Nat)
  size : Nat
deriving DecidableEq, Repr

/-- An entry of the zero-initialised static table `g_moddump`. -/
def zero_moddump : module_dump_mem_info :=
  { dump_funcptr := none, mem := { vaddr := 0, paddr := 0, size := 0 },
    module_name := List.replicate AMNTN_MODULE_NAME_LEN 0 }

/-- An entry of `g_modmem_prop` with no property: `{ NULL, 0 }`. -/
def zero_property : property_table := { prop_name := none, size := 0 }

/-- The function `get_module_dump_mem_addr(modu, dump_addr, size)`: the return
value and the contents of `*dump_addr` and `*size` afterwards.  The argument
`dump_addr` is `none` for a NULL pointer and else holds what it points to;
`size` is the contents of `*size`, which the code stores through unchecked.
`init_done` is the result of the absent `rdr_get_ap_init_done()`. -/
def get_module_dump_mem_addr (MODU_MAX : Nat) (init_done : Bool)
    (g_moddump : List module_dump_mem_info) (modu : Nat) (dump_addr : Option Nat)
    (size : Nat) : Int × Option Nat × Nat :=
  if !init_done then (-EPERM, dump_addr, size)
  else if modu ≥ MODU_MAX then (-EINVAL, dump_addr, size)
  else
    match dump_addr with
    | none => (-EINVAL, none, size)
    | some _ =>
      let e := g_moddump.getD modu zero_moddump
      if e.mem.size = 0 then (-EPERM, dump_addr, size)
      else if e.mem.vaddr = 0 then (-EINVAL, some e.mem.vaddr, size)
      else (0, some e.mem.vaddr, e.mem.size % U32)

/-- The call `strncpy(dest, src, n)`: the bytes of the string `src`, at most
`n` of them, then NUL bytes until `n` bytes are written. -/
def strncpy (dest src : List Nat) (n : Nat) : List Nat :=
  write_at dest 0
    ((src.take (min n (strlen src))) ++ List.replicate (n - min n (strlen src)) 0)

/-- The function `register_module_dump_mem_func(func, module_name, modu)`: the
return value and the new contents of `g_moddump`. -/
def register_module_dump_mem_func (MODU_MAX : Nat) (g_moddump : List module_dump_mem_info)
    (func : Option Nat) (module_name : Option (List Nat)) (modu : Nat) :
    Int × List module_dump_mem_info :=
  if modu ≥ MODU_MAX then (-EINVAL, g_moddump)
  else
    match func with
    | none => (-EINVAL, g_moddump)
    | some f =>
      match module_name with
      | none => (-EINVAL, g_moddump)
      | some nm =>
        let e := g_moddump.getD modu zero_moddump
        if e.mem.size ≠ 0 then
          (0, g_moddump.set modu
            { e with
                dump_funcptr := some f
                module_name := (strncpy e.module_name nm (AMNTN_MODULE_NAME_LEN - 1)).set
                  (AMNTN_MODULE_NAME_LEN - 1) 0 })
        else (-1, g_moddump)

/-- One call of a registered dump function: the function and its two
arguments `(void *)mem.vaddr` and `(unsigned int)mem.size`. -/
structure dump_call where
  func : Nat
  addr : Nat
  size : Nat
deriving DecidableEq, Repr

/-- What `save_module_dump_mem` leaves behind: the table, the calls made in
order, and the module names printed by `BB_ERR` for non-zero returns. -/
structure save_ret where
  g_moddump : List module_dump_mem_info
  calls : List dump_call
  failed : List (List Nat)
deriving DecidableEq, Repr

/-- The loop of `save_module_dump_mem`, lines 158-166, from index `i` with `n`
iterations left.  `cb` gives the value each dump function returns. -/
def save_loop (cb : dump_call → Int) (g_moddump : List module_dump_mem_info) :
    Nat → Nat → List dump_call × List (List Nat)
  | 0, _ => ([], [])
  | n + 1, i =>
    let e := g_moddump.getD i zero_moddump
    let rest := save_loop cb g_moddump n (i + 1)
    match e.dump_funcptr with
    | some f =>
      let c : dump_call := { func := f, addr := e.mem.vaddr, size := e.mem.size % U32 }
      (c :: rest.1, if cb c ≠ 0 then e.module_name :: rest.2 else rest.2)
    | none => rest

/-- The function `save_module_dump_mem()`.  It has no store to `g_moddump`. -/
def save_module_dump_mem (MODU_MAX : Nat) (cb : dump_call → Int)
    (g_moddump : List module_dump_mem_info) : save_ret :=
  { g_moddump := g_moddump
    calls := (save_loop cb g_moddump MODU_MAX 0).1
    failed := (save_loop cb g_moddump MODU_MAX 0).2 }

/-- The loop of `module_dump_init`, lines 47-58, from index `i` with `n`
iterations left: the new contents of `*pool` and of `g_moddump`. -/
def module_dump_loop (cfg : Config) (rdr_bch : Option bch_control)
    (g_modmem_prop : List property_table) :
    Nat → Nat → Option rdr_safemem_pool → List module_dump_mem_info →
    Option rdr_safemem_pool × List module_dump_mem_info
  | 0, _, pool, info => (pool, info)
  | n + 1, i, pool, info =>
    if (g_modmem_prop.getD i zero_property).size = 0 then
      module_dump_loop cfg rdr_bch g_modmem_prop n (i + 1) pool info
    else
      let e := info.getD i zero_moddump
      let r := rdr_safemem_alloc cfg rdr_bch pool ((MEMID_MODULE_DUMP + i) % U32)
        ((g_modmem_prop.getD i zero_property).size % U32) (some e.mem)
      let info1 := info.set i { e with mem := r.2.2.getD e.mem }
      if r.1 ≠ 0 then (r.2.1, info1)
      else module_dump_loop cfg rdr_bch g_modmem_prop n (i + 1) r.2.1 info1

/-- The function `module_dump_init(pdev, pool)`: the return value and the new
contents of `*pool` and of `g_moddump`.  The argument `loaded` is what the
absent `ap_prop_table_init` returns and leaves in `g_modmem_prop`. -/
def module_dump_init (cfg : Config) (rdr_bch : Option bch_control) (MODU_MAX : Nat)
    (loaded : Int × List property_table) (pool : Option rdr_safemem_pool)
    (g_moddump : List module_dump_mem_info) :
    Int × Option rdr_safemem_pool × List module_dump_mem_info :=
  if loaded.1 ≠ 0 then (loaded.1, pool, g_moddump)
  else (0, module_dump_loop cfg rdr_bch loaded.2 MODU_MAX 0 pool g_moddump)

/-- The pool after the calls `rdr_safemem_alloc(pool, MEMID_MODULE_DUMP + i,
size_i, &g_moddump[i].mem)` for the modules `i < k` that have a configured
size, made one after the other on the pool `p`: the pool the registry has
reached when it comes to module `k`. -/
def registry_pool (cfg : Config) (rdr_bch : Option bch_control)
    (g_modmem_prop : List property_table) (g_moddump : List module_dump_mem_info)
    (p : rdr_safemem_pool) : Nat → rdr_safemem_pool
  | 0 => p
  | k + 1 =>
    if (g_modmem_prop.getD k zero_property).size = 0 then
      registry_pool cfg rdr_bch g_modmem_prop g_moddump p k
    else
      (rdr_safemem_alloc cfg rdr_bch
        (some (registry_pool cfg rdr_bch g_modmem_prop g_moddump p k)) (MEMID_MODULE_DUMP + k)
        (g_modmem_prop.getD k zero_property).size
        (some (g_moddump.getD k zero_moddump).mem)).2.1.getD
        (registry_pool cfg rdr_bch g_modmem_prop g_moddump p k)

/-- A registry of four modules: module 1 has a region and a registered
function, module 2 a region only, modules 0 and 3 nothing. -/
def moddump4 : List module_dump_mem_info :=
  [ zero_moddump,
    { dump_funcptr := some 0xffff800008001000,
      mem := { vaddr := 0xffff800010000040, paddr := 0x80000040, size := 64 },
      module_name := [105, 100, 109, 0, 0, 0, 0, 0, 0, 0, 0, 0] },
    { dump_funcptr := none,
      mem := { vaddr := 0xffff800010000080, paddr := 0x80000080, size := 128 },
      module_name := List.replicate 12 0 },
    zero_moddump ]

/-- The registry `moddump4` with a second function registered for module 2. -/
def moddump4_two : List module_dump_mem_info :=
  (register_module_dump_mem_func 4 moddump4 (some 0xffff800008002000)
    (some [115, 109, 109, 117, 0]) 2).2

/-- A registry whose module 1 has a size but a NULL region address. -/
def moddump4_null : List module_dump_mem_info :=
  [ zero_moddump,
    { dump_funcptr := none, mem := { vaddr := 0, paddr := 0x80000040, size := 64 },
      module_name := List.replicate 12 0 },
    zero_moddump, zero_moddump ]

/-- A fourteen-byte module name, `"interconnect0"` with its NUL. -/
def name_long : List Nat :=
  [105, 110, 116, 101, 114, 99, 111, 110, 110, 101, 99, 116, 48, 0]

/-- A loaded property table for four modules: sizes 0, 64, 0 and 128. -/
def props4 : List property_table :=
  [ zero_property, { prop_name := some [97, 0], size := 64 }, zero_property,
    { prop_name := some [98, 0], size := 128 } ]

/-- A loaded property table whose module 1, of 2 MiB, does not fit the pool
`pool_4096`: sizes 64, 0x200000, 0 and 128. -/
def props4_big : List property_table :=
  [ { prop_name := some [99, 0], size := 64 },
    { prop_name := some [97, 0], size := 0x200000 }, zero_property,
    { prop_name := some [98, 0], size := 128 } ]

/-- The zero-initialised table `g_moddump` for four modules. -/
def moddump4_zero : List module_dump_mem_info := List.replicate 4 zero_moddump

/-! ## The suspend dump (`platform_ap/rdr_ap_suspend.c`) -/

/-- The constant `SUSPEND_MAGIC`, line 12. -/
def SUSPEND_MAGIC : Nat := 0x1F2E3D4C

/-- The constant `MAX_WAKEUP_NAME_LEN`, line 13. -/
def MAX_WAKEUP_NAME_LEN : Nat := 64

/-- The constant `MAX_WAKEUP_RECORD_NUM`, line 14. -/
def MAX_WAKEUP_RECORD_NUM : Nat := 20

/-- The fields of the kernel's `struct wakeup_source` that `ap_suspend_dump`
reads. -/
structure wakeup_source where
  name : List Nat
  total_time : Int
  max_time : Int
  last_time : Int
  start_prevent_time : Int
  prevent_sleep_time : Int
  event_count : Nat
  active_count : Nat
  relax_count : Nat
  expire_count : Nat
  wakeup_count : Nat
  active : Bool
  autosleep_enabled : Bool
deriving DecidableEq, Repr

/-- The type `struct wakeup_info`, lines 39-53. -/
structure wakeup_info where
  name : List Nat
  total_time : Int
  max_time : Int
  last_time : Int
  start_prevent_time : Int
  prevent_sleep_time : Int
  event_count : Nat
  active_count : Nat
  relax_count : Nat
  expire_count : Nat
  wakeup_count : Nat
  active : Bool
  autosleep_enabled : Bool
deriving DecidableEq, Repr

/-- The type `struct suspend_info`, lines 60-64, with `struct wakeup` inlined:
`num` is `wake_info.num` and `info` the array `wake_info.info`, of
`MAX_WAKEUP_RECORD_NUM` records.  `stats` holds the bytes of
`struct suspend_stats`. -/
structure suspend_info where
  magic : Nat
  stats : List Nat
  num : Int
  info : List wakeup_info
deriving DecidableEq, Repr

/-- A zeroed `struct wakeup_info`. -/
def zero_wakeup_info : wakeup_info :=
  { name := List.replicate MAX_WAKEUP_NAME_LEN 0, total_time := 0, max_time := 0,
    last_time := 0, start_prevent_time := 0, prevent_sleep_time := 0, event_count := 0,
    active_count := 0, relax_count := 0, expire_count := 0, wakeup_count := 0,
    active := false, autosleep_enabled := false }

/-- A zeroed `struct suspend_info`, as `memset` of line 77 leaves it.
`sizeof_stats` is `sizeof(struct suspend_stats)`. -/
def zero_suspend_info (sizeof_stats : Nat) : suspend_info :=
  { magic := 0, stats := List.replicate sizeof_stats 0, num := 0,
    info := List.replicate MAX_WAKEUP_RECORD_NUM zero_wakeup_info }

/-- The function `suspend_dump_init(pdev, pool)`: the return value, the new
contents of `*pool` and the new `g_suspend_info` with what it points to.
`sizeof_info` is `sizeof(struct suspend_info)`, `mem` the contents of the
uninitialised local `m_info`. -/
def suspend_dump_init (cfg : Config) (rdr_bch : Option bch_control)
    (sizeof_info sizeof_stats : Nat) (pool : Option rdr_safemem_pool) (mem : bbox_mem)
    (g_suspend_info : Option suspend_info) :
    Int × Option rdr_safemem_pool × Option suspend_info :=
  let r := rdr_safemem_alloc cfg rdr_bch pool MEMID_SUSPEND_INFO (sizeof_info % U32) (some mem)
  if r.1 ≠ 0 then (-1, r.2.1, g_suspend_info)
  else (0, r.2.1, some (zero_suspend_info sizeof_stats))

/-- The stores of lines 127-144 into one record of the array. -/
def wakeup_record (old : wakeup_info) (ws : wakeup_source) : wakeup_info :=
  let len := min (MAX_WAKEUP_NAME_LEN - 1) (strlen ws.name)
  { name := (write_at old.name 0 (ws.name.take len)).set len 0
    total_time := ws.total_time
    max_time := ws.max_time
    last_time := ws.last_time
    start_prevent_time := ws.start_prevent_time
    prevent_sleep_time := ws.prevent_sleep_time
    event_count := ws.event_count
    active_count := ws.active_count
    relax_count := ws.relax_count
    expire_count := ws.expire_count
    wakeup_count := ws.wakeup_count
    active := ws.active
    autosleep_enabled := ws.autosleep_enabled }

/-- The loop `for_each_wakeup_source(ws)`, lines 125-147, over the kernel's
list of wakeup sources: the new `struct suspend_info` and, in order, each index
`wake_info->num` at which a record was stored.  A store at an index outside
`0 .. MAX_WAKEUP_RECORD_NUM - 1` lands outside the array `info` and is recorded
in the list of indices only. -/
def wakeup_loop : List wakeup_source → suspend_info → suspend_info × List Int
  | [], s => (s, [])
  | ws :: rest, s =>
    let idx := s.num
    let info1 :=
      if 0 ≤ idx ∧ idx < MAX_WAKEUP_RECORD_NUM then
        s.info.set idx.toNat (wakeup_record (s.info.getD idx.toNat zero_wakeup_info) ws)
      else s.info
    let r := wakeup_loop rest { s with info := info1, num := s.num + 1 }
    (r.1, idx :: r.2)

/-- The function `ap_suspend_dump(modid, etype)`: the new `g_suspend_info` with
what it points to and the indices of `wake_info->info` stored at.
`MODID_AP_SUSPEND_DEVICE_FAIL` is a constant of an absent header, `sources`
the kernel's list of wakeup sources. -/
def ap_suspend_dump (MODID_AP_SUSPEND_DEVICE_FAIL : Nat) (sources : List wakeup_source)
    (g_suspend_info : Option suspend_info) (modid _etype : Nat) :
    Option suspend_info × List Int :=
  if modid ≠ MODID_AP_SUSPEND_DEVICE_FAIL then (g_suspend_info, [])
  else
    match g_suspend_info with
    | none => (none, [])
    | some s =>
      let s1 := { s with stats := List.replicate s.stats.length 0 }
      let r := wakeup_loop sources s1
      (some { r.1 with magic := SUSPEND_MAGIC }, r.2)

/-- Repeated calls of `ap_suspend_dump` with the same arguments: the state
after `n` calls and the indices stored at, call by call. -/
def ap_suspend_dump_times (MODID_AP_SUSPEND_DEVICE_FAIL : Nat) (sources : List wakeup_source)
    (modid etype : Nat) : Nat → Option suspend_info → Option suspend_info × List (List Int)
  | 0, g => (g, [])
  | n + 1, g =>
    let r := ap_suspend_dump MODID_AP_SUSPEND_DEVICE_FAIL sources g modid etype
    let rest := ap_suspend_dump_times MODID_AP_SUSPEND_DEVICE_FAIL sources modid etype n r.1
    (rest.1, r.2 :: rest.2)

/-- A wakeup source named `"ws"`. -/
def ws0 : wakeup_source :=
  { name := [119, 115, 0], total_time := 5, max_time := 3, last_time := 9,
    start_prevent_time := 0, prevent_sleep_time := 0, event_count := 2, active_count := 2,
    relax_count := 2, expire_count := 0, wakeup_count := 1, active := false,
    autosleep_enabled := false }

/-- The call the registry owes an entry, in the spec's words: none for an
entry without a function, else the function with the entry's stored address
and size. -/
def spec_dump_call (e : module_dump_mem_info) : Option dump_call :=
  e.dump_funcptr.map (fun f => { func := f, addr := e.mem.vaddr, size := e.mem.size })

/-- A dump function that fails for the function at `0xffff800008001000` and
succeeds for every other one. -/
def cb_first_fails (c : dump_call) : Int := if c.func = 0xffff800008001000 then -5 else 0

/-- Whether the call owed an entry returns non-zero under `cb`. -/
def spec_call_fails (cb : dump_call → Int) (e : module_dump_mem_info) : Bool :=
  match spec_dump_call e with
  | some c => decide (cb c ≠ 0)
  | none => false

/-- The suspend slot right after `suspend_dump_init` on the pool `pool_small`,
with `sizeof(struct suspend_info) = 3232` and
`sizeof(struct suspend_stats) = 176`. -/
def suspend_slot0 : Option suspend_info :=
  (suspend_dump_init cfg0 (some rep3) 3232 176 (some pool_small) mem0 none).2.2

/-! ## Tiling of the head pool by the areas -/

/-- The spec's tiling, in its words: the regions of the entries `l`, taken in
order, lie end to end, the first starting at address `a` and the last ending
at address `b`, so that no byte between `a` and `b` is left out. -/
def tiles : Nat → List rdr_safemem → Nat → Bool
  | a, [], b => decide (a = b)
  | a, e :: l, b => decide (safe_vaddr e.rawdata = a) && tiles (a + safe_size e.rawdata) l b

/-- A valid downward pool above the first 4 GiB of the address space whose
live entries, last allocated first, tile the range from the cursor to `top`. -/
def tiled_down (top : Nat) (p : rdr_safemem_pool) : Prop :=
  pool_wf p ∧ p.low_to_high = false ∧ U32 ≤ p.base_alloc_addr ∧
  p.base_alloc_addr ≤ p.cur_alloc_addr ∧ tiles p.cur_alloc_addr (live p).reverse top = true

/-- The head pool as `rdr_field_mempool_init` leaves it on the board
`board_cold`. -/
def fresh_head : rdr_struct_s := (rdr_field_mempool_init cfg0 hc0 board_cold first_boot_region).2

/-- The head pool `fresh_head.pool` after `rdr_field_areainfo_init` with the
area table `areas3`. -/
def tiled_pool : rdr_safemem_pool :=
  (rdr_field_areainfo_init cfg0 fc0 (some rep3) fresh_head.pool areas3 mem0).2

/-- A cold boot over a reserved region of `0x1380` bytes mapped at the low
address `0xc80`: behind the 896 bytes of base info, the payload is
`[0x1000, 0x2000)`. -/
def board_low : Board :=
  { board_cold with reserved := { vaddr := 0xc80, paddr := 0x80000000, size := 0x1380 } }

/-- The head as `rdr_field_top_init` and `rdr_field_mempool_init` leave it on
the board `board_low`. -/
def low_head : rdr_struct_s :=
  (rdr_field_mempool_init cfg0 hc0 board_low
    (rdr_field_top_init cfg0 hc0 (some rep3) board_low blank_region).2).2

/-- An area table with three areas: 100 bytes for area 1 and `0x3000` bytes,
three times the payload of `board_low`, for area 2. -/
def areas3_big : rdr_area_data := { value := 3, data := [0, 100, 0x3000] }

/-! # Theorems -/

/-! ## Layout lemmas -/
theorem le_bytes_length (n w : Nat) : (le_bytes n w).length = w := by
  induction w generalizing n with
  | zero => rfl
  | succ w ih => simp [le_bytes, ih]

theorem le_bytes_lt (n w : Nat) : ∀ b ∈ le_bytes n w, b < 256 := by
  induction w generalizing n with
  | zero => intro b hb; simp [le_bytes] at hb
  | succ w ih =>
    intro b hb
    simp only [le_bytes, List.mem_cons] at hb
    rcases hb with h | h
    · omega
    · exact ih _ b h

theorem pack_safe_length (id size vaddr paddr : Nat) :
    (pack_safe id size vaddr paddr).length = SAFE_BYTES := by
  simp [pack_safe, le_bytes_length, SAFE_BYTES]

theorem pack_safe_lt (id size vaddr paddr : Nat) :
    ∀ b ∈ pack_safe id size vaddr paddr, b < 256 := by
  intro b hb
  simp only [pack_safe, List.mem_append] at hb
  rcases hb with ((h | h) | h) | h <;> exact le_bytes_lt _ _ b h

theorem safe_id_pack (id size vaddr paddr : Nat) :
    safe_id (pack_safe id size vaddr paddr) = id % U32 := by
  simp [safe_id, pack_safe, le_bytes, le_val, U32]
  omega

theorem safe_size_pack (id size vaddr paddr : Nat) :
    safe_size (pack_safe id size vaddr paddr) = size % U32 := by
  simp [safe_size, pack_safe, le_bytes, le_val, U32]
  omega

theorem safe_vaddr_pack (id size vaddr paddr : Nat) :
    safe_vaddr (pack_safe id size vaddr paddr) = vaddr % U64 := by
  simp [safe_vaddr, pack_safe, le_bytes, le_val, U64]
  omega

theorem safe_paddr_pack (id size vaddr paddr : Nat) :
    safe_paddr (pack_safe id size vaddr paddr) = paddr % U64 := by
  simp [safe_paddr, pack_safe, le_bytes, le_val, U64]
  omega

theorem entry_encode (cfg : Config) (c : bch_control) (raw ecc : List Nat)
    (hwf : cfg.wf) (hlen : raw.length = SAFE_BYTES) :
    rdr_bch_encode cfg (some c) raw SAFE_BYTES ecc cfg.RDR_BCH_ECC_BYTES
      = (0, write_at ecc 0 (c.encode raw)) := by
  obtain ⟨h1, h2, h3, _⟩ := hwf
  simp only [SAFE_BYTES] at h1 hlen
  have hpos : 0 < cfg.RDR_BCH_MAX_BYTES := by omega
  have hmod : (24 + cfg.RDR_BCH_MAX_BYTES - 1) % U32 = cfg.RDR_BCH_MAX_BYTES + 23 := by
    simp only [U32]; omega
  have hdiv : (cfg.RDR_BCH_MAX_BYTES + 23) / cfg.RDR_BCH_MAX_BYTES = 1 :=
    Nat.div_eq_of_lt_le (by omega) (by omega)
  have hecc : (1 * cfg.RDR_BCH_ECC_BYTES) % U32 = cfg.RDR_BCH_ECC_BYTES := by
    simp only [U32]; omega
  have htake : List.take cfg.RDR_BCH_MAX_BYTES raw = raw :=
    List.take_of_length_le (by omega)
  have htake24 : List.take 24 raw = raw := List.take_of_length_le (by omega)
  unfold rdr_bch_encode
  simp only [SAFE_BYTES, hmod, hdiv, hecc, lt_irrefl, if_false]
  by_cases h24 : cfg.RDR_BCH_MAX_BYTES = 24
  · simp [h24, encode_loop, htake24]
  · have hlt : 24 < cfg.RDR_BCH_MAX_BYTES := by omega
    have hd0 : 24 / cfg.RDR_BCH_MAX_BYTES = 0 := Nat.div_eq_of_lt hlt
    have hm0 : 24 % cfg.RDR_BCH_MAX_BYTES = 24 := Nat.mod_eq_of_lt hlt
    simp [hd0, hm0, encode_loop, htake24]

theorem entry_checkout (cfg : Config) (c : bch_control) (raw ecc : List Nat)
    (hwf : cfg.wf) (hlen : raw.length = SAFE_BYTES) :
    rdr_bch_checkout cfg (some c) raw SAFE_BYTES ecc cfg.RDR_BCH_ECC_BYTES
      = match c.decode raw (ecc.take cfg.RDR_BCH_ECC_BYTES) with
        | none => { ret := -EIO_errno, data := raw, printed := none }
        | some L => { ret := 0, data := fix_bits raw 0 L,
                      printed := if L.length ≠ 0 then some L.length else none } := by
  obtain ⟨h1, h2, h3, _⟩ := hwf
  simp only [SAFE_BYTES] at h1 hlen
  have hpos : 0 < cfg.RDR_BCH_MAX_BYTES := by omega
  have hmod : (24 + cfg.RDR_BCH_MAX_BYTES - 1) % U32 = cfg.RDR_BCH_MAX_BYTES + 23 := by
    simp only [U32]; omega
  have hdiv : (cfg.RDR_BCH_MAX_BYTES + 23) / cfg.RDR_BCH_MAX_BYTES = 1 :=
    Nat.div_eq_of_lt_le (by omega) (by omega)
  have hecc : (1 * cfg.RDR_BCH_ECC_BYTES) % U32 = cfg.RDR_BCH_ECC_BYTES := by
    simp only [U32]; omega
  have htake : List.take cfg.RDR_BCH_MAX_BYTES raw = raw :=
    List.take_of_length_le (by omega)
  have htake24 : List.take 24 raw = raw := List.take_of_length_le (by omega)
  unfold rdr_bch_checkout
  simp only [SAFE_BYTES, hmod, hdiv, hecc, lt_irrefl, if_false]
  by_cases h24 : cfg.RDR_BCH_MAX_BYTES = 24
  · simp only [h24, Nat.div_self, Nat.mod_self, checkout_loop, List.drop_zero, htake24]
    cases hdec : c.decode raw (List.take cfg.RDR_BCH_ECC_BYTES ecc) <;> simp [checkout_loop]
  · have hlt : 24 < cfg.RDR_BCH_MAX_BYTES := by omega
    have hd0 : 24 / cfg.RDR_BCH_MAX_BYTES = 0 := Nat.div_eq_of_lt hlt
    have hm0 : 24 % cfg.RDR_BCH_MAX_BYTES = 24 := Nat.mod_eq_of_lt hlt
    simp only [hd0, hm0, checkout_loop, List.drop_zero, htake24]
    cases hdec : c.decode raw (List.take cfg.RDR_BCH_ECC_BYTES ecc) <;> simp

/-! ## Single calls of `rdr_safemem_alloc` -/

theorem take_set_same {α : Type} (l : List α) (n : Nat) (x : α) :
    (l.set n x).take n = l.take n := by
  induction l generalizing n with
  | nil => simp
  | cons a l ih => cases n with
    | zero => simp
    | succ n => simp [ih]

theorem take_succ_set {α : Type} (l : List α) (n : Nat) (x : α) (h : n < l.length) :
    (l.set n x).take (n + 1) = l.take n ++ [x] := by
  induction l generalizing n with
  | nil => simp at h
  | cons a l ih => cases n with
    | zero => simp
    | succ n =>
      simp only [List.length_cons, Nat.add_lt_add_iff_right] at h
      simp [ih n h]

theorem any_live_false (p : rdr_safemem_pool) (id : Nat)
    (h : ∀ e ∈ live p, safe_id e.rawdata ≠ id) :
    (List.take p.curnum p.mem).any (fun e => id == safe_id e.rawdata) = false := by
  rw [List.any_eq_false]
  intro e he
  have := h e he
  simp
  exact fun h' => this h'.symm

theorem any_live_true (p : rdr_safemem_pool) (id : Nat)
    (h : ∃ e ∈ live p, safe_id e.rawdata = id) :
    (List.take p.curnum p.mem).any (fun e => id == safe_id e.rawdata) = true := by
  obtain ⟨e, he, hid⟩ := h
  rw [List.any_eq_true]
  exact ⟨e, he, by simp [hid]⟩

/-- Directory full: `-ENOMEM`, nothing written. -/
theorem alloc_full (cfg : Config) (bch : Option bch_control) (p : rdr_safemem_pool)
    (id size : Nat) (m : bbox_mem) (hmagic : p.magic = SAFEMEM_POOL_MAGIC) (hid : id ≠ 0)
    (hfull : p.curnum = p.maxnum) :
    rdr_safemem_alloc cfg bch (some p) id size (some m) = (-ENOMEM, some p, some m) := by
  simp [rdr_safemem_alloc, hmagic, hid, hfull]

/-- Duplicate id in a directory that is not full: `-EINVAL`, nothing written. -/
theorem alloc_dup (cfg : Config) (bch : Option bch_control) (p : rdr_safemem_pool)
    (id size : Nat) (m : bbox_mem) (hmagic : p.magic = SAFEMEM_POOL_MAGIC) (hid : id ≠ 0)
    (hnf : p.curnum ≠ p.maxnum) (hdup : ∃ e ∈ live p, safe_id e.rawdata = id) :
    rdr_safemem_alloc cfg bch (some p) id size (some m) = (-EINVAL, some p, some m) := by
  have := any_live_true p id hdup
  simp [rdr_safemem_alloc, hmagic, hid, hnf, this]

/-- No room in the backing range: `-ENOMEM`, nothing written. -/
theorem alloc_no_room (cfg : Config) (bch : Option bch_control) (p : rdr_safemem_pool)
    (id size : Nat) (m : bbox_mem) (hmagic : p.magic = SAFEMEM_POOL_MAGIC) (hid : id ≠ 0)
    (hnf : p.curnum ≠ p.maxnum) (hfresh : ∀ e ∈ live p, safe_id e.rawdata ≠ id)
    (hroom : no_room p size = true) :
    rdr_safemem_alloc cfg bch (some p) id size (some m) = (-ENOMEM, some p, some m) := by
  have := any_live_false p id hfresh
  unfold no_room at hroom
  simp [rdr_safemem_alloc, hmagic, hid, hnf, this, hroom]

/-- All checks pass and the codec is available: the call succeeds. -/
theorem alloc_ok (cfg : Config) (c : bch_control) (p : rdr_safemem_pool)
    (id size : Nat) (m : bbox_mem) (hwf : cfg.wf) (hmagic : p.magic = SAFEMEM_POOL_MAGIC)
    (hid : id ≠ 0) (hnf : p.curnum ≠ p.maxnum)
    (hfresh : ∀ e ∈ live p, safe_id e.rawdata ≠ id) (hroom : no_room p size = false) :
    rdr_safemem_alloc cfg (some c) (some p) id size (some m) =
      (0, some (alloc_pool_ok cfg c p id size), some (alloc_out p id size)) := by
  have hany := any_live_false p id hfresh
  unfold no_room at hroom
  have henc := entry_encode cfg c (alloc_raw p id size)
    (p.mem.getD p.curnum (zero_safemem cfg)).ecc hwf (pack_safe_length _ _ _ _)
  unfold alloc_raw alloc_vaddr alloc_paddr alloc_vaddr at henc
  simp only [rdr_safemem_alloc, sizeof_ecc, hmagic, hid, hnf, hany, hroom, henc]
  simp [alloc_pool_ok, alloc_entry, alloc_cursor, alloc_raw, alloc_vaddr, alloc_paddr, alloc_out,
    hmagic]

/-- All checks pass but the codec is not constructed: `-ENOMEM`, the entry
count is put back, the slot and the cursor keep what was written. -/
theorem alloc_no_codec (cfg : Config) (p : rdr_safemem_pool)
    (id size : Nat) (m : bbox_mem) (hmagic : p.magic = SAFEMEM_POOL_MAGIC)
    (hid : id ≠ 0) (hnf : p.curnum ≠ p.maxnum)
    (hfresh : ∀ e ∈ live p, safe_id e.rawdata ≠ id) (hroom : no_room p size = false) :
    rdr_safemem_alloc cfg none (some p) id size (some m) =
      (-ENOMEM, some (alloc_pool_rollback cfg p id size), some m) := by
  have hany := any_live_false p id hfresh
  unfold no_room at hroom
  simp only [rdr_safemem_alloc, hmagic, hid, hnf, hany, hroom, rdr_bch_encode]
  simp [alloc_pool_rollback, alloc_cursor, alloc_raw, alloc_vaddr, alloc_paddr, ENODEV, hmagic]

/-- The three outcomes of `rdr_safemem_alloc` on a pool whose magic is set. -/
theorem alloc_cases (cfg : Config) (c : bch_control) (bch : Option bch_control)
    (p q : rdr_safemem_pool) (id size : Nat) (m : bbox_mem) (m' : Option bbox_mem) (r : Int)
    (hwf : cfg.wf) (hmagic : p.magic = SAFEMEM_POOL_MAGIC) (hb : bch = none ∨ bch = some c)
    (h : rdr_safemem_alloc cfg bch (some p) id size (some m) = (r, some q, m')) :
    (q = p ∧ m' = some m ∧ (r = -EINVAL ∨ r = -ENOMEM)) ∨
    (bch = none ∧ r = -ENOMEM ∧ m' = some m ∧ id ≠ 0 ∧ p.curnum ≠ p.maxnum ∧
      (∀ e ∈ live p, safe_id e.rawdata ≠ id) ∧ no_room p size = false ∧
      q = alloc_pool_rollback cfg p id size) ∨
    (bch = some c ∧ r = 0 ∧ m' = some (alloc_out p id size) ∧ id ≠ 0 ∧ p.curnum ≠ p.maxnum ∧
      (∀ e ∈ live p, safe_id e.rawdata ≠ id) ∧ no_room p size = false ∧
      q = alloc_pool_ok cfg c p id size) := by
  by_cases hid : id = 0
  · left
    simp [rdr_safemem_alloc, hid] at h
    obtain ⟨h1, h2, h3⟩ := h
    exact ⟨h2.symm, h3.symm, Or.inl h1.symm⟩
  by_cases hfull : p.curnum = p.maxnum
  · left
    rw [alloc_full cfg bch p id size m hmagic hid hfull] at h
    simp only [Prod.mk.injEq, Option.some.injEq] at h
    exact ⟨h.2.1.symm, h.2.2.symm, Or.inr h.1.symm⟩
  by_cases hdup : ∃ e ∈ live p, safe_id e.rawdata = id
  · left
    rw [alloc_dup cfg bch p id size m hmagic hid hfull hdup] at h
    simp only [Prod.mk.injEq, Option.some.injEq] at h
    exact ⟨h.2.1.symm, h.2.2.symm, Or.inl h.1.symm⟩
  have hfresh : ∀ e ∈ live p, safe_id e.rawdata ≠ id := by
    intro e he hidd
    exact hdup ⟨e, he, hidd⟩
  cases hroom : no_room p size with
  | true =>
    left
    rw [alloc_no_room cfg bch p id size m hmagic hid hfull hfresh hroom] at h
    simp only [Prod.mk.injEq, Option.some.injEq] at h
    exact ⟨h.2.1.symm, h.2.2.symm, Or.inr h.1.symm⟩
  | false =>
    right
    rcases hb with hb | hb
    · left
      subst hb
      rw [alloc_no_codec cfg p id size m hmagic hid hfull hfresh hroom] at h
      simp only [Prod.mk.injEq, Option.some.injEq] at h
      exact ⟨rfl, h.1.symm, h.2.2.symm, hid, hfull, hfresh, rfl, h.2.1.symm⟩
    · right
      subst hb
      rw [alloc_ok cfg c p id size m hwf hmagic hid hfull hfresh hroom] at h
      simp only [Prod.mk.injEq, Option.some.injEq] at h
      exact ⟨rfl, h.1.symm, h.2.2.symm, hid, hfull, hfresh, rfl, h.2.1.symm⟩

theorem add64_lt (a b : Nat) : add64 a b < U64 := by
  unfold add64 U64; omega

theorem sub64_lt (a b : Nat) : sub64 a b < U64 := by
  unfold sub64 U64; omega

theorem alloc_cursor_lt (p : rdr_safemem_pool) (size : Nat) : alloc_cursor p size < U64 := by
  unfold alloc_cursor; split
  · exact add64_lt _ _
  · exact sub64_lt _ _

theorem live_rollback (cfg : Config) (p : rdr_safemem_pool) (id size : Nat)
    (hcur : p.curnum < U32) :
    live (alloc_pool_rollback cfg p id size) = live p := by
  have : ((p.curnum + 1) % U32 + U32 - 1) % U32 = p.curnum := by
    unfold U32 at *; omega
  simp [live, alloc_pool_rollback, this, take_set_same]

theorem live_ok (cfg : Config) (c : bch_control) (p : rdr_safemem_pool) (id size : Nat)
    (hcur : p.curnum + 1 < U32) (hlen : p.curnum < p.mem.length) :
    live (alloc_pool_ok cfg c p id size) = live p ++ [alloc_entry cfg c p id size] := by
  have : (p.curnum + 1) % U32 = p.curnum + 1 := Nat.mod_eq_of_lt hcur
  simp [live, alloc_pool_ok, this, take_succ_set _ _ _ hlen]

theorem pool_wf_rollback (cfg : Config) (p : rdr_safemem_pool) (id size : Nat)
    (hp : pool_wf p) : pool_wf (alloc_pool_rollback cfg p id size) := by
  obtain ⟨h1, h2, h3, h4, h5, h6, h7, h8, h9, h10⟩ := hp
  have hlive := live_rollback cfg p id size (by omega)
  have hcn : ((p.curnum + 1) % U32 + U32 - 1) % U32 = p.curnum := by
    unfold U32 at *; omega
  unfold pool_wf
  rw [hlive]
  unfold live_ids
  rw [hlive]
  simp only [alloc_pool_rollback, hcn, List.length_set]
  exact ⟨h1, h2, h3, h4, h5, h6, alloc_cursor_lt p size, h8, h9, h10⟩

theorem pool_wf_ok (cfg : Config) (c : bch_control) (p : rdr_safemem_pool) (id size : Nat)
    (hp : pool_wf p) (hid : id ≠ 0) (hid32 : id < U32) (hnf : p.curnum ≠ p.maxnum)
    (hfresh : ∀ e ∈ live p, safe_id e.rawdata ≠ id) :
    pool_wf (alloc_pool_ok cfg c p id size) := by
  obtain ⟨h1, h2, h3, h4, h5, h6, h7, h8, h9, h10⟩ := hp
  have hlive := live_ok cfg c p id size (by omega) (by omega)
  have hcn : (p.curnum + 1) % U32 = p.curnum + 1 := Nat.mod_eq_of_lt (by omega)
  have hsid : safe_id (alloc_entry cfg c p id size).rawdata = id := by
    simp only [alloc_entry, alloc_raw, safe_id_pack]
    exact Nat.mod_eq_of_lt hid32
  unfold pool_wf
  refine ⟨?_, ?_, ?_, ?_, ?_, ?_, ?_, ?_, ?_, ?_⟩
  · exact h1
  · show (p.curnum + 1) % U32 ≤ p.maxnum
    omega
  · exact h3
  · show p.maxnum ≤ (p.mem.set _ _).length
    simpa using h4
  · exact h5
  · exact h6
  · exact alloc_cursor_lt p size
  · exact h8
  · rw [hlive]
    intro e he
    rcases List.mem_append.mp he with he | he
    · exact h9 e he
    · simp only [List.mem_singleton] at he
      subst he
      refine ⟨?_, ?_, ?_⟩
      · exact pack_safe_length _ _ _ _
      · exact pack_safe_lt _ _ _ _
      · rw [hsid]; exact hid
  · unfold live_ids
    rw [hlive, List.map_append, List.nodup_append]
    refine ⟨h10, by simp, ?_⟩
    intro a ha hb
    simp only [List.map_cons, List.map_nil, List.mem_singleton] at hb
    rw [hsid] at hb
    obtain ⟨e, he, hea⟩ := List.mem_map.mp ha
    exact hfresh e he (by rw [hea, hb])

theorem pool_wf_init (cfg : Config) (p q : rdr_safemem_pool) (nm : List Nat) (size : Nat)
    (m : bbox_mem) (dir : Bool) (hv : m.vaddr < U64) (hpa : m.paddr < U64)
    (h : rdr_safemem_pool_init cfg (some p) (some nm) size (some m) dir = (0, some q)) :
    pool_wf q ∧ q.curnum = 0 := by
  simp only [rdr_safemem_pool_init] at h
  split at h
  · simp [EINVAL] at h
  · simp only [Prod.mk.injEq, Option.some.injEq, true_and] at h
    subst h
    have hU : 0 < U32 := by unfold U32; omega
    unfold pool_wf
    refine ⟨⟨rfl, Nat.zero_le _, Nat.mod_lt _ hU, ?_, hv, add64_lt _ _, ?_, hpa, ?_, ?_⟩, rfl⟩
    · simp
    · show (if dir = true then m.vaddr else add64 m.vaddr m.size) < U64
      split
      · exact hv
      · exact add64_lt _ _
    · intro e he; simp [live] at he
    · simp [live_ids, live]

/-- Every reachable pool is valid. -/
theorem reachable_wf (cfg : Config) (c : bch_control) (p : rdr_safemem_pool)
    (hwf : cfg.wf) (h : Reachable cfg c p) : pool_wf p := by
  induction h with
  | init p q nm size m dir _ hv hpa _ hinit => exact (pool_wf_init cfg p q nm size m dir hv hpa hinit).1
  | alloc p q bch id size m m' r _ hb hid _ hal ih =>
    rcases alloc_cases cfg c bch p q id size m m' r hwf ih.1 hb hal with
      ⟨hq, _, _⟩ | ⟨_, _, _, _, _, _, _, hq⟩ | ⟨_, _, _, hid0, hnf, hfresh, _, hq⟩
    · rw [hq]; exact ih
    · rw [hq]; exact pool_wf_rollback cfg p id size ih
    · rw [hq]; exact pool_wf_ok cfg c p id size ih hid0 hid hnf hfresh

/-! ## Lookup -/

theorem find_id_none (id : Nat) (l : List rdr_safemem) (i : Nat)
    (h : ∀ e ∈ l, safe_id e.rawdata ≠ id) : find_id id l i = none := by
  induction l generalizing i with
  | nil => rfl
  | cons a l ih =>
    have ha : id ≠ safe_id a.rawdata := fun h' => h a (List.mem_cons_self _ _) h'.symm
    simp only [find_id, ha, if_false]
    exact ih (i + 1) (fun e he => h e (List.mem_cons_of_mem _ he))

theorem find_id_append (id : Nat) (l1 l2 : List rdr_safemem) (e : rdr_safemem) (i : Nat)
    (h : ∀ x ∈ l1, safe_id x.rawdata ≠ id) (he : safe_id e.rawdata = id) :
    find_id id (l1 ++ e :: l2) i = some (i + l1.length) := by
  induction l1 generalizing i with
  | nil => simp [find_id, he]
  | cons a l ih =>
    have ha : id ≠ safe_id a.rawdata := fun h' => h a (List.mem_cons_self _ _) h'.symm
    rw [List.cons_append]
    simp only [find_id, ha, if_false, List.length_cons]
    rw [ih (i + 1) (fun x hx => h x (List.mem_cons_of_mem _ hx))]
    congr 1; omega

/-- C9 (lookup miss): on a valid pool, for a non-zero id that none of the
first `curnum` directory entries carries, `rdr_safemem_get` returns `-ENOMEM`
(not `-EIO`, not 0), does not call `rdr_bch_checkout`, and leaves the pool and
the caller's record as they were. -/
theorem C9_lookup_miss (cfg : Config) (bch : Option bch_control) (p : rdr_safemem_pool)
    (id : Nat) (m : bbox_mem) (hp : pool_wf p) (hid : id ≠ 0)
    (hmiss : ∀ e ∈ live p, safe_id e.rawdata ≠ id) :
    rdr_safemem_get cfg bch (some p) id (some m) =
      { ret := -ENOMEM, pool := some p, mem := some m, printed := none, checked := false } := by
  have hf := find_id_none id (live p) 0 hmiss
  unfold live at hf
  simp [rdr_safemem_get, hp.1, hid, hf]

/-- Instance of C9: `get(8)` on a pool that holds only id 7. -/
theorem C9_lookup_miss_witness :
    rdr_safemem_get cfg0 (some rep3) (some pool7) 8 (some mem0) =
      { ret := -ENOMEM, pool := some pool7, mem := some mem0, printed := none,
        checked := false } :=
  C9_lookup_miss cfg0 (some rep3) pool7 8 mem0 (by decide) (by decide) (by decide)

/-! ## Initialisation -/

/-- C10 (pool_init floor): with non-null `pool`, `name` and `mem`,
`rdr_safemem_pool_init` returns `-EINVAL` if and only if `size` is smaller
than `sizeof(struct rdr_safemem_pool) + 2 * sizeof(struct rdr_safemem)`; it
returns 0 otherwise, and whenever it does not return 0 the pool structure is
exactly what it was before the call. -/
theorem C10_pool_init_floor (cfg : Config) (p : rdr_safemem_pool) (nm : List Nat) (size : Nat)
    (m : bbox_mem) (dir : Bool) :
    ((rdr_safemem_pool_init cfg (some p) (some nm) size (some m) dir).1 = -EINVAL ↔
      size < cfg.sizeof_pool + 2 * cfg.sizeof_safemem) ∧
    ((rdr_safemem_pool_init cfg (some p) (some nm) size (some m) dir).1 = -EINVAL ∨
      (rdr_safemem_pool_init cfg (some p) (some nm) size (some m) dir).1 = 0) ∧
    ((rdr_safemem_pool_init cfg (some p) (some nm) size (some m) dir).1 ≠ 0 →
      (rdr_safemem_pool_init cfg (some p) (some nm) size (some m) dir).2 = some p) := by
  by_cases h : size < cfg.sizeof_pool + 2 * cfg.sizeof_safemem
  · simp [rdr_safemem_pool_init, h]
  · simp [rdr_safemem_pool_init, h, EINVAL]

/-! ## Duplicate ids -/

theorem reachable_pool_small : Reachable cfg0 rep3 pool_small :=
  Reachable.init (blank_pool 3) pool_small name0 312 bk0 false (by decide) (by decide)
    (by decide) (by decide) (by decide)

theorem reachable_pool7 : Reachable cfg0 rep3 pool7 :=
  Reachable.alloc pool_small pool7 (some rep3) 7 64 mem0
    (some (alloc_out pool_small 7 64)) 0 reachable_pool_small (Or.inr rfl) (by decide)
    (by decide) (by decide)

theorem reachable_pool78 : Reachable cfg0 rep3 pool78 :=
  Reachable.alloc pool7 pool78 (some rep3) 8 128 mem0
    (some (alloc_out pool7 8 128)) 0 reachable_pool7 (Or.inr rfl) (by decide)
    (by decide) (by decide)

/-- C1, as amended: on every pool reached from `rdr_safemem_pool_init` by
`rdr_safemem_alloc` calls, a further `rdr_safemem_alloc` with an id already
among the first `curnum` entries fails, for any size and any codec state, and
leaves the pool and the caller's record unchanged.  The error is `-EINVAL`
(the code also used for invalid arguments) when the directory is not full and
`-ENOMEM` when it is full. -/
theorem C1_duplicate_id_rejected (cfg : Config) (c : bch_control) (bch : Option bch_control)
    (p : rdr_safemem_pool) (id size : Nat) (m : bbox_mem) (hwf : cfg.wf)
    (hr : Reachable cfg c p) (hdup : ∃ e ∈ live p, safe_id e.rawdata = id) :
    rdr_safemem_alloc cfg bch (some p) id size (some m) =
      (if p.curnum = p.maxnum then -ENOMEM else -EINVAL, some p, some m) := by
  have hp := reachable_wf cfg c p hwf hr
  have hid : id ≠ 0 := by
    obtain ⟨e, he, hid⟩ := hdup
    rw [← hid]
    exact (hp.2.2.2.2.2.2.2.2.1 e he).2.2
  by_cases hfull : p.curnum = p.maxnum
  · rw [if_pos hfull]
    exact alloc_full cfg bch p id size m hp.1 hid hfull
  · rw [if_neg hfull]
    exact alloc_dup cfg bch p id size m hp.1 hid hfull hdup

/-- Instance of C1 (amended): a second `alloc(7, _)` on a pool holding id 7. -/
theorem C1_duplicate_id_rejected_witness :
    rdr_safemem_alloc cfg0 (some rep3) (some pool7) 7 32 (some mem0) =
      (if pool7.curnum = pool7.maxnum then -ENOMEM else -EINVAL, some pool7, some mem0) :=
  C1_duplicate_id_rejected cfg0 rep3 (some rep3) pool7 7 32 mem0 (by decide)
    reachable_pool7 (by decide)

/-- Counterexample to C1 as stated: `pool7` is reached by `pool_init` and
`alloc(7, 64)`, id 7 is in its directory, and a second `alloc(7, 32)` returns
`-EINVAL`, the very code of an invalid argument; on the full directory `pool78`
the same call returns `-ENOMEM`, the code of an exhausted pool.  Neither is an
error kind of its own. -/
theorem C1_counterexample :
    Reachable cfg0 rep3 pool7 ∧ Reachable cfg0 rep3 pool78 ∧
    7 ∈ live_ids pool7 ∧ 7 ∈ live_ids pool78 ∧
    (rdr_safemem_alloc cfg0 (some rep3) (some pool7) 7 32 (some mem0)).1 ≠ -EEXIST ∧
    (rdr_safemem_alloc cfg0 (some rep3) (some pool7) 7 32 (some mem0)).1 = -EINVAL ∧
    (rdr_safemem_alloc cfg0 (some rep3) (some pool7) 0 32 (some mem0)).1 = -EINVAL ∧
    (rdr_safemem_alloc cfg0 (some rep3) (some pool78) 7 32 (some mem0)).1 = -ENOMEM ∧
    (rdr_safemem_alloc cfg0 (some rep3) (some pool78) 9 32 (some mem0)).1 = -ENOMEM :=
  ⟨reachable_pool7, reachable_pool78, by decide⟩

/-! ## Failed encode -/

/-- C2, the code at the failing input: on the fresh downward pool `pool_small`
with no codec constructed, `alloc(7, 64)` returns `-ENOMEM` and `curnum` is
back at 0, but `cur_alloc_addr` stays 64 bytes below its value before the
call, and a following `alloc` sees 64 bytes less free space. -/
theorem C2_cursor_not_rolled_back :
    (rdr_safemem_alloc cfg0 none (some pool_small) 7 64 (some mem0)).1 = -ENOMEM ∧
    (pool_after_alloc cfg0 none pool_small 7 64).curnum = pool_small.curnum ∧
    pool_small.cur_alloc_addr = 0xffff800010100000 ∧
    (pool_after_alloc cfg0 none pool_small 7 64).cur_alloc_addr = 0xffff8000100fffc0 ∧
    (pool_after_alloc cfg0 none pool_small 7 64).cur_alloc_addr ≠ pool_small.cur_alloc_addr := by
  decide

/-! ## The space check -/

/-- C4, the code at the failing input: on the valid, empty downward pool
`pool_low` (`base_alloc_addr = 0x1000`, cursor `0x2000`, so 0x1000 bytes free),
`alloc(7, 0x3000)` asks for more than the free space, `cur_alloc_addr - size`
wraps around, the check of line 197 does not fire and the call returns 0 with
a `vaddr` outside the pool. -/
theorem C4_wrapped_request_succeeds :
    pool_wf pool_low ∧ pool_low.low_to_high = false ∧
    pool_low.curnum = 0 ∧ pool_low.maxnum = 2 ∧
    pool_low.base_alloc_addr = 0x1000 ∧ pool_low.cur_alloc_addr = 0x2000 ∧
    0x3000 > pool_low.cur_alloc_addr - pool_low.base_alloc_addr ∧
    rdr_safemem_alloc cfg0 (some rep3) (some pool_low) 7 0x3000 (some mem0) =
      (0, some (pool_after_alloc cfg0 (some rep3) pool_low 7 0x3000),
       some { vaddr := 0xfffffffffffff000, paddr := 0x7fffe000, size := 0x3000 }) ∧
    (pool_after_alloc cfg0 (some rep3) pool_low 7 0x3000).cur_alloc_addr
      = 0xfffffffffffff000 := by
  decide

/-! ## Postcondition of a successful allocation -/

theorem getD_set_self {α : Type} (l : List α) (n : Nat) (x d : α) (h : n < l.length) :
    (l.set n x).getD n d = x := by
  induction l generalizing n with
  | nil => simp at h
  | cons a l ih => cases n with
    | zero => simp
    | succ n =>
      simp only [List.length_cons, Nat.add_lt_add_iff_right] at h
      simpa using ih n h

/-- C5 (successful-alloc postcondition): when `rdr_safemem_alloc(pool, id, size)`
returns 0 on a valid pool, the entry at index old `curnum` holds
`(id, size, vaddr, paddr)`; `curnum` has grown by exactly 1; on an upward pool
`vaddr` is the old cursor and the new cursor is old cursor + size, on a
downward pool the new cursor is old cursor - size and `vaddr` is the new
cursor (pointer arithmetic, exact whenever it does not wrap);
`paddr = vaddr - base_alloc_addr + phyaddr`; and the returned `bbox_mem` is
that `(vaddr, paddr, size)`. -/
theorem C5_alloc_postcondition (cfg : Config) (bch : Option bch_control)
    (p q : rdr_safemem_pool) (id size : Nat) (m out : bbox_mem) (hwf : cfg.wf)
    (hp : pool_wf p) (hid : id < U32) (hsz : size < U32)
    (h : rdr_safemem_alloc cfg bch (some p) id size (some m) = (0, some q, some out)) :
    safe_id (q.mem.getD p.curnum (zero_safemem cfg)).rawdata = id ∧
    safe_size (q.mem.getD p.curnum (zero_safemem cfg)).rawdata = size ∧
    safe_vaddr (q.mem.getD p.curnum (zero_safemem cfg)).rawdata = out.vaddr ∧
    safe_paddr (q.mem.getD p.curnum (zero_safemem cfg)).rawdata = out.paddr ∧
    out.size = size ∧
    q.curnum = p.curnum + 1 ∧
    (p.low_to_high = true →
      out.vaddr = p.cur_alloc_addr ∧ q.cur_alloc_addr = add64 p.cur_alloc_addr size ∧
      (p.cur_alloc_addr + size < U64 → q.cur_alloc_addr = p.cur_alloc_addr + size)) ∧
    (p.low_to_high = false →
      q.cur_alloc_addr = sub64 p.cur_alloc_addr size ∧ out.vaddr = q.cur_alloc_addr ∧
      (size ≤ p.cur_alloc_addr → q.cur_alloc_addr = p.cur_alloc_addr - size)) ∧
    out.paddr = add64 (sub64 out.vaddr p.base_alloc_addr) p.phyaddr := by
  obtain ⟨h1, h2, h3, h4, h5, h6, h7, h8, h9, h10⟩ := hp
  obtain ⟨c, hb⟩ : ∃ c : bch_control, bch = none ∨ bch = some c := by
    cases bch with
    | none => exact ⟨⟨fun _ => [], fun _ _ => none⟩, Or.inl rfl⟩
    | some c => exact ⟨c, Or.inr rfl⟩
  rcases alloc_cases cfg c bch p q id size m (some out) 0 hwf h1 hb h with
    ⟨_, _, hr⟩ | ⟨_, hr, _⟩ | ⟨_, _, hout, hid0, hnf, hfresh, hroom, hq⟩
  · rcases hr with hr | hr <;> simp [EINVAL, ENOMEM] at hr
  · simp [ENOMEM] at hr
  · have hlt : p.curnum < p.mem.length := by omega
    have hcn : (p.curnum + 1) % U32 = p.curnum + 1 := Nat.mod_eq_of_lt (by omega)
    have hentry : q.mem.getD p.curnum (zero_safemem cfg)
        = alloc_entry cfg c p id size := by
      rw [hq]
      exact getD_set_self _ _ _ _ hlt
    have hout' : out = alloc_out p id size := by
      simp only [Option.some.injEq] at hout; exact hout
    have hv : alloc_vaddr p size < U64 := by
      unfold alloc_vaddr; split
      · exact h7
      · exact sub64_lt _ _
    have hpa : alloc_paddr p size < U64 := add64_lt _ _
    rw [hentry, hout']
    simp only [alloc_entry, alloc_out, alloc_raw, safe_id_pack, safe_size_pack, safe_vaddr_pack,
      safe_paddr_pack, Nat.mod_eq_of_lt hid, Nat.mod_eq_of_lt hsz, Nat.mod_eq_of_lt hv,
      Nat.mod_eq_of_lt hpa, true_and]
    refine ⟨?_, ?_, ?_, ?_⟩
    · rw [hq]; exact hcn
    · intro hdir
      rw [hq]
      simp only [alloc_pool_ok, alloc_vaddr, alloc_cursor, hdir, if_true, true_and]
      intro hnw
      exact Nat.mod_eq_of_lt hnw
    · intro hdir
      rw [hq]
      simp only [alloc_pool_ok, alloc_vaddr, alloc_cursor, hdir, Bool.false_eq_true, if_false,
        true_and]
      intro hle
      simp only [sub64]
      unfold U64 at *
      omega
    · rfl

/-- Instance of C5: `alloc(7, 64)` on the fresh downward pool `pool_small`. -/
theorem C5_alloc_postcondition_witness :
    safe_id (pool7.mem.getD pool_small.curnum (zero_safemem cfg0)).rawdata = 7 ∧
    safe_size (pool7.mem.getD pool_small.curnum (zero_safemem cfg0)).rawdata = 64 ∧
    safe_vaddr (pool7.mem.getD pool_small.curnum (zero_safemem cfg0)).rawdata
      = (alloc_out pool_small 7 64).vaddr ∧
    safe_paddr (pool7.mem.getD pool_small.curnum (zero_safemem cfg0)).rawdata
      = (alloc_out pool_small 7 64).paddr ∧
    (alloc_out pool_small 7 64).size = 64 ∧
    pool7.curnum = pool_small.curnum + 1 ∧
    (pool_small.low_to_high = true →
      (alloc_out pool_small 7 64).vaddr = pool_small.cur_alloc_addr ∧
      pool7.cur_alloc_addr = add64 pool_small.cur_alloc_addr 64 ∧
      (pool_small.cur_alloc_addr + 64 < U64 →
        pool7.cur_alloc_addr = pool_small.cur_alloc_addr + 64)) ∧
    (pool_small.low_to_high = false →
      pool7.cur_alloc_addr = sub64 pool_small.cur_alloc_addr 64 ∧
      (alloc_out pool_small 7 64).vaddr = pool7.cur_alloc_addr ∧
      (64 ≤ pool_small.cur_alloc_addr →
        pool7.cur_alloc_addr = pool_small.cur_alloc_addr - 64)) ∧
    (alloc_out pool_small 7 64).paddr
      = add64 (sub64 (alloc_out pool_small 7 64).vaddr pool_small.base_alloc_addr)
          pool_small.phyaddr :=
  C5_alloc_postcondition cfg0 (some rep3) pool_small pool7 7 64 mem0 (alloc_out pool_small 7 64)
    (by decide) (by decide) (by decide) (by decide) (by decide)

/-! ## Exhaustion of the directory -/

theorem no_room_of_has_room (cfg : Config) (c : bch_control) (p : rdr_safemem_pool)
    (id size rest : Nat) (hp : pool_wf p)
    (h : has_room p (size + rest)) :
    no_room p size = false ∧ has_room (alloc_pool_ok cfg c p id size) rest := by
  obtain ⟨h1, h2, h3, h4, h5, h6, h7, h8, h9, h10⟩ := hp
  unfold has_room at h
  unfold has_room no_room
  cases hdir : p.low_to_high with
  | true =>
    simp only [hdir, if_true] at h
    have ha : add64 p.cur_alloc_addr size = p.cur_alloc_addr + size := by
      unfold add64; apply Nat.mod_eq_of_lt; omega
    simp only [alloc_pool_ok, alloc_cursor, hdir, if_true, ha]
    constructor
    · simp; omega
    · omega
  | false =>
    simp only [hdir, Bool.false_eq_true, if_false] at h
    have hs : sub64 p.cur_alloc_addr size = p.cur_alloc_addr - size := by
      unfold sub64; unfold U64 at *; omega
    simp only [alloc_pool_ok, alloc_cursor, hdir, Bool.false_eq_true, if_false, hs]
    constructor
    · simp; omega
    · omega

theorem alloc_all_succeeds (cfg : Config) (c : bch_control) (hwf : cfg.wf) :
    ∀ (reqs : List (Nat × Nat)) (p : rdr_safemem_pool), pool_wf p →
      p.curnum + reqs.length ≤ p.maxnum → has_room p (reqs.map Prod.snd).sum →
      (∀ r ∈ reqs, r.1 ≠ 0 ∧ r.1 < U32 ∧ r.2 < U32) → (reqs.map Prod.fst).Nodup →
      (∀ r ∈ reqs, ∀ e ∈ live p, safe_id e.rawdata ≠ r.1) →
      (alloc_all cfg (some c) p reqs).1 = List.replicate reqs.length 0 ∧
      pool_wf (alloc_all cfg (some c) p reqs).2 ∧
      (alloc_all cfg (some c) p reqs).2.curnum = p.curnum + reqs.length ∧
      (alloc_all cfg (some c) p reqs).2.maxnum = p.maxnum := by
  intro reqs
  induction reqs with
  | nil => intro p hp _ _ _ _ _; exact ⟨rfl, hp, rfl, rfl⟩
  | cons r rest ih =>
    intro p hp hcnt hroom htyped hnodup hfresh
    obtain ⟨id, size⟩ := r
    simp only [List.length_cons] at hcnt
    simp only [List.map_cons, List.sum_cons] at hroom
    simp only [List.map_cons, List.nodup_cons] at hnodup
    have hr0 := htyped (id, size) (List.mem_cons_self _ _)
    simp only at hr0
    have hnf : p.curnum ≠ p.maxnum := by omega
    have hfr : ∀ e ∈ live p, safe_id e.rawdata ≠ id :=
      fun e he => hfresh (id, size) (List.mem_cons_self _ _) e he
    obtain ⟨hnr, hroom'⟩ := no_room_of_has_room cfg c p id size _ hp hroom
    have hal := alloc_ok cfg c p id size mem0 hwf hp.1 hr0.1 hnf hfr hnr
    have hp' := pool_wf_ok cfg c p id size hp hr0.1 hr0.2.1 hnf hfr
    have hlt : p.curnum + 1 < U32 := by have := hp.2.2.1; omega
    have hlen : p.curnum < p.mem.length := by have := hp.2.2.2.1; omega
    have hcn : (alloc_pool_ok cfg c p id size).curnum = p.curnum + 1 :=
      Nat.mod_eq_of_lt hlt
    have hmx : (alloc_pool_ok cfg c p id size).maxnum = p.maxnum := by
      simp [alloc_pool_ok]
    have hlive := live_ok cfg c p id size hlt hlen
    have hsid : safe_id (alloc_entry cfg c p id size).rawdata = id := by
      simp only [alloc_entry, alloc_raw, safe_id_pack]
      exact Nat.mod_eq_of_lt hr0.2.1
    have hfresh' : ∀ r ∈ rest, ∀ e ∈ live (alloc_pool_ok cfg c p id size),
        safe_id e.rawdata ≠ r.1 := by
      intro r hr e he
      rw [hlive] at he
      rcases List.mem_append.mp he with he | he
      · exact hfresh r (List.mem_cons_of_mem _ hr) e he
      · simp only [List.mem_singleton] at he
        rw [he, hsid]
        intro hid
        exact hnodup.1 (List.mem_map.mpr ⟨r, hr, hid.symm⟩)
    have := ih (alloc_pool_ok cfg c p id size) hp' (by rw [hcn, hmx]; omega) hroom'
      (fun r hr => htyped r (List.mem_cons_of_mem _ hr)) hnodup.2 hfresh'
    obtain ⟨i1, i2, i3, i4⟩ := this
    simp only [alloc_all, hal, Option.getD_some, List.length_cons, List.replicate_succ]
    refine ⟨by rw [i1], i2, by rw [i3, hcn]; omega, by rw [i4, hmx]⟩

/-- C3 (exhaustion): a pool initialised by `rdr_safemem_pool_init` with
`maxnum = k` (a directory of header plus `k + 1` slots), over a backing range
that does not wrap and holds the requested sizes, with the codec available,
accepts the first `k` `rdr_safemem_alloc` calls with pairwise distinct non-zero
ids, and the `(k+1)`-th call fails with `-ENOMEM` and changes nothing. -/
theorem C3_exhaustion (cfg : Config) (c : bch_control) (blank : rdr_safemem_pool)
    (nm : List Nat) (size : Nat) (m out : bbox_mem) (dir : Bool)
    (reqs : List (Nat × Nat)) (id1 size1 : Nat) (hwf : cfg.wf)
    (hfloor : cfg.sizeof_pool + 2 * cfg.sizeof_safemem ≤ size) (hsize : size < U32)
    (hrange : m.vaddr + m.size < U64) (hpa : m.paddr < U64)
    (hk : reqs.length = (size - cfg.sizeof_pool) / cfg.sizeof_safemem - 1)
    (htyped : ∀ r ∈ reqs, r.1 ≠ 0 ∧ r.1 < U32 ∧ r.2 < U32)
    (hnodup : (reqs.map Prod.fst).Nodup) (hfit : (reqs.map Prod.snd).sum ≤ m.size)
    (hid1 : id1 ≠ 0) :
    ∃ p0 : rdr_safemem_pool,
      rdr_safemem_pool_init cfg (some blank) (some nm) size (some m) dir = (0, some p0) ∧
      p0.maxnum = reqs.length ∧ 1 ≤ p0.maxnum ∧
      (alloc_all cfg (some c) p0 reqs).1 = List.replicate reqs.length 0 ∧
      rdr_safemem_alloc cfg (some c) (some (alloc_all cfg (some c) p0 reqs).2) id1 size1
        (some out) = (-ENOMEM, some (alloc_all cfg (some c) p0 reqs).2, some out) := by
  have hnot : ¬ size < cfg.sizeof_pool + 2 * cfg.sizeof_safemem := by omega
  have hinit : ∃ p0, rdr_safemem_pool_init cfg (some blank) (some nm) size (some m) dir
      = (0, some p0) := by
    simp [rdr_safemem_pool_init, hnot]
  obtain ⟨p0, hp0⟩ := hinit
  have hv : m.vaddr < U64 := by omega
  obtain ⟨hwf0, hcur0⟩ := pool_wf_init cfg blank p0 nm size m dir hv hpa hp0
  have hfields : p0.maxnum = ((size - cfg.sizeof_pool) / cfg.sizeof_safemem - 1) % U32 ∧
      p0.low_to_high = dir ∧ p0.base_alloc_addr = m.vaddr ∧
      p0.end_alloc_addr = add64 m.vaddr m.size ∧
      p0.cur_alloc_addr = (if dir = true then m.vaddr else add64 m.vaddr m.size) := by
    simp only [rdr_safemem_pool_init, hnot, if_false, Prod.mk.injEq, Option.some.injEq,
      true_and] at hp0
    subst hp0
    exact ⟨rfl, rfl, rfl, rfl, rfl⟩
  obtain ⟨hmax, hdir, hbase, hend, hcur⟩ := hfields
  have hdivle : (size - cfg.sizeof_pool) / cfg.sizeof_safemem ≤ size :=
    Nat.le_trans (Nat.div_le_self _ _) (Nat.sub_le _ _)
  have hmax' : p0.maxnum = reqs.length := by
    rw [hmax, hk]; apply Nat.mod_eq_of_lt; omega
  have hge2 : 2 ≤ (size - cfg.sizeof_pool) / cfg.sizeof_safemem := by
    rw [Nat.le_div_iff_mul_le hwf.2.2.2]
    omega
  have hadd : add64 m.vaddr m.size = m.vaddr + m.size := Nat.mod_eq_of_lt hrange
  have hroom : has_room p0 (reqs.map Prod.snd).sum := by
    unfold has_room
    rw [hdir, hbase, hend, hcur, hadd]
    cases dir <;> simp <;> omega
  have hfresh : ∀ r ∈ reqs, ∀ e ∈ live p0, safe_id e.rawdata ≠ r.1 := by
    intro r _ e he
    simp [live, hcur0] at he
  obtain ⟨a1, a2, a3, a4⟩ := alloc_all_succeeds cfg c hwf reqs p0 hwf0
    (by rw [hcur0, hmax']; omega) hroom htyped hnodup hfresh
  refine ⟨p0, hp0, hmax', by omega, a1, ?_⟩
  exact alloc_full cfg (some c) _ id1 size1 out a2.1 hid1 (by rw [a3, a4, hcur0, hmax']; omega)

/-- Instance of C3: a 312-byte directory (`k = 2`); `alloc(7, 64)` and
`alloc(8, 128)` succeed, `alloc(9, 16)` fails with `-ENOMEM`. -/
theorem C3_exhaustion_witness :
    ∃ p0 : rdr_safemem_pool,
      rdr_safemem_pool_init cfg0 (some (blank_pool 3)) (some name0) 312 (some bk0) false
        = (0, some p0) ∧
      p0.maxnum = [(7, 64), (8, 128)].length ∧ 1 ≤ p0.maxnum ∧
      (alloc_all cfg0 (some rep3) p0 [(7, 64), (8, 128)]).1
        = List.replicate [(7, 64), (8, 128)].length 0 ∧
      rdr_safemem_alloc cfg0 (some rep3)
        (some (alloc_all cfg0 (some rep3) p0 [(7, 64), (8, 128)]).2) 9 16 (some mem0)
        = (-ENOMEM, some (alloc_all cfg0 (some rep3) p0 [(7, 64), (8, 128)]).2, some mem0) :=
  C3_exhaustion cfg0 rep3 (blank_pool 3) name0 312 bk0 mem0 false [(7, 64), (8, 128)] 9 16
    (by decide) (by decide) (by decide) (by decide) (by decide) (by decide) (by decide)
    (by decide) (by decide) (by decide)

/-! ## Bit flips -/

theorem xor_byte_length (d : List Nat) (i m : Nat) : (xor_byte d i m).length = d.length := by
  induction d generalizing i with
  | nil => rfl
  | cons b bs ih => cases i with
    | zero => rfl
    | succ i => simp [xor_byte, ih]

theorem fix_bits_length (d : List Nat) (dt : Nat) (L : List Nat) :
    (fix_bits d dt L).length = d.length := by
  induction L generalizing d with
  | nil => rfl
  | cons l L ih =>
    simp only [fix_bits, List.foldl_cons] at ih ⊢
    rw [ih, xor_byte_length]

theorem fix_bits_nil (d : List Nat) (dt : Nat) : fix_bits d dt [] = d := rfl

theorem fix_bits_single (d : List Nat) (j : Nat) :
    fix_bits d 0 [j] = xor_byte d (j / 8) (1 <<< (j % 8)) := by
  simp [fix_bits]

theorem bit_mask_lt (k : Nat) (hk : k < 8) : 1 <<< k < 256 ∧ 1 <<< k ≠ 0 := by
  interval_cases k <;> decide

theorem xor_mask_lt (b m : Nat) (hb : b < 256) (hm : m < 256) : b ^^^ m < 256 :=
  Nat.xor_lt_two_pow (n := 8) hb hm

theorem xor_byte_involutive (d : List Nat) (i m : Nat) (hd : ∀ b ∈ d, b < 256)
    (hm : m < 256) : xor_byte (xor_byte d i m) i m = d := by
  induction d generalizing i with
  | nil => rfl
  | cons b bs ih =>
    have hb : b < 256 := hd b (List.mem_cons_self _ _)
    cases i with
    | zero =>
      simp only [xor_byte]
      rw [Nat.mod_eq_of_lt (xor_mask_lt b m hb hm), Nat.xor_cancel_right,
        Nat.mod_eq_of_lt hb]
    | succ i =>
      simp only [xor_byte]
      rw [ih i (fun x hx => hd x (List.mem_cons_of_mem _ hx))]

theorem xor_byte_ne (d : List Nat) (i m : Nat) (hd : ∀ b ∈ d, b < 256)
    (hm : m < 256) (hm0 : m ≠ 0) (hi : i < d.length) : xor_byte d i m ≠ d := by
  induction d generalizing i with
  | nil => simp at hi
  | cons b bs ih =>
    have hb : b < 256 := hd b (List.mem_cons_self _ _)
    cases i with
    | zero =>
      simp only [xor_byte]
      rw [Nat.mod_eq_of_lt (xor_mask_lt b m hb hm)]
      intro h
      have h1 : b ^^^ m = b := (List.cons.inj h).1
      have h2 : b ^^^ (b ^^^ m) = m := Nat.xor_cancel_left b m
      rw [h1, Nat.xor_self] at h2
      exact hm0 h2.symm
    | succ i =>
      simp only [xor_byte]
      intro h
      simp only [List.length_cons, Nat.add_lt_add_iff_right] at hi
      exact ih i (fun x hx => hd x (List.mem_cons_of_mem _ hx)) hi (List.cons.inj h).2

theorem xor_byte_append_left (d e : List Nat) (i m : Nat) (hi : i < d.length) :
    xor_byte (d ++ e) i m = xor_byte d i m ++ e := by
  induction d generalizing i with
  | nil => simp at hi
  | cons b bs ih =>
    cases i with
    | zero => rfl
    | succ i =>
      simp only [List.length_cons, Nat.add_lt_add_iff_right] at hi
      rw [List.cons_append]
      simp only [xor_byte, List.cons_append, ih i hi]

theorem xor_byte_out_of_range (d : List Nat) (i m : Nat) (hi : d.length ≤ i) :
    xor_byte d i m = d := by
  induction d generalizing i with
  | nil => rfl
  | cons b bs ih =>
    cases i with
    | zero => simp at hi
    | succ i =>
      simp only [List.length_cons, Nat.add_le_add_iff_right] at hi
      simp only [xor_byte, ih i hi]

/-! ## The repetition code meets the codec contract -/

theorem rep3_encode_length (d : List Nat) : (rep3_encode d).length = 48 := by
  simp only [rep3_encode, List.length_take, List.length_append, List.length_replicate]
  omega

theorem rep3_encode_take (d : List Nat) (h : d.length ≤ 24) :
    (rep3_encode d).take d.length = d := by
  unfold rep3_encode
  rw [List.take_take, Nat.min_eq_left (by omega), List.append_assoc]
  exact List.take_left d _

theorem rep3_decode_clean (d : List Nat) (h : d.length ≤ 24) :
    rep3_decode d (rep3_encode d) = some [] := by
  simp [rep3_decode, rep3_encode_take d h]

theorem rep3_decode_flipped (d : List Nat) (s : Nat) (h : d.length ≤ 24)
    (hd : ∀ b ∈ d, b < 256) (hs : s < 8 * d.length) :
    ∃ j, rep3_decode (fix_bits d 0 [s]) (rep3_encode d) = some [j] ∧
      fix_bits (fix_bits d 0 [s]) 0 [j] = d := by
  have hk : s % 8 < 8 := Nat.mod_lt _ (by omega)
  have hmask := bit_mask_lt (s % 8) hk
  have hidx : s / 8 < d.length := by omega
  have hlen : (fix_bits d 0 [s]).length = d.length := fix_bits_length d 0 [s]
  have hne : fix_bits d 0 [s] ≠ d := by
    rw [fix_bits_single]
    exact xor_byte_ne d _ _ hd hmask.1 hmask.2 hidx
  have hback : fix_bits (fix_bits d 0 [s]) 0 [s] = d := by
    rw [fix_bits_single, fix_bits_single]
    exact xor_byte_involutive d _ _ hd hmask.1
  simp only [rep3_decode, hlen, rep3_encode_take d h, ne_eq, not_true_eq_false, if_false, hne]
  cases hf : (List.range (8 * d.length)).find?
      (fun j => decide (fix_bits (fix_bits d 0 [s]) 0 [j] = d)) with
  | none =>
    rw [List.find?_eq_none] at hf
    have := hf s (List.mem_range.mpr hs)
    simp [hback] at this
  | some j =>
    have hj := List.find?_some hf
    simp only [decide_eq_true_eq] at hj
    exact ⟨j, rfl, hj⟩

/-- The repetition code satisfies the codec contract for `cfg0` (`T = 1`). -/
theorem rep3_spec : bch_spec cfg0 rep3 := by
  refine ⟨?_, ?_, ?_⟩
  · intro d _
    exact rep3_encode_length d
  · intro d S hlen hd hnd hS hT
    simp only [cfg0] at hlen hT
    match S, hS, hT with
    | [], _, _ =>
      exact ⟨[], by simpa [fix_bits_nil] using rep3_decode_clean d hlen, rfl, rfl⟩
    | [s], hS, _ =>
      obtain ⟨j, hj1, hj2⟩ := rep3_decode_flipped d s hlen hd (hS s (List.mem_singleton_self s))
      exact ⟨[j], hj1, rfl, hj2⟩
    | _ :: _ :: _, _, hT => simp at hT
  · intro d e L _ hdec
    simp only [rep3, rep3_decode] at hdec
    split at hdec
    · simp at hdec
    · rename_i hecc
      simp only [ne_eq, not_not] at hecc
      split at hdec
      · rename_i hdx
        refine ⟨d, [], rfl, by simp [cfg0], ?_⟩
        rw [fix_bits_nil]
        show d ++ e = d ++ rep3_encode d
        rw [hecc, ← hdx]
      · split at hdec
        · rename_i j hf
          have hj := List.find?_some hf
          simp only [decide_eq_true_eq] at hj
          have hjr := List.mem_of_find?_eq_some hf
          rw [List.mem_range] at hjr
          refine ⟨List.take d.length e, [j], ?_, by simp [cfg0], ?_⟩
          · rw [← hj]; exact fix_bits_length d 0 [j]
          · show fix_bits (d ++ e) 0 [j] = List.take d.length e ++ rep3_encode (List.take d.length e)
            rw [← hecc, ← hj, fix_bits_single, fix_bits_single]
            exact xor_byte_append_left d e _ _ (by omega)
        · simp at hdec

/-! ## ECC of live entries and lookups that hit -/

theorem alloc_entry_ecc (cfg : Config) (c : bch_control) (p : rdr_safemem_pool)
    (id size : Nat) (hwf : cfg.wf) (hspec : bch_spec cfg c) :
    (alloc_entry cfg c p id size).ecc.take cfg.RDR_BCH_ECC_BYTES
      = c.encode (alloc_entry cfg c p id size).rawdata := by
  have hlen := hspec.1 (alloc_raw p id size) (by
    rw [alloc_raw, pack_safe_length]; exact hwf.1)
  simp only [alloc_entry, write_at, List.take_zero, List.nil_append]
  exact List.take_left' hlen

theorem alloc_entry_id (cfg : Config) (c : bch_control) (p : rdr_safemem_pool)
    (id size : Nat) (hid : id < U32) :
    safe_id (alloc_entry cfg c p id size).rawdata = id := by
  simp only [alloc_entry, alloc_raw, safe_id_pack]
  exact Nat.mod_eq_of_lt hid

/-- One `rdr_safemem_alloc` call keeps the pool valid, keeps the ECC of the
live entries, and only appends to the live directory. -/
theorem alloc_step_inv (cfg : Config) (c : bch_control) (bch : Option bch_control)
    (p q : rdr_safemem_pool) (id size : Nat) (m : bbox_mem) (m' : Option bbox_mem) (r : Int)
    (hwf : cfg.wf) (hspec : bch_spec cfg c) (hp : pool_wf p) (hecc : pool_ecc cfg c p)
    (hb : bch = none ∨ bch = some c) (hid : id < U32)
    (h : rdr_safemem_alloc cfg bch (some p) id size (some m) = (r, some q, m')) :
    pool_wf q ∧ pool_ecc cfg c q ∧
      ∃ t, live q = live p ++ t ∧ ∀ e ∈ t, safe_id e.rawdata = id := by
  rcases alloc_cases cfg c bch p q id size m m' r hwf hp.1 hb h with
    ⟨hq, _, _⟩ | ⟨_, _, _, _, _, _, _, hq⟩ | ⟨_, _, _, hid0, hnf, hfresh, _, hq⟩
  · rw [hq]
    exact ⟨hp, hecc, [], by simp, by simp⟩
  · have hlive := live_rollback cfg p id size (by have := hp.2.1; have := hp.2.2.1; omega)
    rw [hq]
    refine ⟨pool_wf_rollback cfg p id size hp, ?_, [], by simp [hlive], by simp⟩
    unfold pool_ecc
    rw [hlive]
    exact hecc
  · have hlt : p.curnum + 1 < U32 := by have := hp.2.1; have := hp.2.2.1; omega
    have hlen : p.curnum < p.mem.length := by have := hp.2.1; have := hp.2.2.2.1; omega
    have hlive := live_ok cfg c p id size hlt hlen
    rw [hq]
    refine ⟨pool_wf_ok cfg c p id size hp hid0 hid hnf hfresh, ?_,
      [alloc_entry cfg c p id size], hlive, ?_⟩
    · unfold pool_ecc
      rw [hlive]
      intro e he
      rcases List.mem_append.mp he with he | he
      · exact hecc e he
      · simp only [List.mem_singleton] at he
        rw [he]
        exact alloc_entry_ecc cfg c p id size hwf hspec
    · intro e he
      simp only [List.mem_singleton] at he
      rw [he]
      exact alloc_entry_id cfg c p id size hid

/-- Every live entry of a reachable pool carries the ECC of its tuple. -/
theorem reachable_ecc (cfg : Config) (c : bch_control) (p : rdr_safemem_pool)
    (hwf : cfg.wf) (hspec : bch_spec cfg c) (h : Reachable cfg c p) : pool_ecc cfg c p := by
  induction h with
  | init p q nm size m dir _ hv hpa _ hinit =>
    have := (pool_wf_init cfg p q nm size m dir hv hpa hinit).2
    intro e he
    simp [live, this] at he
  | alloc p q bch id size m m' r hr hb hid _ hal ih =>
    exact (alloc_step_inv cfg c bch p q id size m m' r hwf hspec
      (reachable_wf cfg c p hwf hr) ih hb hid hal).2.1

/-- Further allocations with other ids keep the pool valid and append only
entries with other ids. -/
theorem avoiding_inv (cfg : Config) (c : bch_control) (id0 : Nat)
    (p q : rdr_safemem_pool) (hwf : cfg.wf) (hspec : bch_spec cfg c)
    (h : AllocsAvoiding cfg c id0 p q) (hp : pool_wf p) (hecc : pool_ecc cfg c p) :
    pool_wf q ∧ pool_ecc cfg c q ∧
      ∃ t, live q = live p ++ t ∧ ∀ e ∈ t, safe_id e.rawdata ≠ id0 := by
  induction h with
  | refl => exact ⟨hp, hecc, [], by simp, by simp⟩
  | step q q' bch id size m m' r _ hb hid _ hne hal ih =>
    obtain ⟨hq, heq, t, ht, htid⟩ := ih
    obtain ⟨hq', heq', t', ht', htid'⟩ :=
      alloc_step_inv cfg c bch q q' id size m m' r hwf hspec hq heq hb hid hal
    refine ⟨hq', heq', t ++ t', by rw [ht', ht, List.append_assoc], ?_⟩
    intro e he
    rcases List.mem_append.mp he with he | he
    · exact htid e he
    · rw [htid' e he]; exact hne

theorem mem_of_live (p : rdr_safemem_pool) (l1 l2 : List rdr_safemem) (e : rdr_safemem)
    (h : live p = l1 ++ e :: l2) : p.mem = l1 ++ e :: (l2 ++ p.mem.drop p.curnum) := by
  have := List.take_append_drop p.curnum p.mem
  unfold live at h
  rw [h] at this
  have h2 : l1 ++ e :: (l2 ++ p.mem.drop p.curnum) = (l1 ++ e :: l2) ++ p.mem.drop p.curnum := by
    simp
  rw [h2]
  exact this.symm

theorem getD_append_cons {α : Type} (l1 r : List α) (e d : α) :
    (l1 ++ e :: r).getD l1.length d = e := by
  induction l1 with
  | nil => rfl
  | cons a l ih => simpa using ih

theorem set_append_cons {α : Type} (l1 r : List α) (e x : α) :
    (l1 ++ e :: r).set l1.length x = l1 ++ x :: r := by
  induction l1 with
  | nil => rfl
  | cons a l ih => simp [ih]

/-- The function `rdr_safemem_get` when the scan stops at entry `e`, the
first live entry with the wanted id. -/
theorem get_found (cfg : Config) (c : bch_control) (p : rdr_safemem_pool) (id : Nat)
    (m : bbox_mem) (l1 l2 : List rdr_safemem) (e : rdr_safemem) (hwf : cfg.wf)
    (hmagic : p.magic = SAFEMEM_POOL_MAGIC) (hid : id ≠ 0)
    (hlive : live p = l1 ++ e :: l2) (hl1 : ∀ x ∈ l1, safe_id x.rawdata ≠ id)
    (he : safe_id e.rawdata = id) (hlen : e.rawdata.length = SAFE_BYTES) :
    rdr_safemem_get cfg (some c) (some p) id (some m) =
      match c.decode e.rawdata (e.ecc.take cfg.RDR_BCH_ECC_BYTES) with
      | none => { ret := -EIO_errno, pool := some p, mem := some m, printed := none,
                  checked := true }
      | some L =>
        { ret := 0
          pool := some { p with
            mem := p.mem.set l1.length { e with rawdata := fix_bits e.rawdata 0 L } }
          mem := some { paddr := safe_paddr (fix_bits e.rawdata 0 L),
                        size := safe_size (fix_bits e.rawdata 0 L),
                        vaddr := safe_vaddr (fix_bits e.rawdata 0 L) }
          printed := if L.length ≠ 0 then some L.length else none
          checked := true } := by
  have hfind : find_id id (List.take p.curnum p.mem) 0 = some l1.length := by
    have := find_id_append id l1 l2 e 0 hl1 he
    rw [← hlive] at this
    simpa [live] using this
  have hmem := mem_of_live p l1 l2 e hlive
  have hget : p.mem.getD l1.length (zero_safemem cfg) = e := by
    rw [hmem]; exact getD_append_cons _ _ _ _
  have hck := entry_checkout cfg c e.rawdata e.ecc hwf hlen
  have hcond : ¬ (p.magic ≠ SAFEMEM_POOL_MAGIC ∨ id = 0) := by
    intro h
    rcases h with h | h
    · exact h hmagic
    · exact hid h
  simp only [rdr_safemem_get, sizeof_ecc, hcond, hfind, hget, hck, if_false]
  cases hdec : c.decode e.rawdata (List.take cfg.RDR_BCH_ECC_BYTES e.ecc) with
  | none =>
    have hset : p.mem.set l1.length e = p.mem := by
      conv_lhs => rw [hmem]
      rw [set_append_cons]; exact hmem.symm
    simp [EIO_errno, hset]
  | some L => simp

/-! ## Allocation followed by lookup -/

/-- The live directory after a successful allocation of `id` and any further
allocations with other ids: the entry of `id` sits at the old `curnum`, behind
entries with other ids and before entries with other ids. -/
theorem history_live (cfg : Config) (c : bch_control) (p0 p1 p2 : rdr_safemem_pool)
    (id size : Nat) (m out : bbox_mem) (hwf : cfg.wf) (hspec : bch_spec cfg c)
    (hr : Reachable cfg c p0) (hid : id < U32)
    (hal : rdr_safemem_alloc cfg (some c) (some p0) id size (some m) = (0, some p1, some out))
    (hmore : AllocsAvoiding cfg c id p1 p2) :
    pool_wf p2 ∧ id ≠ 0 ∧ out = alloc_out p0 id size ∧ (live p0).length = p0.curnum ∧
    (∀ x ∈ live p0, safe_id x.rawdata ≠ id) ∧
    ∃ t, live p2 = live p0 ++ alloc_entry cfg c p0 id size :: t ∧
      ∀ e ∈ t, safe_id e.rawdata ≠ id := by
  have hp0 := reachable_wf cfg c p0 hwf hr
  have he0 := reachable_ecc cfg c p0 hwf hspec hr
  have hlen0 : (live p0).length = p0.curnum := by
    have := hp0.2.1; have := hp0.2.2.2.1
    simp only [live, List.length_take]; omega
  rcases alloc_cases cfg c (some c) p0 p1 id size m (some out) 0 hwf hp0.1 (Or.inr rfl) hal with
    ⟨_, _, hr⟩ | ⟨_, hr, _⟩ | ⟨_, _, hout, hid0, hnf, hfresh, hroom, hq⟩
  · rcases hr with hr | hr <;> simp [EINVAL, ENOMEM] at hr
  · simp [ENOMEM] at hr
  · obtain ⟨hp1, he1, t1, ht1, _⟩ :=
      alloc_step_inv cfg c (some c) p0 p1 id size m (some out) 0 hwf hspec hp0 he0
        (Or.inr rfl) hid hal
    have hlt : p0.curnum + 1 < U32 := by have := hp0.2.1; have := hp0.2.2.1; omega
    have hlen : p0.curnum < p0.mem.length := by have := hp0.2.1; have := hp0.2.2.2.1; omega
    have hlive1 : live p1 = live p0 ++ [alloc_entry cfg c p0 id size] := by
      rw [hq]; exact live_ok cfg c p0 id size hlt hlen
    obtain ⟨hp2, _, t, ht, htid⟩ := avoiding_inv cfg c id p1 p2 hwf hspec hmore hp1 he1
    refine ⟨hp2, hid0, by simpa using hout, hlen0, hfresh, t, ?_, htid⟩
    rw [ht, hlive1, List.append_assoc]
    rfl

/-- C6 (alloc/get round trip): after a successful `rdr_safemem_alloc(pool, id,
size)` on a pool reached from `rdr_safemem_pool_init`, and after any number of
further allocations with other ids, `rdr_safemem_get(pool, id)` on the
untouched directory returns 0 and the same `(vaddr, paddr, size)` that the
allocation returned; it corrects nothing and leaves the pool as it is. -/
theorem C6_alloc_get_roundtrip (cfg : Config) (c : bch_control)
    (p0 p1 p2 : rdr_safemem_pool) (id size : Nat) (m out m2 : bbox_mem) (hwf : cfg.wf)
    (hspec : bch_spec cfg c) (hr : Reachable cfg c p0) (hid : id < U32)
    (hal : rdr_safemem_alloc cfg (some c) (some p0) id size (some m) = (0, some p1, some out))
    (hmore : AllocsAvoiding cfg c id p1 p2) :
    rdr_safemem_get cfg (some c) (some p2) id (some m2) =
      { ret := 0, pool := some p2, mem := some out, printed := none, checked := true } := by
  obtain ⟨hp2, hid0, hout, _, hfresh, t, hlive, htid⟩ :=
    history_live cfg c p0 p1 p2 id size m out hwf hspec hr hid hal hmore
  have hraw : (alloc_entry cfg c p0 id size).rawdata.length = SAFE_BYTES :=
    pack_safe_length _ _ _ _
  have hg := get_found cfg c p2 id m2 (live p0) t (alloc_entry cfg c p0 id size) hwf hp2.1 hid0
    hlive hfresh (alloc_entry_id cfg c p0 id size hid) hraw
  have hecc := alloc_entry_ecc cfg c p0 id size hwf hspec
  obtain ⟨L, hL, hLlen, _⟩ := hspec.2.1 (alloc_entry cfg c p0 id size).rawdata []
    (by rw [hraw]; exact hwf.1) (pack_safe_lt _ _ _ _) List.nodup_nil (by simp) (by simp)
  have hLnil : L = [] := List.length_eq_zero.mp (by simpa using hLlen)
  rw [fix_bits_nil, hLnil] at hL
  rw [hg, hecc, hL]
  have hmem := mem_of_live p2 (live p0) t (alloc_entry cfg c p0 id size) hlive
  have hset : p2.mem.set (live p0).length (alloc_entry cfg c p0 id size) = p2.mem := by
    conv_lhs => rw [hmem]
    rw [set_append_cons]; exact hmem.symm
  have hset' : p2.mem.set (live p0).length
      { alloc_entry cfg c p0 id size with
        rawdata := fix_bits (alloc_entry cfg c p0 id size).rawdata 0 [] } = p2.mem := hset
  simp only [List.length_nil, ne_eq, not_true_eq_false, if_false, hset']
  rw [hout]
  rfl

/-- Instance of C6, the spec's Scenario 1: a 4096-byte directory,
`alloc(id = 7, size = 64)`, then `get(7)`. -/
theorem C6_alloc_get_roundtrip_witness :
    rdr_safemem_get cfg0 (some rep3) (some pool_4096_7) 7 (some mem0) =
      { ret := 0, pool := some pool_4096_7, mem := some (alloc_out pool_4096 7 64),
        printed := none, checked := true } :=
  C6_alloc_get_roundtrip cfg0 rep3 pool_4096 pool_4096_7 pool_4096_7 7 64 mem0
    (alloc_out pool_4096 7 64) mem0 (by decide) rep3_spec
    (Reachable.init (blank_pool 55) pool_4096 name0 4096 bk0 false (by decide) (by decide)
      (by decide) (by decide) (by decide))
    (by decide) (by decide) (AllocsAvoiding.refl pool_4096_7)

/-! ## Lookup of a corrupted entry -/

theorem live_overwrite (p : rdr_safemem_pool) (l1 l2 : List rdr_safemem) (e x : rdr_safemem)
    (hp : pool_wf p) (hlive : live p = l1 ++ e :: l2) :
    live (overwrite_entry p l1.length x) = l1 ++ x :: l2 := by
  have hmem := mem_of_live p l1 l2 e hlive
  have hlen : (l1 ++ e :: l2).length = p.curnum := by
    rw [← hlive]
    have := hp.2.1; have := hp.2.2.2.1
    simp only [live, List.length_take]; omega
  have hlen' : (l1 ++ x :: l2).length = p.curnum := by
    rw [← hlen]; simp
  show List.take p.curnum (p.mem.set l1.length x) = l1 ++ x :: l2
  have h2 : p.mem.set l1.length x = (l1 ++ x :: l2) ++ p.mem.drop p.curnum := by
    conv_lhs => rw [hmem]
    rw [set_append_cons]; simp
  rw [h2]
  exact List.take_left' hlen'

theorem entry_at_of_live (p : rdr_safemem_pool) (l1 l2 : List rdr_safemem) (e : rdr_safemem)
    (hlive : live p = l1 ++ e :: l2) : entry_at p l1.length = e := by
  unfold entry_at
  rw [mem_of_live p l1 l2 e hlive]
  exact getD_append_cons _ _ _ _

theorem overwrite_overwrite (p : rdr_safemem_pool) (l1 l2 : List rdr_safemem)
    (e x : rdr_safemem) (hlive : live p = l1 ++ e :: l2) :
    { overwrite_entry p l1.length x with
      mem := (overwrite_entry p l1.length x).mem.set l1.length e } = p := by
  have hmem := mem_of_live p l1 l2 e hlive
  have : (p.mem.set l1.length x).set l1.length e = p.mem := by
    rw [List.set_set]
    conv_lhs => rw [hmem]
    rw [set_append_cons]; exact hmem.symm
  simp only [overwrite_entry, this]

/-- C7 (directory durability): after a successful allocation of `id` (and any
further allocations with other ids), if between 1 and `T` distinct bits of
that entry's tuple bytes are flipped and the id field still reads `id`, then
`rdr_safemem_get(pool, id)` returns 0 with the `(vaddr, paddr, size)` the
allocation returned, the entry bytes are restored in place (the pool is again
the uncorrupted one), and `rdr_bch_checkout` prints a corrected-bit count,
the number of flipped bits, greater than 0. -/
theorem C7_directory_durability (cfg : Config) (c : bch_control)
    (p0 p1 p2 : rdr_safemem_pool) (id size : Nat) (m out m2 : bbox_mem) (S : List Nat)
    (hwf : cfg.wf) (hspec : bch_spec cfg c) (hr : Reachable cfg c p0) (hid : id < U32)
    (hal : rdr_safemem_alloc cfg (some c) (some p0) id size (some m) = (0, some p1, some out))
    (hmore : AllocsAvoiding cfg c id p1 p2)
    (hnd : S.Nodup) (hS : ∀ s ∈ S, s < 8 * SAFE_BYTES) (h1 : 1 ≤ S.length)
    (hT : S.length ≤ cfg.RDR_BCH_T)
    (hidm : safe_id (entry_at (corrupt_tuple p2 p0.curnum S) p0.curnum).rawdata = id) :
    rdr_safemem_get cfg (some c) (some (corrupt_tuple p2 p0.curnum S)) id (some m2) =
      { ret := 0, pool := some p2, mem := some out, printed := some S.length,
        checked := true } ∧ 0 < S.length := by
  refine ⟨?_, h1⟩
  obtain ⟨hp2, hid0, hout, hlen0, hfresh, t, hlive, htid⟩ :=
    history_live cfg c p0 p1 p2 id size m out hwf hspec hr hid hal hmore
  have hraw : (alloc_entry cfg c p0 id size).rawdata.length = SAFE_BYTES :=
    pack_safe_length _ _ _ _
  have hat : entry_at p2 (live p0).length = alloc_entry cfg c p0 id size :=
    entry_at_of_live p2 _ t _ hlive
  rw [← hlen0] at hidm ⊢
  obtain ⟨e', he'⟩ : ∃ e' : rdr_safemem, e' =
      { rawdata := fix_bits (alloc_entry cfg c p0 id size).rawdata 0 S,
        ecc := (alloc_entry cfg c p0 id size).ecc } := ⟨_, rfl⟩
  have hcor : corrupt_tuple p2 (live p0).length S = overwrite_entry p2 (live p0).length e' := by
    unfold corrupt_tuple; rw [hat, he']
  have hlive' := live_overwrite p2 (live p0) t (alloc_entry cfg c p0 id size) e' hp2 hlive
  rw [hcor] at hidm ⊢
  rw [entry_at_of_live _ _ t _ hlive'] at hidm
  have hlen' : e'.rawdata.length = SAFE_BYTES := by
    rw [he']; show (fix_bits _ 0 S).length = SAFE_BYTES
    rw [fix_bits_length]; exact hraw
  have hg := get_found cfg c (overwrite_entry p2 (live p0).length e') id m2 (live p0) t e' hwf
    hp2.1 hid0 hlive' hfresh hidm hlen'
  have hecc := alloc_entry_ecc cfg c p0 id size hwf hspec
  obtain ⟨L, hL, hLlen, hfix⟩ := hspec.2.1 (alloc_entry cfg c p0 id size).rawdata S
    (by rw [hraw]; exact hwf.1) (pack_safe_lt _ _ _ _) hnd (by rw [hraw]; exact hS) hT
  have hdec : c.decode e'.rawdata (e'.ecc.take cfg.RDR_BCH_ECC_BYTES) = some L := by
    rw [he']; show c.decode (fix_bits _ 0 S) (List.take _ (alloc_entry cfg c p0 id size).ecc) = _
    rw [hecc, hL]
  have hfix' : ({ e' with rawdata := fix_bits e'.rawdata 0 L } : rdr_safemem)
      = alloc_entry cfg c p0 id size := by
    rw [he']
    show ({ rawdata := fix_bits (fix_bits _ 0 S) 0 L, ecc := _ } : rdr_safemem) = _
    rw [hfix]
  have hfix2 : fix_bits e'.rawdata 0 L = alloc_raw p0 id size := by
    rw [he']; exact hfix
  have hS0 : S.length ≠ 0 := by omega
  have hback := overwrite_overwrite p2 (live p0) t (alloc_entry cfg c p0 id size) e' hlive
  have hpool : ({ overwrite_entry p2 (live p0).length e' with
      mem := (overwrite_entry p2 (live p0).length e').mem.set (live p0).length
        { e' with rawdata := fix_bits e'.rawdata 0 L } } : rdr_safemem_pool) = p2 := by
    rw [hfix']; exact hback
  rw [hg, hdec]
  simp only [hpool]
  simp only [hfix2, hLlen, hS0, ne_eq, not_false_eq_true, if_true, hout]
  rfl

/-- Instance of C7 with `T = 1`: bit 33 of the tuple of id 7 is flipped. -/
theorem C7_directory_durability_witness :
    rdr_safemem_get cfg0 (some rep3) (some (corrupt_tuple pool7 pool_small.curnum [33])) 7
        (some mem0) =
      { ret := 0, pool := some pool7, mem := some (alloc_out pool_small 7 64),
        printed := some [33].length, checked := true } ∧ 0 < [33].length :=
  C7_directory_durability cfg0 rep3 pool_small pool7 pool7 7 64 mem0 (alloc_out pool_small 7 64)
    mem0 [33] (by decide) rep3_spec reachable_pool_small (by decide) (by decide)
    (AllocsAvoiding.refl pool7) (by decide) (by decide) (by decide) (by decide) (by decide)

/-- C8, as amended: after a successful allocation of `id` (and any further
allocations with other ids), if the entry's tuple and ECC bytes are corrupted
into a word that is more than `T` bit flips away from every codeword, while the
id field still reads `id`, then `rdr_safemem_get(pool, id)` returns `-EIO`,
hands back no values (the caller's record is untouched) and changes nothing
in the pool. -/
theorem C8_uncorrectable_entry_fails (cfg : Config) (c : bch_control)
    (p0 p1 p2 : rdr_safemem_pool) (id size : Nat) (m out m2 : bbox_mem) (d e : List Nat)
    (hwf : cfg.wf) (hspec : bch_spec cfg c) (hr : Reachable cfg c p0) (hid : id < U32)
    (hal : rdr_safemem_alloc cfg (some c) (some p0) id size (some m) = (0, some p1, some out))
    (hmore : AllocsAvoiding cfg c id p1 p2)
    (hd : d.length = SAFE_BYTES) (he : e.length = cfg.RDR_BCH_ECC_BYTES)
    (hidm : safe_id d = id) (hunc : uncorrectable cfg c d e) :
    rdr_safemem_get cfg (some c)
        (some (overwrite_entry p2 p0.curnum { rawdata := d, ecc := e })) id (some m2) =
      { ret := -EIO_errno,
        pool := some (overwrite_entry p2 p0.curnum { rawdata := d, ecc := e }),
        mem := some m2, printed := none, checked := true } := by
  obtain ⟨hp2, hid0, _, hlen0, hfresh, t, hlive, _⟩ :=
    history_live cfg c p0 p1 p2 id size m out hwf hspec hr hid hal hmore
  rw [← hlen0]
  have hlive' := live_overwrite p2 (live p0) t (alloc_entry cfg c p0 id size)
    { rawdata := d, ecc := e } hp2 hlive
  have hg := get_found cfg c (overwrite_entry p2 (live p0).length { rawdata := d, ecc := e })
    id m2 (live p0) t { rawdata := d, ecc := e } hwf hp2.1 hid0 hlive' hfresh hidm hd
  have htake : List.take cfg.RDR_BCH_ECC_BYTES e = e := List.take_of_length_le (by omega)
  have hdec : c.decode d e = none := by
    cases hc : c.decode d e with
    | none => rfl
    | some L =>
      obtain ⟨x, F, hx, hF, hcw⟩ := hspec.2.2 d e L (by rw [hd]; exact hwf.1) hc
      exact absurd hcw (hunc x F hx hF)
  rw [hg]
  simp only [htake, hdec]

theorem rep3_far_of_check (w : List Nat) (hw : w.length = 72)
    (h0 : List.drop 24 w ≠ rep3_encode (List.take 24 w))
    (h1 : ∀ i < 72, ∀ k < 8, List.drop 24 (xor_byte w i (1 <<< k))
      ≠ rep3_encode (List.take 24 (xor_byte w i (1 <<< k))))
    (x F : List Nat) (hx : x.length = 24) (hF : F.length ≤ 1) :
    fix_bits w 0 F ≠ x ++ rep3_encode x := by
  intro h
  have hsplit : ∀ w' : List Nat, w' = x ++ rep3_encode x →
      List.drop 24 w' = rep3_encode (List.take 24 w') := by
    intro w' hw'
    rw [hw', List.take_left' hx, List.drop_left' hx]
  match F, hF with
  | [], _ => exact h0 (hsplit w h)
  | [j], _ =>
    rw [fix_bits_single] at h
    by_cases hj : j / 8 < 72
    · exact h1 (j / 8) hj (j % 8) (Nat.mod_lt _ (by omega)) (hsplit _ h)
    · rw [xor_byte_out_of_range w _ _ (by omega)] at h
      exact h0 (hsplit w h)
  | _ :: _ :: _, hF => simp at hF

theorem uncorrectable_two_flips :
    uncorrectable cfg0 rep3 raw7_two_flips (entry_at pool7 0).ecc := by
  intro x F hx hF
  have hx' : x.length = 24 := by rw [hx]; decide
  exact rep3_far_of_check (raw7_two_flips ++ (entry_at pool7 0).ecc) (by decide) (by decide)
    (by decide) x F hx' hF

/-- Instance of C8 (amended) with `T = 1`: two bits of the tuple of id 7 are
flipped, which no single bit flip turns into a codeword. -/
theorem C8_uncorrectable_entry_fails_witness :
    rdr_safemem_get cfg0 (some rep3)
        (some (overwrite_entry pool7 pool_small.curnum
          { rawdata := raw7_two_flips, ecc := (entry_at pool7 0).ecc })) 7 (some mem0) =
      { ret := -EIO_errno,
        pool := some (overwrite_entry pool7 pool_small.curnum
          { rawdata := raw7_two_flips, ecc := (entry_at pool7 0).ecc }),
        mem := some mem0, printed := none, checked := true } :=
  C8_uncorrectable_entry_fails cfg0 rep3 pool_small pool7 pool7 7 64 mem0
    (alloc_out pool_small 7 64) mem0 raw7_two_flips (entry_at pool7 0).ecc (by decide)
    rep3_spec reachable_pool_small (by decide) (by decide) (AllocsAvoiding.refl pool7)
    (by decide) (by decide) (by decide) uncorrectable_two_flips

/-- Counterexample to C8 as stated, with `T = 1`: three bits of the entry of
id 7 are corrupted (tuple bit 32 and ECC bits 32 and 224), the id field still
reads 7, and `rdr_safemem_get` returns 0 with `size = 65` where 64 was
allocated. -/
theorem C8_counterexample :
    cfg0.RDR_BCH_T < ([32] ++ [32, 224] : List Nat).length ∧
    safe_id (entry_at pool7_three_flips 0).rawdata = 7 ∧
    (rdr_safemem_get cfg0 (some rep3) (some pool7_three_flips) 7 (some mem0)).ret = 0 ∧
    (rdr_safemem_get cfg0 (some rep3) (some pool7_three_flips) 7 (some mem0)).mem =
      some { vaddr := 0xffff8000100fffc0, paddr := 0x800fffc0, size := 65 } ∧
    alloc_out pool_small 7 64 = { vaddr := 0xffff8000100fffc0, paddr := 0x800fffc0, size := 64 } := by
  decide

/-! ## Postcondition of `rdr_safemem_pool_init` -/

/-- C11 (pool_init postcondition): whenever `rdr_safemem_pool_init` succeeds,
`maxnum = (size - sizeof(pool header)) / sizeof(entry) - 1` in integer
division, so `maxnum >= 1` and the header plus `maxnum + 1` entry slots fit
inside `size`; `curnum = 0`; the first `maxnum` entries are zeroed; the magic
is `SAFEMEM_POOL_MAGIC`; `end_alloc_addr = base_alloc_addr + mem->size`
(pointer arithmetic, exact whenever it does not wrap); and the cursor is
`base_alloc_addr` when `low_to_high` is true and `end_alloc_addr` otherwise. -/
theorem C11_pool_init_postcondition (cfg : Config) (p q : rdr_safemem_pool) (nm : List Nat)
    (size : Nat) (m : bbox_mem) (dir : Bool) (hwf : cfg.wf) (hsize : size < U32)
    (h : rdr_safemem_pool_init cfg (some p) (some nm) size (some m) dir = (0, some q)) :
    q.maxnum = (size - cfg.sizeof_pool) / cfg.sizeof_safemem - 1 ∧ 1 ≤ q.maxnum ∧
    cfg.sizeof_pool + (q.maxnum + 1) * cfg.sizeof_safemem ≤ size ∧
    q.curnum = 0 ∧
    q.mem.take q.maxnum = List.replicate q.maxnum (zero_safemem cfg) ∧
    q.magic = SAFEMEM_POOL_MAGIC ∧
    q.base_alloc_addr = m.vaddr ∧
    q.end_alloc_addr = add64 q.base_alloc_addr m.size ∧
    (m.vaddr + m.size < U64 → q.end_alloc_addr = q.base_alloc_addr + m.size) ∧
    q.cur_alloc_addr = (if dir = true then q.base_alloc_addr else q.end_alloc_addr) := by
  simp only [rdr_safemem_pool_init] at h
  split at h
  · simp [EINVAL] at h
  · rename_i hfloor
    simp only [Prod.mk.injEq, Option.some.injEq, true_and] at h
    have hpos : 0 < cfg.sizeof_safemem := hwf.2.2.2
    have hge2 : 2 ≤ (size - cfg.sizeof_pool) / cfg.sizeof_safemem := by
      rw [Nat.le_div_iff_mul_le hpos]; omega
    have hdivle : (size - cfg.sizeof_pool) / cfg.sizeof_safemem ≤ size :=
      Nat.le_trans (Nat.div_le_self _ _) (Nat.sub_le _ _)
    have hmod : ((size - cfg.sizeof_pool) / cfg.sizeof_safemem - 1) % U32
        = (size - cfg.sizeof_pool) / cfg.sizeof_safemem - 1 := by
      apply Nat.mod_eq_of_lt; omega
    have hfit : ((size - cfg.sizeof_pool) / cfg.sizeof_safemem) * cfg.sizeof_safemem
        ≤ size - cfg.sizeof_pool := Nat.div_mul_le_self _ _
    subst h
    simp only [hmod]
    refine ⟨trivial, by omega, ?_, trivial, ?_, trivial, trivial, trivial, ?_, trivial⟩
    · have : (size - cfg.sizeof_pool) / cfg.sizeof_safemem - 1 + 1
          = (size - cfg.sizeof_pool) / cfg.sizeof_safemem := by omega
      rw [this]; omega
    · rw [List.take_left' (List.length_replicate _ _)]
    · intro hnw
      exact Nat.mod_eq_of_lt hnw

/-- Instance of C11: the 4096-byte directory of the round-trip scenario. -/
theorem C11_pool_init_postcondition_witness :
    pool_4096.maxnum = (4096 - cfg0.sizeof_pool) / cfg0.sizeof_safemem - 1 ∧
    1 ≤ pool_4096.maxnum ∧
    cfg0.sizeof_pool + (pool_4096.maxnum + 1) * cfg0.sizeof_safemem ≤ 4096 ∧
    pool_4096.curnum = 0 ∧
    pool_4096.mem.take pool_4096.maxnum
      = List.replicate pool_4096.maxnum (zero_safemem cfg0) ∧
    pool_4096.magic = SAFEMEM_POOL_MAGIC ∧
    pool_4096.base_alloc_addr = bk0.vaddr ∧
    pool_4096.end_alloc_addr = add64 pool_4096.base_alloc_addr bk0.size ∧
    (bk0.vaddr + bk0.size < U64 →
      pool_4096.end_alloc_addr = pool_4096.base_alloc_addr + bk0.size) ∧
    pool_4096.cur_alloc_addr
      = (if false = true then pool_4096.base_alloc_addr else pool_4096.end_alloc_addr) :=
  C11_pool_init_postcondition cfg0 (blank_pool 55) pool_4096 name0 4096 bk0 false (by decide)
    (by decide) (by decide)

/-! ## Reinitialisation of the lock -/

theorem get_lock_irrelevant (cfg : Config) (bch : Option bch_control) (p : rdr_safemem_pool)
    (id : Nat) (m : bbox_mem) (l : Nat) :
    rdr_safemem_get cfg bch (some { p with lock := l }) id (some m) =
      { rdr_safemem_get cfg bch (some p) id (some m) with
        pool := (rdr_safemem_get cfg bch (some p) id (some m)).pool.map
          (fun q => { q with lock := l }) } := by
  simp only [rdr_safemem_get]
  split
  · simp
  · split <;> [simp; (split <;> simp)]

/-- C12 (idempotent reinit): `rdr_safemem_pool_reinit` on any pool returns 0
and changes nothing but the lock: magic, name, bounds, cursor, `curnum`,
`maxnum` and every entry with its ECC are what they were; for every id
`rdr_safemem_get` gives the same return value, record and printed count after
the reinit as before it (and leaves the same pool up to the lock); and a
second reinit changes nothing any more. -/
theorem C12_reinit_changes_only_lock (cfg : Config) (bch : Option bch_control)
    (p : rdr_safemem_pool) (id : Nat) (m : bbox_mem) :
    rdr_safemem_pool_reinit (some p) = (0, some (pool_after_reinit p)) ∧
    pool_after_reinit p = { p with lock := 0 } ∧
    (pool_after_reinit p).magic = p.magic ∧ (pool_after_reinit p).name = p.name ∧
    (pool_after_reinit p).base_alloc_addr = p.base_alloc_addr ∧
    (pool_after_reinit p).end_alloc_addr = p.end_alloc_addr ∧
    (pool_after_reinit p).cur_alloc_addr = p.cur_alloc_addr ∧
    (pool_after_reinit p).curnum = p.curnum ∧ (pool_after_reinit p).maxnum = p.maxnum ∧
    (pool_after_reinit p).mem = p.mem ∧
    (rdr_safemem_get cfg bch (some (pool_after_reinit p)) id (some m)).ret
      = (rdr_safemem_get cfg bch (some p) id (some m)).ret ∧
    (rdr_safemem_get cfg bch (some (pool_after_reinit p)) id (some m)).mem
      = (rdr_safemem_get cfg bch (some p) id (some m)).mem ∧
    (rdr_safemem_get cfg bch (some (pool_after_reinit p)) id (some m)).printed
      = (rdr_safemem_get cfg bch (some p) id (some m)).printed ∧
    (rdr_safemem_get cfg bch (some (pool_after_reinit p)) id (some m)).pool
      = (rdr_safemem_get cfg bch (some p) id (some m)).pool.map pool_after_reinit ∧
    pool_after_reinit (pool_after_reinit p) = pool_after_reinit p := by
  have hre : ∀ q : rdr_safemem_pool, pool_after_reinit q = { q with lock := 0 } := by
    intro q; rfl
  have hfun : pool_after_reinit = fun q => { q with lock := 0 } := funext hre
  refine ⟨rfl, rfl, rfl, rfl, rfl, rfl, rfl, rfl, rfl, rfl, ?_, ?_, ?_, ?_, rfl⟩
  · rw [hre, get_lock_irrelevant]
  · rw [hre, get_lock_irrelevant]
  · rw [hre, get_lock_irrelevant]
  · rw [hre, get_lock_irrelevant, hfun]

/-! ## The directory invariant -/

theorem split_at_first_id (id : Nat) (l : List rdr_safemem)
    (h : ∃ e ∈ l, safe_id e.rawdata = id) :
    ∃ l1 e l2, l = l1 ++ e :: l2 ∧ safe_id e.rawdata = id ∧
      ∀ x ∈ l1, safe_id x.rawdata ≠ id := by
  induction l with
  | nil => simp at h
  | cons a l ih =>
    by_cases ha : safe_id a.rawdata = id
    · exact ⟨[], a, l, rfl, ha, by simp⟩
    · obtain ⟨e, he, hid⟩ := h
      have hel : e ∈ l := by
        rcases List.mem_cons.mp he with h1 | h1
        · rw [h1] at hid; exact absurd hid ha
        · exact h1
      obtain ⟨l1, e', l2, hl, he', hl1⟩ := ih ⟨e, hel, hid⟩
      refine ⟨a :: l1, e', l2, by rw [hl]; rfl, he', ?_⟩
      intro x hx
      rcases List.mem_cons.mp hx with h1 | h1
      · rw [h1]; exact ha
      · exact hl1 x h1

/-- The pool `rdr_safemem_get` leaves behind when the scan stops at entry `e`:
the entry's tuple bytes are what `rdr_bch_checkout` left in them. -/
theorem get_pool_found (cfg : Config) (bch : Option bch_control) (p : rdr_safemem_pool)
    (id : Nat) (m : bbox_mem) (l1 l2 : List rdr_safemem) (e : rdr_safemem)
    (hmagic : p.magic = SAFEMEM_POOL_MAGIC) (hid : id ≠ 0)
    (hlive : live p = l1 ++ e :: l2) (hl1 : ∀ x ∈ l1, safe_id x.rawdata ≠ id)
    (he : safe_id e.rawdata = id) :
    (rdr_safemem_get cfg bch (some p) id (some m)).pool =
      some { p with
        mem := p.mem.set l1.length
          { e with rawdata :=
              (rdr_bch_checkout cfg bch e.rawdata SAFE_BYTES e.ecc (sizeof_ecc cfg)).data } } := by
  have hfind : find_id id (List.take p.curnum p.mem) 0 = some l1.length := by
    have := find_id_append id l1 l2 e 0 hl1 he
    rw [← hlive] at this
    simpa [live] using this
  have hmem := mem_of_live p l1 l2 e hlive
  have hget : p.mem.getD l1.length (zero_safemem cfg) = e := by
    rw [hmem]; exact getD_append_cons _ _ _ _
  have hcond : ¬ (p.magic ≠ SAFEMEM_POOL_MAGIC ∨ id = 0) := by
    intro h
    rcases h with h | h
    · exact h hmagic
    · exact hid h
  simp only [rdr_safemem_get, hcond, hfind, hget, if_false]
  split <;> rfl

/-- On a valid pool whose live entries carry their ECC, `rdr_safemem_get`
stores nothing new: the pool is what it was. -/
theorem get_keeps_pool (cfg : Config) (c : bch_control) (bch : Option bch_control)
    (p : rdr_safemem_pool) (id : Nat) (m : bbox_mem) (hwf : cfg.wf) (hspec : bch_spec cfg c)
    (hp : pool_wf p) (hecc : pool_ecc cfg c p) (hb : bch = none ∨ bch = some c) :
    (rdr_safemem_get cfg bch (some p) id (some m)).pool = some p := by
  by_cases hid : id = 0
  · simp [rdr_safemem_get, hid]
  by_cases hex : ∃ e ∈ live p, safe_id e.rawdata = id
  · obtain ⟨l1, e, l2, hlive, he, hl1⟩ := split_at_first_id id (live p) hex
    have hmem := mem_of_live p l1 l2 e hlive
    have hel : e ∈ live p := by rw [hlive]; simp
    have hraw := (hp.2.2.2.2.2.2.2.2.1 e hel)
    have hdata : (rdr_bch_checkout cfg bch e.rawdata SAFE_BYTES e.ecc (sizeof_ecc cfg)).data
        = e.rawdata := by
      rcases hb with hb | hb
      · subst hb; rfl
      · subst hb
        have hck := entry_checkout cfg c e.rawdata e.ecc hwf hraw.1
        obtain ⟨L, hL, hLlen, _⟩ := hspec.2.1 e.rawdata []
          (by rw [hraw.1]; exact hwf.1) hraw.2.1 List.nodup_nil (by simp) (by simp)
        have hLnil : L = [] := List.length_eq_zero.mp (by simpa using hLlen)
        rw [fix_bits_nil, hLnil] at hL
        unfold sizeof_ecc
        rw [hck, hecc e hel, hL]
        rfl
    rw [get_pool_found cfg bch p id m l1 l2 e hp.1 hid hlive hl1 he, hdata]
    have hset : p.mem.set l1.length e = p.mem := by
      conv_lhs => rw [hmem]
      rw [set_append_cons]; exact hmem.symm
    have hset' : p.mem.set l1.length { e with rawdata := e.rawdata } = p.mem := hset
    simp only [hset']
  · have hmiss : ∀ e ∈ live p, safe_id e.rawdata ≠ id := fun e he h => hex ⟨e, he, h⟩
    have hf := find_id_none id (live p) 0 hmiss
    unfold live at hf
    simp [rdr_safemem_get, hp.1, hid, hf]

theorem pool_wf_lock (p : rdr_safemem_pool) (l : Nat) (hp : pool_wf p) :
    pool_wf { p with lock := l } := hp

theorem pool_ecc_lock (cfg : Config) (c : bch_control) (p : rdr_safemem_pool) (l : Nat)
    (hp : pool_ecc cfg c p) : pool_ecc cfg c { p with lock := l } := hp

/-- Every pool reached by init, alloc, get and reinit calls is valid and its
live entries carry their ECC. -/
theorem reachable_by_calls_inv (cfg : Config) (c : bch_control) (p : rdr_safemem_pool)
    (hwf : cfg.wf) (hspec : bch_spec cfg c) (h : ReachableByCalls cfg c p) :
    pool_wf p ∧ pool_ecc cfg c p := by
  induction h with
  | init p q nm size m dir _ hv hpa _ hinit =>
    obtain ⟨hq, hcur⟩ := pool_wf_init cfg p q nm size m dir hv hpa hinit
    refine ⟨hq, ?_⟩
    intro e he
    simp [live, hcur] at he
  | alloc p q bch id size m m' r _ hb hid _ hal ih =>
    obtain ⟨h1, h2, _⟩ := alloc_step_inv cfg c bch p q id size m m' r hwf hspec ih.1 ih.2 hb
      hid hal
    exact ⟨h1, h2⟩
  | get p q bch id m _ hb _ hget ih =>
    rw [get_keeps_pool cfg c bch p id m hwf hspec ih.1 ih.2 hb] at hget
    simp only [Option.some.injEq] at hget
    rw [← hget]; exact ih
  | reinit p q r _ hre ih =>
    simp only [rdr_safemem_pool_reinit, Prod.mk.injEq, Option.some.injEq] at hre
    rw [← hre.2]
    exact ⟨pool_wf_lock p 0 ih.1, pool_ecc_lock cfg c p 0 ih.2⟩

/-- C13 (directory invariant): in every pool state reached from a successful
`rdr_safemem_pool_init` by any sequence of `rdr_safemem_alloc`,
`rdr_safemem_get` and `rdr_safemem_pool_reinit` calls, succeeding or failing,
`curnum <= maxnum` and the ids of the entries `[0, curnum)` are all non-zero
and pairwise distinct. -/
theorem C13_directory_invariant (cfg : Config) (c : bch_control) (p : rdr_safemem_pool)
    (hwf : cfg.wf) (hspec : bch_spec cfg c) (h : ReachableByCalls cfg c p) :
    p.curnum ≤ p.maxnum ∧ (∀ e ∈ live p, safe_id e.rawdata ≠ 0) ∧ (live_ids p).Nodup := by
  obtain ⟨hp, _⟩ := reachable_by_calls_inv cfg c p hwf hspec h
  exact ⟨hp.2.1, fun e he => (hp.2.2.2.2.2.2.2.2.1 e he).2.2, hp.2.2.2.2.2.2.2.2.2⟩

/-- Instance of C13: init, `alloc(7, 64)`, `get(7)`, reinit, a second
`alloc(7, 32)` (rejected) and `alloc(8, 128)`. -/
theorem C13_directory_invariant_witness :
    pool78.curnum ≤ pool78.maxnum ∧ (∀ e ∈ live pool78, safe_id e.rawdata ≠ 0) ∧
      (live_ids pool78).Nodup :=
  C13_directory_invariant cfg0 rep3 pool78 (by decide) rep3_spec
    (ReachableByCalls.alloc pool7 pool78 (some rep3) 8 128 mem0
      (some (alloc_out pool7 8 128)) 0
      (ReachableByCalls.alloc pool7 pool7 (some rep3) 7 32 mem0 (some mem0) (-EINVAL)
        (ReachableByCalls.reinit pool7 pool7 0
          (ReachableByCalls.get pool7 pool7 (some rep3) 7 mem0
            (ReachableByCalls.alloc pool_small pool7 (some rep3) 7 64 mem0
              (some (alloc_out pool_small 7 64)) 0
              (ReachableByCalls.init (blank_pool 3) pool_small name0 312 bk0 false (by decide)
                (by decide) (by decide) (by decide) (by decide))
              (Or.inr rfl) (by decide) (by decide) (by decide))
            (Or.inr rfl) (by decide) (by decide))
          (by decide))
        (Or.inr rfl) (by decide) (by decide) (by decide))
      (Or.inr rfl) (by decide) (by decide) (by decide))

/-! ## The directory is append-only -/

/-- C14 (append-only directory): whatever path a `rdr_safemem_alloc` call
takes, the entries at indices `[0, old curnum)`, tuple and ECC bytes, are the
same before and after the call; and `curnum` does not drop below its value
before the call (it stays or grows by one) on every pool state in which the
`uint` increment of line 206 cannot wrap: the directory is full, or `curnum`
is below `UINT_MAX`. Every state with `curnum <= maxnum` is such a state. -/
theorem C14_append_only (cfg : Config) (bch : Option bch_control) (p q : rdr_safemem_pool)
    (id size : Nat) (m : bbox_mem) (m' : Option bbox_mem) (r : Int)
    (h : rdr_safemem_alloc cfg bch (some p) id size (some m) = (r, some q, m')) :
    q.mem.take p.curnum = p.mem.take p.curnum ∧
    (p.curnum = p.maxnum ∨ p.curnum + 1 < U32 →
      p.curnum ≤ q.curnum ∧ q.curnum ≤ p.curnum + 1) := by
  have same : ∀ r0 : Int, ∀ m0 : Option bbox_mem, (r0, some p, m0) = (r, some q, m') →
      q.mem.take p.curnum = p.mem.take p.curnum ∧
      (p.curnum = p.maxnum ∨ p.curnum + 1 < U32 →
        p.curnum ≤ q.curnum ∧ q.curnum ≤ p.curnum + 1) := by
    intro r0 m0 h0
    simp only [Prod.mk.injEq, Option.some.injEq] at h0
    rw [← h0.2.1]; exact ⟨rfl, fun _ => ⟨Nat.le_refl _, Nat.le_succ _⟩⟩
  by_cases hg : p.magic ≠ SAFEMEM_POOL_MAGIC ∨ id = 0
  · simp only [rdr_safemem_alloc, hg, if_true] at h
    exact same _ _ h
  by_cases hfull : p.curnum = p.maxnum
  · simp only [rdr_safemem_alloc, hg, if_false, hfull, if_true] at h
    exact same _ _ h
  by_cases hdup : (p.mem.take p.curnum).any (fun e => id == safe_id e.rawdata) = true
  · simp only [rdr_safemem_alloc, hg, if_false, hfull, hdup, if_true] at h
    exact same _ _ h
  by_cases hroom0 : no_room p size = true
  · unfold no_room at hroom0
    simp only [rdr_safemem_alloc, hg, if_false, hfull, hdup, hroom0, if_true] at h
    exact same _ _ h
  have hroom : no_room p size = false := by simpa using hroom0
  unfold no_room at hroom
  simp only [rdr_safemem_alloc, hg, if_false, hfull, hdup, hroom, Bool.false_eq_true] at h
  split at h <;> split at h <;>
  · simp only [Prod.mk.injEq, Option.some.injEq] at h
    rw [← h.2.1]
    refine ⟨take_set_same _ _ _, ?_⟩
    intro hc
    have hlt : p.curnum + 1 < U32 := hc.resolve_left hfull
    dsimp only
    unfold U32 at *; omega

/-- Instance of C14: the successful `alloc(8, 128)` on `pool7` keeps entry 0
and moves `curnum` from 1 to 2. -/
theorem C14_append_only_witness :
    rdr_safemem_alloc cfg0 (some rep3) (some pool7) 8 128 (some mem0) =
      (0, some pool78, some (alloc_out pool7 8 128)) ∧
    pool78.mem.take pool7.curnum = pool7.mem.take pool7.curnum ∧
    pool7.curnum ≤ pool78.curnum ∧ pool78.curnum ≤ pool7.curnum + 1 :=
  have t := C14_append_only cfg0 (some rep3) pool7 pool78 8 128 mem0
    (some (alloc_out pool7 8 128)) 0 (by decide)
  ⟨by decide, t.1, t.2 (Or.inr (by decide))⟩

/-! ## The argument checks of the codec wrappers -/

/-- The return value of `rdr_bch_encode` with the codec available: `-EINVAL`
when the test of line 28 fires, 0 otherwise. -/
theorem encode_ret (cfg : Config) (c : bch_control) (data : List Nat) (data_len : Nat)
    (ecc : List Nat) (ecc_len : Nat) :
    (rdr_bch_encode cfg (some c) data data_len ecc ecc_len).1 =
      if ecc_len < (((data_len + cfg.RDR_BCH_MAX_BYTES - 1) % U32) / cfg.RDR_BCH_MAX_BYTES
          * cfg.RDR_BCH_ECC_BYTES) % U32 then -EINVAL else 0 := by
  simp only [rdr_bch_encode]
  split
  · rfl
  · repeat (first | rfl | split)

/-- With the codec available `rdr_bch_checkout` returns `-EINVAL` exactly when
the test of line 63 fires. -/
theorem checkout_ret_einval (cfg : Config) (c : bch_control) (data : List Nat) (data_len : Nat)
    (ecc : List Nat) (ecc_len : Nat) :
    (rdr_bch_checkout cfg (some c) data data_len ecc ecc_len).ret = -EINVAL ↔
      ecc_len < (((data_len + cfg.RDR_BCH_MAX_BYTES - 1) % U32) / cfg.RDR_BCH_MAX_BYTES
          * cfg.RDR_BCH_ECC_BYTES) % U32 := by
  have h5 : (-EIO_errno : Int) ≠ -EINVAL := by decide
  have h0 : (0 : Int) ≠ -EINVAL := by decide
  simp only [rdr_bch_checkout]
  split
  · simp [*]
  · rename_i hn
    simp only [hn, iff_false]
    split
    · exact h5
    · split
      · split
        · exact h5
        · exact h0
      · exact h0

/-- Without the codec both wrappers return `-ENODEV` and store nothing,
whatever the other arguments. -/
theorem codec_unavailable (cfg : Config) (data : List Nat) (data_len : Nat)
    (ecc : List Nat) (ecc_len : Nat) :
    rdr_bch_encode cfg none data data_len ecc ecc_len = (-ENODEV, ecc) ∧
    rdr_bch_checkout cfg none data data_len ecc ecc_len =
      { ret := -ENODEV, data := data, printed := none } :=
  ⟨rfl, rfl⟩

/-- Where neither the sum of `DIV_ROUND_UP` nor the product of line 28 wraps,
the test is the exact one, and a call it rejects stores nothing. -/
theorem codec_check_exact (cfg : Config) (c : bch_control) (data : List Nat) (data_len : Nat)
    (ecc : List Nat) (ecc_len : Nat)
    (hsum : data_len + cfg.RDR_BCH_MAX_BYTES - 1 < U32)
    (hprod : (data_len + cfg.RDR_BCH_MAX_BYTES - 1) / cfg.RDR_BCH_MAX_BYTES
      * cfg.RDR_BCH_ECC_BYTES < U32) :
    ((rdr_bch_encode cfg (some c) data data_len ecc ecc_len).1 = -EINVAL ↔
      ecc_len < (data_len + cfg.RDR_BCH_MAX_BYTES - 1) / cfg.RDR_BCH_MAX_BYTES
        * cfg.RDR_BCH_ECC_BYTES) ∧
    ((rdr_bch_checkout cfg (some c) data data_len ecc ecc_len).ret = -EINVAL ↔
      ecc_len < (data_len + cfg.RDR_BCH_MAX_BYTES - 1) / cfg.RDR_BCH_MAX_BYTES
        * cfg.RDR_BCH_ECC_BYTES) ∧
    ((rdr_bch_encode cfg (some c) data data_len ecc ecc_len).1 = -EINVAL →
      (rdr_bch_encode cfg (some c) data data_len ecc ecc_len).2 = ecc) ∧
    ((rdr_bch_checkout cfg (some c) data data_len ecc ecc_len).ret = -EINVAL →
      (rdr_bch_checkout cfg (some c) data data_len ecc ecc_len).data = data) := by
  have h1 := encode_ret cfg c data data_len ecc ecc_len
  have h2 := checkout_ret_einval cfg c data data_len ecc ecc_len
  rw [Nat.mod_eq_of_lt hsum, Nat.mod_eq_of_lt hprod] at h1 h2
  have h0 : (0 : Int) ≠ -EINVAL := by decide
  refine ⟨?_, h2, ?_, ?_⟩
  · rw [h1]; split <;> simp [*, h0]
  · intro he
    rw [h1] at he
    have hlt : ecc_len < (data_len + cfg.RDR_BCH_MAX_BYTES - 1) / cfg.RDR_BCH_MAX_BYTES
        * cfg.RDR_BCH_ECC_BYTES := by
      by_contra hn; rw [if_neg hn] at he; exact h0 he
    simp [rdr_bch_encode, Nat.mod_eq_of_lt hsum, Nat.mod_eq_of_lt hprod, hlt]
  · intro he
    have hlt := h2.mp he
    simp [rdr_bch_checkout, Nat.mod_eq_of_lt hsum, Nat.mod_eq_of_lt hprod, hlt]

/-- C15, the code where the claim fails: for every `uint` `data_len` within
`RDR_BCH_MAX_BYTES` of `2^32`, the sum inside `DIV_ROUND_UP` (lines 27 and 62)
wraps, `ecc_times` is 0, and the test `ecc_len < ecc_times * RDR_BCH_ECC_BYTES`
cannot fire: with `ecc_len = 0`, less than the exact
`ceil(data_len / RDR_BCH_MAX_BYTES) * RDR_BCH_ECC_BYTES`, `rdr_bch_encode`
returns 0 and `rdr_bch_checkout` does not return `-EINVAL`. -/
theorem C15_ceiling_wraps (cfg : Config) (c : bch_control) (data ecc : List Nat)
    (data_len : Nat) (hwf : cfg.wf) (hecc : 0 < cfg.RDR_BCH_ECC_BYTES)
    (hlt : data_len < U32) (hnear : U32 < data_len + cfg.RDR_BCH_MAX_BYTES) :
    0 < (data_len + cfg.RDR_BCH_MAX_BYTES - 1) / cfg.RDR_BCH_MAX_BYTES
      * cfg.RDR_BCH_ECC_BYTES ∧
    (rdr_bch_encode cfg (some c) data data_len ecc 0).1 = 0 ∧
    (rdr_bch_checkout cfg (some c) data data_len ecc 0).ret ≠ -EINVAL := by
  obtain ⟨h24, hmax, _, _⟩ := hwf
  have hpos : 0 < cfg.RDR_BCH_MAX_BYTES := by unfold SAFE_BYTES at h24; omega
  have hwrap : (data_len + cfg.RDR_BCH_MAX_BYTES - 1) % U32 / cfg.RDR_BCH_MAX_BYTES = 0 := by
    apply Nat.div_eq_of_lt
    unfold U32 at *; omega
  refine ⟨?_, ?_, ?_⟩
  · apply Nat.mul_pos _ hecc
    apply Nat.div_pos _ hpos
    unfold U32 at *; omega
  · rw [encode_ret, hwrap]; simp
  · rw [Ne, checkout_ret_einval, hwrap]; simp

/-- Instance of C15's failure: `data_len = 0xffffffff`, `ecc_len = 0` with the
constants `cfg0`. -/
theorem C15_ceiling_wraps_witness :
    0 < (0xffffffff + cfg0.RDR_BCH_MAX_BYTES - 1) / cfg0.RDR_BCH_MAX_BYTES
      * cfg0.RDR_BCH_ECC_BYTES ∧
    (rdr_bch_encode cfg0 (some rep3) [] 0xffffffff [] 0).1 = 0 ∧
    (rdr_bch_checkout cfg0 (some rep3) [] 0xffffffff [] 0).ret ≠ -EINVAL :=
  C15_ceiling_wraps cfg0 rep3 [] [] 0xffffffff (by decide) (by decide) (by decide) (by decide)

/-! ## Chunk boundaries of the codec wrappers -/

theorem spec_chunk_full (cfg : Config) (data : List Nat) (data_len i : Nat)
    (h : (i + 1) * cfg.RDR_BCH_MAX_BYTES ≤ data_len) :
    spec_chunk cfg data data_len i =
      (data.drop (i * cfg.RDR_BCH_MAX_BYTES)).take cfg.RDR_BCH_MAX_BYTES := by
  unfold spec_chunk
  rw [Nat.min_eq_left h, Nat.succ_mul, Nat.add_sub_cancel_left]

theorem spec_chunk_last (cfg : Config) (data : List Nat) (data_len : Nat)
    (hpos : 0 < cfg.RDR_BCH_MAX_BYTES) :
    spec_chunk cfg data data_len (data_len / cfg.RDR_BCH_MAX_BYTES) =
      (data.drop (data_len / cfg.RDR_BCH_MAX_BYTES * cfg.RDR_BCH_MAX_BYTES)).take
        (data_len % cfg.RDR_BCH_MAX_BYTES) := by
  unfold spec_chunk
  have h1 := Nat.div_add_mod data_len cfg.RDR_BCH_MAX_BYTES
  have h2 := Nat.mod_lt data_len hpos
  rw [Nat.mul_comm] at h1
  have h3 : min ((data_len / cfg.RDR_BCH_MAX_BYTES + 1) * cfg.RDR_BCH_MAX_BYTES) data_len
      = data_len := by
    apply Nat.min_eq_right
    rw [Nat.succ_mul]; omega
  rw [h3]
  congr 1
  omega

/-- The number of chunks is the number of full blocks, plus one when a short
block remains. -/
theorem spec_chunks_eq (cfg : Config) (data_len : Nat) (hpos : 0 < cfg.RDR_BCH_MAX_BYTES) :
    spec_chunks cfg data_len = data_len / cfg.RDR_BCH_MAX_BYTES +
      (if data_len % cfg.RDR_BCH_MAX_BYTES ≠ 0 then 1 else 0) := by
  unfold spec_chunks
  have h1 := Nat.div_add_mod data_len cfg.RDR_BCH_MAX_BYTES
  have h2 := Nat.mod_lt data_len hpos
  generalize data_len / cfg.RDR_BCH_MAX_BYTES = q at *
  generalize data_len % cfg.RDR_BCH_MAX_BYTES = r at *
  have hc := Nat.mul_comm cfg.RDR_BCH_MAX_BYTES q
  split
  · apply Nat.div_eq_of_lt_le
    · rw [Nat.add_mul]; omega
    · rw [Nat.succ_mul, Nat.add_mul]; omega
  · apply Nat.div_eq_of_lt_le
    · simp only [Nat.add_zero]; rw [Nat.mul_comm]; omega
    · simp only [Nat.add_zero]; rw [Nat.succ_mul, Nat.mul_comm]; omega

/-- The `uint` value `ecc_times` of lines 27 and 62 differs from `int_times`
whenever a short block remains, also where the sum of `DIV_ROUND_UP` wraps. -/
theorem int_times_ne_ecc_times (cfg : Config) (data_len : Nat) (hwf : cfg.wf)
    (hlen : data_len < U32) (hr : data_len % cfg.RDR_BCH_MAX_BYTES ≠ 0) :
    data_len / cfg.RDR_BCH_MAX_BYTES ≠
      ((data_len + cfg.RDR_BCH_MAX_BYTES - 1) % U32) / cfg.RDR_BCH_MAX_BYTES := by
  obtain ⟨h24, hmax, _, _⟩ := hwf
  have hpos : 0 < cfg.RDR_BCH_MAX_BYTES := by unfold SAFE_BYTES at h24; omega
  by_cases hw : data_len + cfg.RDR_BCH_MAX_BYTES - 1 < U32
  · rw [Nat.mod_eq_of_lt hw]
    have := spec_chunks_eq cfg data_len hpos
    unfold spec_chunks at this
    rw [this, if_pos hr]; omega
  · have h0 : (data_len + cfg.RDR_BCH_MAX_BYTES - 1) % U32 / cfg.RDR_BCH_MAX_BYTES = 0 := by
      apply Nat.div_eq_of_lt
      unfold U32 at *; omega
    rw [h0]
    have : 0 < data_len / cfg.RDR_BCH_MAX_BYTES := by
      apply Nat.div_pos _ hpos
      unfold U32 at *; omega
    omega

/-- With enough ECC bytes for the exact number of chunks the test of lines 28
and 63 does not fire. -/
theorem check_passes (cfg : Config) (data_len ecc_len : Nat)
    (hsuff : spec_chunks cfg data_len * cfg.RDR_BCH_ECC_BYTES ≤ ecc_len) :
    ¬ ecc_len < (((data_len + cfg.RDR_BCH_MAX_BYTES - 1) % U32) / cfg.RDR_BCH_MAX_BYTES
        * cfg.RDR_BCH_ECC_BYTES) % U32 := by
  have h1 : ((data_len + cfg.RDR_BCH_MAX_BYTES - 1) % U32) / cfg.RDR_BCH_MAX_BYTES
      ≤ spec_chunks cfg data_len :=
    Nat.div_le_div_right (Nat.mod_le _ _)
  have h2 := Nat.mul_le_mul_right cfg.RDR_BCH_ECC_BYTES h1
  have h3 := Nat.mod_le ((((data_len + cfg.RDR_BCH_MAX_BYTES - 1) % U32) / cfg.RDR_BCH_MAX_BYTES
        * cfg.RDR_BCH_ECC_BYTES)) U32
  omega

/-- The loop of `rdr_bch_encode` started at block `k` encodes the chunks
`k, ..., k + n - 1` of the specification. -/
theorem encode_loop_spec (cfg : Config) (c : bch_control) (data : List Nat) (data_len : Nat) :
    ∀ (n k : Nat) (ecc : List Nat), (k + n) * cfg.RDR_BCH_MAX_BYTES ≤ data_len →
    encode_loop cfg c data n (k * cfg.RDR_BCH_MAX_BYTES) (k * cfg.RDR_BCH_ECC_BYTES) ecc =
      ((k + n) * cfg.RDR_BCH_MAX_BYTES, (k + n) * cfg.RDR_BCH_ECC_BYTES,
        (List.range' k n).foldl (spec_encode_step cfg c data data_len) ecc)
  | 0, k, ecc, _ => by simp [encode_loop]
  | n + 1, k, ecc, h => by
    have hk : (k + 1) * cfg.RDR_BCH_MAX_BYTES ≤ data_len :=
      Nat.le_trans (Nat.mul_le_mul_right _ (by omega)) h
    have h' : (k + 1 + n) * cfg.RDR_BCH_MAX_BYTES ≤ data_len := by
      rw [show k + 1 + n = k + (n + 1) by omega]; exact h
    have ih := encode_loop_spec cfg c data data_len n (k + 1)
      (spec_encode_step cfg c data data_len ecc k) h'
    rw [show k + 1 + n = k + (n + 1) by omega, Nat.succ_mul, Nat.succ_mul] at ih
    simp only [encode_loop, List.range', List.foldl_cons]
    rw [← ih]
    simp only [spec_encode_step, spec_chunk_full cfg data data_len k hk]

theorem spec_fold_failed (cfg : Config) (c : bch_control) (data_len : Nat) (ecc : List Nat)
    (l : List Nat) (st : spec_state) (h : st.ok = false) :
    l.foldl (spec_checkout_step cfg c data_len ecc) st = st := by
  induction l with
  | nil => rfl
  | cons i l ih => simp only [List.foldl_cons, spec_checkout_step, h, Bool.false_eq_true, if_false, ih]

/-- The loop of `rdr_bch_checkout` started at block `k` decodes the chunks
`k, ..., k + n - 1` of the specification. -/
theorem checkout_loop_spec (cfg : Config) (c : bch_control) (ecc : List Nat) (data_len : Nat) :
    ∀ (n k : Nat) (data : List Nat) (num : Nat), (k + n) * cfg.RDR_BCH_MAX_BYTES ≤ data_len →
    ∃ dt et,
    checkout_loop cfg c ecc n (k * cfg.RDR_BCH_MAX_BYTES) (k * cfg.RDR_BCH_ECC_BYTES) data num =
      (((List.range' k n).foldl (spec_checkout_step cfg c data_len ecc)
          { ok := true, data := data, num := num }).ok, dt, et,
       ((List.range' k n).foldl (spec_checkout_step cfg c data_len ecc)
          { ok := true, data := data, num := num }).data,
       ((List.range' k n).foldl (spec_checkout_step cfg c data_len ecc)
          { ok := true, data := data, num := num }).num) ∧
    (((List.range' k n).foldl (spec_checkout_step cfg c data_len ecc)
          { ok := true, data := data, num := num }).ok = true →
      dt = (k + n) * cfg.RDR_BCH_MAX_BYTES ∧ et = (k + n) * cfg.RDR_BCH_ECC_BYTES)
  | 0, k, data, num, _ => ⟨_, _, by simp [checkout_loop], fun _ => ⟨rfl, rfl⟩⟩
  | n + 1, k, data, num, h => by
    have hk : (k + 1) * cfg.RDR_BCH_MAX_BYTES ≤ data_len :=
      Nat.le_trans (Nat.mul_le_mul_right _ (by omega)) h
    have h' : (k + 1 + n) * cfg.RDR_BCH_MAX_BYTES ≤ data_len := by
      rw [show k + 1 + n = k + (n + 1) by omega]; exact h
    simp only [List.range', List.foldl_cons]
    unfold checkout_loop
    cases hd : c.decode ((data.drop (k * cfg.RDR_BCH_MAX_BYTES)).take cfg.RDR_BCH_MAX_BYTES)
        ((ecc.drop (k * cfg.RDR_BCH_ECC_BYTES)).take cfg.RDR_BCH_ECC_BYTES) with
    | none =>
      have hstep : spec_checkout_step cfg c data_len ecc
          { ok := true, data := data, num := num } k
          = { ok := false, data := data, num := num } := by
        simp only [spec_checkout_step, if_true, spec_chunk_full cfg data data_len k hk,
          spec_slice, hd]
      rw [hstep, spec_fold_failed cfg c data_len ecc _ _ rfl]
      exact ⟨_, _, rfl, fun hc => by simp at hc⟩
    | some errloc =>
      have hstep : spec_checkout_step cfg c data_len ecc
          { ok := true, data := data, num := num } k
          = { ok := true, data := fix_bits data (k * cfg.RDR_BCH_MAX_BYTES) errloc,
              num := num + errloc.length } := by
        simp only [spec_checkout_step, if_true, spec_chunk_full cfg data data_len k hk,
          spec_slice, hd]
      rw [hstep]
      have ih := checkout_loop_spec cfg c ecc data_len n (k + 1)
        (fix_bits data (k * cfg.RDR_BCH_MAX_BYTES) errloc) (num + errloc.length) h'
      rw [show k + 1 + n = k + (n + 1) by omega, Nat.succ_mul, Nat.succ_mul] at ih
      exact ih

/-- Where the argument test passes, `rdr_bch_encode` is the specification's
encode: it returns 0 after encoding exactly the chunks `0, ..., spec_chunks - 1`
into their slices. -/
theorem encode_refines (cfg : Config) (c : bch_control) (data : List Nat) (data_len : Nat)
    (ecc : List Nat) (ecc_len : Nat) (hwf : cfg.wf) (hlen : data_len < U32)
    (hpass : ¬ ecc_len < (((data_len + cfg.RDR_BCH_MAX_BYTES - 1) % U32)
        / cfg.RDR_BCH_MAX_BYTES * cfg.RDR_BCH_ECC_BYTES) % U32) :
    rdr_bch_encode cfg (some c) data data_len ecc ecc_len =
      (0, spec_encode cfg c data data_len ecc) := by
  have hpos : 0 < cfg.RDR_BCH_MAX_BYTES := by
    have := hwf.1; unfold SAFE_BYTES at this; omega
  have hloop := encode_loop_spec cfg c data data_len (data_len / cfg.RDR_BCH_MAX_BYTES) 0 ecc
    (by rw [Nat.zero_add]; exact Nat.div_mul_le_self _ _)
  simp only [Nat.zero_mul, Nat.zero_add, ← List.range_eq_range'] at hloop
  have hn := spec_chunks_eq cfg data_len hpos
  unfold rdr_bch_encode
  simp only [hpass, if_false, hloop]
  unfold spec_encode
  by_cases hr : data_len % cfg.RDR_BCH_MAX_BYTES ≠ 0
  · have hne := int_times_ne_ecc_times cfg data_len hwf hlen hr
    rw [hn, if_pos hr, if_neg hne, if_pos hr, List.range_succ, List.foldl_append]
    simp only [List.foldl_cons, List.foldl_nil, spec_encode_step,
      spec_chunk_last cfg data data_len hpos]
  · rw [hn]
    simp only [if_neg hr, Nat.add_zero, ite_self]

/-- Where the argument test passes, `rdr_bch_checkout` is the specification's
checkout: the chunks `0, ..., spec_chunks - 1` are decoded in order against
their slices; it returns 0 when all decode and `-EIO` at the first that does
not, and the counter reaches only the log line. -/
theorem checkout_refines (cfg : Config) (c : bch_control) (data : List Nat) (data_len : Nat)
    (ecc : List Nat) (ecc_len : Nat) (hwf : cfg.wf)
    (hpass : ¬ ecc_len < (((data_len + cfg.RDR_BCH_MAX_BYTES - 1) % U32)
        / cfg.RDR_BCH_MAX_BYTES * cfg.RDR_BCH_ECC_BYTES) % U32) :
    rdr_bch_checkout cfg (some c) data data_len ecc ecc_len =
      if (spec_checkout cfg c data data_len ecc).ok then
        { ret := 0, data := (spec_checkout cfg c data data_len ecc).data,
          printed := if (spec_checkout cfg c data data_len ecc).num ≠ 0
            then some (spec_checkout cfg c data data_len ecc).num else none }
      else
        { ret := -EIO_errno, data := (spec_checkout cfg c data data_len ecc).data,
          printed := none } := by
  have hpos : 0 < cfg.RDR_BCH_MAX_BYTES := by
    have := hwf.1; unfold SAFE_BYTES at this; omega
  obtain ⟨dt, et, hloop, hoff⟩ := checkout_loop_spec cfg c ecc data_len
    (data_len / cfg.RDR_BCH_MAX_BYTES) 0 data 0
    (by rw [Nat.zero_add]; exact Nat.div_mul_le_self _ _)
  simp only [Nat.zero_mul, Nat.zero_add, ← List.range_eq_range'] at hloop hoff
  have hn := spec_chunks_eq cfg data_len hpos
  unfold rdr_bch_checkout
  simp only [hpass, if_false, hloop]
  unfold spec_checkout spec_checkout_upto
  obtain ⟨s, hs⟩ : ∃ s, s = (List.range (data_len / cfg.RDR_BCH_MAX_BYTES)).foldl
    (spec_checkout_step cfg c data_len ecc) { ok := true, data := data, num := 0 } := ⟨_, rfl⟩
  rw [← hs] at hoff
  by_cases hr : data_len % cfg.RDR_BCH_MAX_BYTES ≠ 0
  · rw [hn, if_pos hr, List.range_succ, List.foldl_append, ← hs]
    simp only [List.foldl_cons, List.foldl_nil]
    cases hok : s.ok with
    | false =>
      simp [spec_checkout_step, hok]
    | true =>
      obtain ⟨hdt, het⟩ := hoff hok
      simp only [spec_checkout_step, hok, if_true, spec_chunk_last cfg _ data_len hpos,
        spec_slice, hr, hdt, het, ne_eq, not_false_eq_true]
      cases hd : c.decode
        ((s.data.drop (data_len / cfg.RDR_BCH_MAX_BYTES * cfg.RDR_BCH_MAX_BYTES)).take
          (data_len % cfg.RDR_BCH_MAX_BYTES))
        ((ecc.drop (data_len / cfg.RDR_BCH_MAX_BYTES * cfg.RDR_BCH_ECC_BYTES)).take
          cfg.RDR_BCH_ECC_BYTES) <;> simp [hok]
  · rw [hn]
    simp only [if_neg hr, Nat.add_zero, ← hs]
    cases hok : s.ok <;> simp

/-! ## Slices of the ECC buffer -/

theorem write_at_length (buf : List Nat) (off : Nat) (bytes : List Nat)
    (h : off + bytes.length ≤ buf.length) : (write_at buf off bytes).length = buf.length := by
  simp only [write_at, List.length_append, List.length_take, List.length_drop]
  omega

theorem write_at_drop (buf : List Nat) (off : Nat) (bytes : List Nat)
    (h : off + bytes.length ≤ buf.length) :
    (write_at buf off bytes).drop (off + bytes.length) = buf.drop (off + bytes.length) := by
  unfold write_at
  have hl : (buf.take off ++ bytes).length = off + bytes.length := by
    simp only [List.length_append, List.length_take]; omega
  rw [← hl, List.drop_left]

theorem write_at_take (buf : List Nat) (off : Nat) (bytes : List Nat)
    (h : off ≤ buf.length) : (write_at buf off bytes).take off = buf.take off := by
  unfold write_at
  have hl : (buf.take off).length = off := by simp only [List.length_take]; omega
  rw [List.append_assoc]
  conv => lhs; arg 1; rw [← hl]
  rw [List.take_left]

theorem write_at_slice (buf : List Nat) (off : Nat) (bytes : List Nat)
    (h : off ≤ buf.length) :
    ((write_at buf off bytes).drop off).take bytes.length = bytes := by
  unfold write_at
  have hl : (buf.take off).length = off := by simp only [List.length_take]; omega
  rw [List.append_assoc]
  conv => lhs; arg 2; arg 1; rw [← hl]
  rw [List.drop_left, List.take_left]

theorem slice_of_take (l1 l2 : List Nat) (a n k : Nat) (h : l1.take k = l2.take k)
    (hk : a + n ≤ k) : (l1.drop a).take n = (l2.drop a).take n := by
  have e1 : (l1.drop a).take n = ((l1.take k).drop a).take n := by
    rw [List.drop_take, List.take_take, Nat.min_eq_left (by omega)]
  have e2 : (l2.drop a).take n = ((l2.take k).drop a).take n := by
    rw [List.drop_take, List.take_take, Nat.min_eq_left (by omega)]
  rw [e1, e2, h]

theorem spec_chunk_length (cfg : Config) (data : List Nat) (data_len i : Nat) :
    (spec_chunk cfg data data_len i).length ≤ cfg.RDR_BCH_MAX_BYTES := by
  unfold spec_chunk
  have h1 : min ((i + 1) * cfg.RDR_BCH_MAX_BYTES) data_len ≤ (i + 1) * cfg.RDR_BCH_MAX_BYTES :=
    Nat.min_le_left _ _
  rw [Nat.succ_mul] at h1
  have h2 := List.length_take_le
    (min (i * cfg.RDR_BCH_MAX_BYTES + cfg.RDR_BCH_MAX_BYTES) data_len
      - i * cfg.RDR_BCH_MAX_BYTES) (data.drop (i * cfg.RDR_BCH_MAX_BYTES))
  rw [Nat.succ_mul]
  omega

/-- After the specification's encode of the first `n` chunks the ECC buffer has
its old length, slice `i` holds the ECC of chunk `i` for every `i < n`, and the
bytes from slice `n` on are the old ones. -/
theorem spec_encode_slices (cfg : Config) (c : bch_control) (data : List Nat) (data_len : Nat)
    (ecc : List Nat)
    (henc : ∀ d : List Nat, d.length ≤ cfg.RDR_BCH_MAX_BYTES →
      (c.encode d).length = cfg.RDR_BCH_ECC_BYTES) :
    ∀ n : Nat, n * cfg.RDR_BCH_ECC_BYTES ≤ ecc.length →
    ((List.range n).foldl (spec_encode_step cfg c data data_len) ecc).length = ecc.length ∧
    (∀ i < n, spec_slice cfg ((List.range n).foldl (spec_encode_step cfg c data data_len) ecc) i
      = c.encode (spec_chunk cfg data data_len i)) ∧
    ((List.range n).foldl (spec_encode_step cfg c data data_len) ecc).drop
      (n * cfg.RDR_BCH_ECC_BYTES) = ecc.drop (n * cfg.RDR_BCH_ECC_BYTES)
  | 0, _ => by simp
  | n + 1, h => by
    have hn : n * cfg.RDR_BCH_ECC_BYTES ≤ ecc.length := by
      rw [Nat.succ_mul] at h; omega
    obtain ⟨ih1, ih2, ih3⟩ := spec_encode_slices cfg c data data_len ecc henc n hn
    rw [List.range_succ, List.foldl_append]
    simp only [List.foldl_cons, List.foldl_nil]
    obtain ⟨r, hr⟩ : ∃ r, r = (List.range n).foldl (spec_encode_step cfg c data data_len) ecc :=
      ⟨_, rfl⟩
    rw [← hr] at ih1 ih2 ih3 ⊢
    have hlen := henc _ (spec_chunk_length cfg data data_len n)
    have hfit : n * cfg.RDR_BCH_ECC_BYTES + (c.encode (spec_chunk cfg data data_len n)).length
        ≤ r.length := by
      rw [hlen, ih1]; rw [Nat.succ_mul] at h; exact h
    refine ⟨?_, ?_, ?_⟩
    · rw [spec_encode_step, write_at_length _ _ _ hfit, ih1]
    · intro i hi
      by_cases hin : i = n
      · subst hin
        have := write_at_slice r (i * cfg.RDR_BCH_ECC_BYTES)
          (c.encode (spec_chunk cfg data data_len i)) (by omega)
        rw [hlen] at this
        exact this
      · have hlt : i < n := by omega
        rw [← ih2 i hlt]
        unfold spec_slice spec_encode_step
        apply slice_of_take _ _ _ _ (n * cfg.RDR_BCH_ECC_BYTES)
          (write_at_take r _ _ (by omega))
        have := Nat.mul_le_mul_right cfg.RDR_BCH_ECC_BYTES (show i + 1 ≤ n by omega)
        rw [Nat.succ_mul] at this
        exact this
    · have := write_at_drop r (n * cfg.RDR_BCH_ECC_BYTES)
        (c.encode (spec_chunk cfg data data_len n)) hfit
      rw [hlen, ← Nat.succ_mul] at this
      rw [spec_encode_step, this]
      have h4 : r.drop ((n + 1) * cfg.RDR_BCH_ECC_BYTES)
          = (r.drop (n * cfg.RDR_BCH_ECC_BYTES)).drop cfg.RDR_BCH_ECC_BYTES := by
        rw [List.drop_drop, Nat.succ_mul]
      have h5 : ecc.drop ((n + 1) * cfg.RDR_BCH_ECC_BYTES)
          = (ecc.drop (n * cfg.RDR_BCH_ECC_BYTES)).drop cfg.RDR_BCH_ECC_BYTES := by
        rw [List.drop_drop, Nat.succ_mul]
      rw [h4, h5, ih3]

/-- The specification's checkout of unmodified data against its own ECC slices
corrects nothing. -/
theorem spec_checkout_clean (cfg : Config) (c : bch_control) (data : List Nat)
    (data_len : Nat) (ecc : List Nat) (hspec : bch_spec cfg c) (hbytes : ∀ b ∈ data, b < 256)
    (N : Nat) (hsl : ∀ i < N, spec_slice cfg ecc i = c.encode (spec_chunk cfg data data_len i)) :
    ∀ n : Nat, n ≤ N →
    spec_checkout_upto cfg c data data_len ecc n = { ok := true, data := data, num := 0 }
  | 0, _ => by simp [spec_checkout_upto]
  | n + 1, h => by
    have ih := spec_checkout_clean cfg c data data_len ecc hspec hbytes N hsl n (by omega)
    unfold spec_checkout_upto at ih ⊢
    rw [List.range_succ, List.foldl_append, ih]
    simp only [List.foldl_cons, List.foldl_nil, spec_checkout_step, if_true]
    rw [hsl n (by omega)]
    obtain ⟨L, hL, hLlen, _⟩ := hspec.2.1 (spec_chunk cfg data data_len n) []
      (spec_chunk_length cfg data data_len n)
      (fun b hb => hbytes b (List.mem_of_mem_drop (List.mem_of_mem_take hb)))
      List.nodup_nil (fun s hs => by simp at hs) (Nat.zero_le _)
    rw [fix_bits_nil] at hL
    have hnil : L = [] := List.length_eq_zero.mp (by simpa using hLlen)
    rw [hL, hnil]
    simp [fix_bits_nil]

/-! ## The result of a checkout -/

/-- The counter of the specification's checkout only grows, and where it has
not grown the data are the old ones. -/
theorem spec_fold_num (cfg : Config) (c : bch_control) (data_len : Nat) (ecc : List Nat) :
    ∀ (l : List Nat) (st : spec_state),
    st.num ≤ (l.foldl (spec_checkout_step cfg c data_len ecc) st).num ∧
    ((l.foldl (spec_checkout_step cfg c data_len ecc) st).num = st.num →
      (l.foldl (spec_checkout_step cfg c data_len ecc) st).data = st.data)
  | [], st => ⟨Nat.le_refl _, fun _ => rfl⟩
  | i :: l, st => by
    simp only [List.foldl_cons]
    obtain ⟨ih1, ih2⟩ := spec_fold_num cfg c data_len ecc l
      (spec_checkout_step cfg c data_len ecc st i)
    have hstep : st.num ≤ (spec_checkout_step cfg c data_len ecc st i).num ∧
        ((spec_checkout_step cfg c data_len ecc st i).num = st.num →
          (spec_checkout_step cfg c data_len ecc st i).data = st.data) := by
      unfold spec_checkout_step
      split
      · split
        · exact ⟨Nat.le_refl _, fun _ => rfl⟩
        · rename_i L _
          refine ⟨Nat.le_add_right _ _, fun h => ?_⟩
          have hnil : L = [] := List.length_eq_zero.mp (by simp only at h; omega)
          simp only [hnil, fix_bits_nil]
      · exact ⟨Nat.le_refl _, fun _ => rfl⟩
    refine ⟨Nat.le_trans hstep.1 ih1, fun h => ?_⟩
    have h1 : (spec_checkout_step cfg c data_len ecc st i).num = st.num := by omega
    rw [ih2 (by omega), hstep.2 h1]

/-- C16, the code against the claim: one bit of the second chunk of `buf40` is
flipped, `rdr_bch_checkout` corrects it in place and succeeds; one bit error
was corrected, and the value returned is 0, not 1: the count goes to the log
line only. -/
theorem C16_counterexample :
    fix_bits buf40 0 [200] ≠ buf40 ∧
    rdr_bch_checkout cfg0 (some rep3) (fix_bits buf40 0 [200]) 40 ecc40 96 =
      { ret := 0, data := buf40, printed := some 1 } := by
  decide

/-- C16, as amended: whenever `rdr_bch_checkout` succeeds it returns 0; the
total number of bit errors corrected over all chunks is handed to the log line
`bch check num` when it is not 0 and nothing is logged when it is 0, in which
case the data are the input; the data have been corrected in place: every
chunk decoded, in order, and its reported bits were flipped. -/
theorem C16_checkout_result (cfg : Config) (c : bch_control) (data : List Nat)
    (data_len : Nat) (ecc : List Nat) (ecc_len : Nat) (hwf : cfg.wf)
    (hok : 0 ≤ (rdr_bch_checkout cfg (some c) data data_len ecc ecc_len).ret) :
    (rdr_bch_checkout cfg (some c) data data_len ecc ecc_len).ret = 0 ∧
    (spec_checkout cfg c data data_len ecc).ok = true ∧
    (rdr_bch_checkout cfg (some c) data data_len ecc ecc_len).data =
      (spec_checkout cfg c data data_len ecc).data ∧
    (rdr_bch_checkout cfg (some c) data data_len ecc ecc_len).printed =
      (if (spec_checkout cfg c data data_len ecc).num ≠ 0
        then some (spec_checkout cfg c data data_len ecc).num else none) ∧
    ((spec_checkout cfg c data data_len ecc).num = 0 →
      (rdr_bch_checkout cfg (some c) data data_len ecc ecc_len).data = data) := by
  have hpass : ¬ ecc_len < (((data_len + cfg.RDR_BCH_MAX_BYTES - 1) % U32)
      / cfg.RDR_BCH_MAX_BYTES * cfg.RDR_BCH_ECC_BYTES) % U32 := by
    intro hlt
    have := (checkout_ret_einval cfg c data data_len ecc ecc_len).mpr hlt
    rw [this] at hok
    exact absurd hok (by decide)
  have href := checkout_refines cfg c data data_len ecc ecc_len hwf hpass
  have hnum := spec_fold_num cfg c data_len ecc (List.range (spec_chunks cfg data_len))
    { ok := true, data := data, num := 0 }
  rw [href] at hok ⊢
  cases hs : (spec_checkout cfg c data data_len ecc).ok with
  | false =>
    simp only [hs, Bool.false_eq_true, if_false] at hok
    exact absurd hok (by decide)
  | true =>
    simp only [if_true, true_and]
    intro h0
    exact hnum.2 h0

/-- Instance of C16 as amended: one flipped bit in each chunk of `buf40`; the
call returns 0, the buffer is `buf40` again and 2 is logged. -/
theorem C16_checkout_result_witness :
    ((rdr_bch_checkout cfg0 (some rep3) (fix_bits buf40 0 [5, 200]) 40 ecc40 96).ret = 0 ∧
    (spec_checkout cfg0 rep3 (fix_bits buf40 0 [5, 200]) 40 ecc40).ok = true ∧
    (rdr_bch_checkout cfg0 (some rep3) (fix_bits buf40 0 [5, 200]) 40 ecc40 96).data =
      (spec_checkout cfg0 rep3 (fix_bits buf40 0 [5, 200]) 40 ecc40).data ∧
    (rdr_bch_checkout cfg0 (some rep3) (fix_bits buf40 0 [5, 200]) 40 ecc40 96).printed =
      (if (spec_checkout cfg0 rep3 (fix_bits buf40 0 [5, 200]) 40 ecc40).num ≠ 0
        then some (spec_checkout cfg0 rep3 (fix_bits buf40 0 [5, 200]) 40 ecc40).num
        else none) ∧
    ((spec_checkout cfg0 rep3 (fix_bits buf40 0 [5, 200]) 40 ecc40).num = 0 →
      (rdr_bch_checkout cfg0 (some rep3) (fix_bits buf40 0 [5, 200]) 40 ecc40 96).data =
        fix_bits buf40 0 [5, 200])) ∧
    rdr_bch_checkout cfg0 (some rep3) (fix_bits buf40 0 [5, 200]) 40 ecc40 96 =
      { ret := 0, data := buf40, printed := some 2 } :=
  ⟨C16_checkout_result cfg0 rep3 (fix_bits buf40 0 [5, 200]) 40 ecc40 96 (by decide) (by decide),
    by decide⟩

/-! ## Block chunking -/

/-- C17 (block chunking): for every `uint` `data_len` and an ECC buffer of
`ecc_len` bytes with room for `ceil(data_len / RDR_BCH_MAX_BYTES)` slices,
`rdr_bch_encode` returns 0 and performs exactly the block encodings of the
specification: chunk `i` covers the data bytes
`[i * MAX, min((i+1) * MAX, data_len))` and its ECC is stored in the slice
`[i * ECC, (i+1) * ECC)`, for `i` below the exact ceiling (no chunk at all for
`data_len = 0`); the ECC buffer keeps its length and the bytes behind the last
slice.  `rdr_bch_checkout` decodes over the same chunks and slices, and run
directly after the encode on the unmodified data it returns 0, logs no
correction and leaves the data unchanged. -/
theorem C17_block_chunking (cfg : Config) (c : bch_control) (data : List Nat)
    (data_len : Nat) (ecc : List Nat) (ecc_len : Nat) (hwf : cfg.wf) (hspec : bch_spec cfg c)
    (hlen : data_len < U32) (hbytes : ∀ b ∈ data, b < 256) (hecc : ecc.length = ecc_len)
    (hsuff : spec_chunks cfg data_len * cfg.RDR_BCH_ECC_BYTES ≤ ecc_len) :
    rdr_bch_encode cfg (some c) data data_len ecc ecc_len =
      (0, spec_encode cfg c data data_len ecc) ∧
    (spec_chunks cfg data_len = 0 ↔ data_len = 0) ∧
    (spec_encode cfg c data data_len ecc).length = ecc_len ∧
    (∀ i < spec_chunks cfg data_len, spec_slice cfg (spec_encode cfg c data data_len ecc) i
      = c.encode (spec_chunk cfg data data_len i)) ∧
    (spec_encode cfg c data data_len ecc).drop (spec_chunks cfg data_len * cfg.RDR_BCH_ECC_BYTES)
      = ecc.drop (spec_chunks cfg data_len * cfg.RDR_BCH_ECC_BYTES) ∧
    (∀ data1 ecc1 : List Nat, rdr_bch_checkout cfg (some c) data1 data_len ecc1 ecc_len =
      if (spec_checkout cfg c data1 data_len ecc1).ok then
        { ret := 0, data := (spec_checkout cfg c data1 data_len ecc1).data,
          printed := if (spec_checkout cfg c data1 data_len ecc1).num ≠ 0
            then some (spec_checkout cfg c data1 data_len ecc1).num else none }
      else
        { ret := -EIO_errno, data := (spec_checkout cfg c data1 data_len ecc1).data,
          printed := none }) ∧
    rdr_bch_checkout cfg (some c) data data_len
        (rdr_bch_encode cfg (some c) data data_len ecc ecc_len).2 ecc_len =
      { ret := 0, data := data, printed := none } := by
  have hpos : 0 < cfg.RDR_BCH_MAX_BYTES := by
    have := hwf.1; unfold SAFE_BYTES at this; omega
  have hpass := check_passes cfg data_len ecc_len hsuff
  have henc := encode_refines cfg c data data_len ecc ecc_len hwf hlen hpass
  have hsl := spec_encode_slices cfg c data data_len ecc hspec.1 (spec_chunks cfg data_len)
    (by rw [hecc]; exact hsuff)
  have hzero : spec_chunks cfg data_len = 0 ↔ data_len = 0 := by
    unfold spec_chunks
    rw [Nat.div_eq_zero_iff hpos]
    omega
  have hclean := spec_checkout_clean cfg c data data_len (spec_encode cfg c data data_len ecc)
    hspec hbytes (spec_chunks cfg data_len) hsl.2.1 (spec_chunks cfg data_len) (Nat.le_refl _)
  refine ⟨henc, hzero, by rw [← hecc]; exact hsl.1, hsl.2.1, hsl.2.2,
    fun data1 ecc1 => checkout_refines cfg c data1 data_len ecc1 ecc_len hwf hpass, ?_⟩
  rw [henc, checkout_refines cfg c data data_len _ ecc_len hwf hpass]
  unfold spec_checkout
  rw [hclean]
  simp

/-- Instance of C17: the 40 bytes of `buf40` are encoded as two chunks, of 24
and of 16 bytes, into the first two 48-byte slices of a zeroed buffer of 100
bytes, and the checkout that follows corrects nothing. -/
theorem C17_block_chunking_witness :
    (rdr_bch_encode cfg0 (some rep3) buf40 40 (List.replicate 100 0) 100 =
      (0, spec_encode cfg0 rep3 buf40 40 (List.replicate 100 0)) ∧
    (spec_chunks cfg0 40 = 0 ↔ 40 = 0) ∧
    (spec_encode cfg0 rep3 buf40 40 (List.replicate 100 0)).length = 100 ∧
    (∀ i < spec_chunks cfg0 40, spec_slice cfg0 (spec_encode cfg0 rep3 buf40 40
        (List.replicate 100 0)) i = rep3.encode (spec_chunk cfg0 buf40 40 i)) ∧
    (spec_encode cfg0 rep3 buf40 40 (List.replicate 100 0)).drop
        (spec_chunks cfg0 40 * cfg0.RDR_BCH_ECC_BYTES)
      = (List.replicate 100 0).drop (spec_chunks cfg0 40 * cfg0.RDR_BCH_ECC_BYTES) ∧
    (∀ data1 ecc1 : List Nat, rdr_bch_checkout cfg0 (some rep3) data1 40 ecc1 100 =
      if (spec_checkout cfg0 rep3 data1 40 ecc1).ok then
        { ret := 0, data := (spec_checkout cfg0 rep3 data1 40 ecc1).data,
          printed := if (spec_checkout cfg0 rep3 data1 40 ecc1).num ≠ 0
            then some (spec_checkout cfg0 rep3 data1 40 ecc1).num else none }
      else
        { ret := -EIO_errno, data := (spec_checkout cfg0 rep3 data1 40 ecc1).data,
          printed := none }) ∧
    rdr_bch_checkout cfg0 (some rep3) buf40 40
        (rdr_bch_encode cfg0 (some rep3) buf40 40 (List.replicate 100 0) 100).2 100 =
      { ret := 0, data := buf40, printed := none }) ∧
    spec_chunks cfg0 40 = 2 ∧
    spec_chunk cfg0 buf40 40 0 = List.range 24 ∧
    spec_chunk cfg0 buf40 40 1 = (List.range 40).drop 24 :=
  ⟨C17_block_chunking cfg0 rep3 buf40 40 (List.replicate 100 0) 100 (by decide) rep3_spec
    (by decide) (by decide) (by decide) (by decide), by decide, by decide, by decide⟩

/-! ## A failed checkout is not atomic -/

theorem xor_byte_append_right (d e : List Nat) (i m : Nat) :
    xor_byte (d ++ e) (d.length + i) m = d ++ xor_byte e i m := by
  induction d with
  | nil => simp
  | cons b bs ih =>
    rw [List.length_cons, show bs.length + 1 + i = (bs.length + i) + 1 by omega]
    simp only [List.cons_append, xor_byte]
    exact congrArg (List.cons b) ih

/-- The repetition code with the ECC-repairing decoder meets the contract of
the BCH codec. -/
theorem rep3e_spec : bch_spec cfg0 rep3e := by
  refine ⟨rep3_spec.1, ?_, ?_⟩
  · intro d S hlen hd hS hSb hST
    obtain ⟨L, hL, h2, h3⟩ := rep3_spec.2.1 d S hlen hd hS hSb hST
    refine ⟨L, ?_, h2, h3⟩
    have hL' : rep3_decode (fix_bits d 0 S) (rep3_encode d) = some L := hL
    show rep3e_decode (fix_bits d 0 S) (rep3_encode d) = some L
    simp only [rep3e_decode, hL']
  · intro d e L hlen hdec
    have hdec' : rep3e_decode d e = some L := hdec
    unfold rep3e_decode at hdec'
    cases h : rep3_decode d e with
    | some L' => exact rep3_spec.2.2 d e L' hlen h
    | none =>
      simp only [h] at hdec'
      cases hf : (List.range (8 * 48)).find? (fun k => fix_bits e 0 [k] = rep3_encode d) with
      | none => simp [hf] at hdec'
      | some k =>
        have hk := List.find?_some hf
        simp only [decide_eq_true_eq] at hk
        refine ⟨d, [8 * d.length + k], rfl, Nat.le_refl 1, ?_⟩
        show fix_bits (d ++ e) 0 [8 * d.length + k] = d ++ rep3_encode d
        rw [fix_bits_single, ← hk, fix_bits_single,
          show (8 * d.length + k) / 8 = d.length + k / 8 by omega,
          show (8 * d.length + k) % 8 = k % 8 by omega, xor_byte_append_right]

/-- C18, the code at the failing input: 40 bytes in two chunks; the ECC slice
of chunk 0 has one flipped bit, which the codec corrects and reports at
location `8 * 24 + 3`, behind the data bits of the chunk; chunk 1 has two
flipped bits and does not decode.  The fix loop of lines 79-81 applies the
location of chunk 0 to the data without a bound, which flips bit 3 of byte 24,
the first byte of chunk 1: the call returns `-EIO` and chunk 1 is not the
input chunk. -/
theorem C18_stray_flip :
    rep3e.decode (spec_chunk cfg0 data40_bad 40 0) (spec_slice cfg0 ecc40_bad 0) = some [195] ∧
    rep3e.decode (spec_chunk cfg0 data40_bad 40 1) (spec_slice cfg0 ecc40_bad 1) = none ∧
    rdr_bch_checkout cfg0 (some rep3e) data40_bad 40 ecc40_bad 96 =
      { ret := -EIO_errno, data := fix_bits data40_bad 0 [195], printed := none } ∧
    spec_chunk cfg0 (fix_bits data40_bad 0 [195]) 40 0 = spec_chunk cfg0 data40_bad 40 0 ∧
    spec_chunk cfg0 (fix_bits data40_bad 0 [195]) 40 1 ≠ spec_chunk cfg0 data40_bad 40 1 ∧
    (fix_bits data40_bad 0 [195]).getD 24 0 = 16 ∧ data40_bad.getD 24 0 = 24 := by
  decide

/-! ## Corrections that stay inside their chunk -/

theorem xor_byte_drop (d : List Nat) (a i m : Nat) :
    (xor_byte d (a + i) m).drop a = xor_byte (d.drop a) i m := by
  induction d generalizing a with
  | nil => simp [xor_byte]
  | cons b bs ih =>
    cases a with
    | zero => simp
    | succ a =>
      rw [show a + 1 + i = (a + i) + 1 by omega]
      simp only [xor_byte, List.drop_succ_cons, ih]

theorem xor_byte_take (d : List Nat) (i m k : Nat) :
    (xor_byte d i m).take k = xor_byte (d.take k) i m := by
  induction d generalizing i k with
  | nil => simp [xor_byte]
  | cons b bs ih =>
    cases k with
    | zero => simp [xor_byte]
    | succ k =>
      cases i with
      | zero => simp [xor_byte]
      | succ i => simp only [xor_byte, List.take_succ_cons, ih]

theorem xor_byte_take_of_le (d : List Nat) (i m k : Nat) (h : k ≤ i) :
    (xor_byte d i m).take k = d.take k := by
  rw [xor_byte_take, xor_byte_out_of_range]
  exact Nat.le_trans (List.length_take_le _ _) h

theorem xor_byte_drop_of_lt (d : List Nat) (i m k : Nat) (h : i < k) :
    (xor_byte d i m).drop k = d.drop k := by
  induction d generalizing i k with
  | nil => simp [xor_byte]
  | cons b bs ih =>
    cases k with
    | zero => omega
    | succ k =>
      cases i with
      | zero => simp [xor_byte]
      | succ i => simp only [xor_byte, List.drop_succ_cons, ih i k (by omega)]

theorem fix_bits_drop (d : List Nat) (a : Nat) (L : List Nat) :
    (fix_bits d a L).drop a = fix_bits (d.drop a) 0 L := by
  induction L generalizing d with
  | nil => rfl
  | cons l L ih =>
    simp only [fix_bits, List.foldl_cons] at ih ⊢
    rw [ih, xor_byte_drop, Nat.zero_add]

theorem fix_bits_take (d : List Nat) (k : Nat) (L : List Nat) :
    (fix_bits d 0 L).take k = fix_bits (d.take k) 0 L := by
  induction L generalizing d with
  | nil => rfl
  | cons l L ih =>
    simp only [fix_bits, List.foldl_cons] at ih ⊢
    rw [ih, xor_byte_take]

theorem fix_bits_take_of_le (d : List Nat) (dt k : Nat) (L : List Nat) (h : k ≤ dt) :
    (fix_bits d dt L).take k = d.take k := by
  induction L generalizing d with
  | nil => rfl
  | cons l L ih =>
    simp only [fix_bits, List.foldl_cons] at ih ⊢
    rw [ih, xor_byte_take_of_le _ _ _ _ (by omega)]

theorem fix_bits_drop_of_lt (d : List Nat) (dt k : Nat) (L : List Nat)
    (h : ∀ loc ∈ L, dt + loc / 8 < k) : (fix_bits d dt L).drop k = d.drop k := by
  induction L generalizing d with
  | nil => rfl
  | cons l L ih =>
    simp only [fix_bits, List.foldl_cons] at ih ⊢
    rw [ih _ (fun loc hl => h loc (List.mem_cons_of_mem _ hl)),
      xor_byte_drop_of_lt _ _ _ _ (h l (List.mem_cons_self _ _))]

/-- Chunk `i` is read from the bytes from `i * MAX` on. -/
theorem spec_chunk_of_drop (cfg : Config) (d1 d2 : List Nat) (data_len i : Nat)
    (h : d1.drop (i * cfg.RDR_BCH_MAX_BYTES) = d2.drop (i * cfg.RDR_BCH_MAX_BYTES)) :
    spec_chunk cfg d1 data_len i = spec_chunk cfg d2 data_len i := by
  unfold spec_chunk; rw [h]

/-- Chunk `i` is read from the bytes before `(i + 1) * MAX`. -/
theorem spec_chunk_of_take (cfg : Config) (d1 d2 : List Nat) (data_len i k : Nat)
    (hk : (i + 1) * cfg.RDR_BCH_MAX_BYTES ≤ k) (h : d1.take k = d2.take k) :
    spec_chunk cfg d1 data_len i = spec_chunk cfg d2 data_len i := by
  unfold spec_chunk
  apply slice_of_take _ _ _ _ k h
  have h1 : min ((i + 1) * cfg.RDR_BCH_MAX_BYTES) data_len ≤ (i + 1) * cfg.RDR_BCH_MAX_BYTES :=
    Nat.min_le_left _ _
  rw [Nat.succ_mul] at h1 hk
  rw [Nat.succ_mul]
  omega

/-- The corrected chunk: flipping the reported bits from the start of chunk
`i` in the buffer flips them in the chunk. -/
theorem spec_chunk_fix (cfg : Config) (d : List Nat) (data_len i : Nat) (L : List Nat) :
    spec_chunk cfg (fix_bits d (i * cfg.RDR_BCH_MAX_BYTES) L) data_len i =
      fix_bits (spec_chunk cfg d data_len i) 0 L := by
  unfold spec_chunk
  rw [fix_bits_drop, fix_bits_take]

/-- While every chunk decodes with locations inside the chunk, the
specification's checkout of the first `n` chunks has corrected exactly these
chunks and has not touched the bytes from chunk `n` on. -/
theorem spec_checkout_prefix (cfg : Config) (c : bch_control) (data : List Nat)
    (data_len : Nat) (ecc : List Nat) (j : Nat) (L : Nat → List Nat)
    (hdec : ∀ i < j, c.decode (spec_chunk cfg data data_len i) (spec_slice cfg ecc i)
      = some (L i))
    (hin : ∀ i < j, ∀ loc ∈ L i, loc / 8 < cfg.RDR_BCH_MAX_BYTES) :
    ∀ n : Nat, n ≤ j →
    (spec_checkout_upto cfg c data data_len ecc n).ok = true ∧
    (spec_checkout_upto cfg c data data_len ecc n).data.drop (n * cfg.RDR_BCH_MAX_BYTES)
      = data.drop (n * cfg.RDR_BCH_MAX_BYTES) ∧
    (∀ i < n, spec_chunk cfg (spec_checkout_upto cfg c data data_len ecc n).data data_len i
      = fix_bits (spec_chunk cfg data data_len i) 0 (L i))
  | 0, _ => by simp [spec_checkout_upto]
  | n + 1, h => by
    obtain ⟨ih1, ih2, ih3⟩ := spec_checkout_prefix cfg c data data_len ecc j L hdec hin n
      (by omega)
    have hstep : spec_checkout_upto cfg c data data_len ecc (n + 1) =
        spec_checkout_step cfg c data_len ecc (spec_checkout_upto cfg c data data_len ecc n) n := by
      unfold spec_checkout_upto
      rw [List.range_succ, List.foldl_append]
      rfl
    obtain ⟨s, hs⟩ : ∃ s, s = spec_checkout_upto cfg c data data_len ecc n := ⟨_, rfl⟩
    rw [← hs] at ih1 ih2 ih3 hstep
    have hchunk : spec_chunk cfg s.data data_len n = spec_chunk cfg data data_len n :=
      spec_chunk_of_drop cfg _ _ data_len n ih2
    have hnew : spec_checkout_upto cfg c data data_len ecc (n + 1) =
        { ok := true, data := fix_bits s.data (n * cfg.RDR_BCH_MAX_BYTES) (L n),
          num := s.num + (L n).length } := by
      rw [hstep]
      simp only [spec_checkout_step, ih1, if_true, hchunk, hdec n (by omega)]
    rw [hnew]
    refine ⟨rfl, ?_, ?_⟩
    · show (fix_bits s.data (n * cfg.RDR_BCH_MAX_BYTES) (L n)).drop
          ((n + 1) * cfg.RDR_BCH_MAX_BYTES) = data.drop ((n + 1) * cfg.RDR_BCH_MAX_BYTES)
      rw [fix_bits_drop_of_lt]
      · rw [Nat.succ_mul, ← List.drop_drop, ← List.drop_drop, ih2]
      · intro loc hl
        have := hin n (by omega) loc hl
        rw [Nat.succ_mul]; omega
    · intro i hi
      show spec_chunk cfg (fix_bits s.data (n * cfg.RDR_BCH_MAX_BYTES) (L n)) data_len i = _
      by_cases hin' : i = n
      · subst hin'
        rw [spec_chunk_fix, hchunk]
      · have hlt : i < n := by omega
        rw [← ih3 i hlt]
        apply spec_chunk_of_take cfg _ _ data_len i (n * cfg.RDR_BCH_MAX_BYTES)
          (Nat.mul_le_mul_right _ (by omega))
        exact fix_bits_take_of_le _ _ _ _ (Nat.le_refl _)

theorem spec_checkout_upto_succ (cfg : Config) (c : bch_control) (data : List Nat)
    (data_len : Nat) (ecc : List Nat) (n : Nat) :
    spec_checkout_upto cfg c data data_len ecc (n + 1) =
      spec_checkout_step cfg c data_len ecc (spec_checkout_upto cfg c data data_len ecc n) n := by
  unfold spec_checkout_upto
  rw [List.range_succ, List.foldl_append]
  rfl

/-- Once a chunk has failed, the specification's checkout does nothing more. -/
theorem spec_checkout_upto_failed (cfg : Config) (c : bch_control) (data : List Nat)
    (data_len : Nat) (ecc : List Nat) (n : Nat)
    (h : (spec_checkout_upto cfg c data data_len ecc n).ok = false) :
    ∀ k : Nat, spec_checkout_upto cfg c data data_len ecc (n + k) =
      spec_checkout_upto cfg c data data_len ecc n
  | 0 => rfl
  | k + 1 => by
    rw [← Nat.add_assoc, spec_checkout_upto_succ,
      spec_checkout_upto_failed cfg c data data_len ecc n h k]
    simp only [spec_checkout_step, h, Bool.false_eq_true, if_false]

/-- The claim C18 where every correction stays inside its chunk: if the chunks
before `j` decode with locations inside the chunk and chunk `j` does not
decode, `rdr_bch_checkout` returns `-EIO`, the chunks before `j` hold their
corrected contents and the bytes from chunk `j` on are the input bytes. -/
theorem checkout_first_bad_chunk (cfg : Config) (c : bch_control) (data : List Nat)
    (data_len : Nat) (ecc : List Nat) (ecc_len : Nat) (hwf : cfg.wf)
    (hsuff : spec_chunks cfg data_len * cfg.RDR_BCH_ECC_BYTES ≤ ecc_len)
    (j : Nat) (hj : j < spec_chunks cfg data_len) (L : Nat → List Nat)
    (hdec : ∀ i < j, c.decode (spec_chunk cfg data data_len i) (spec_slice cfg ecc i)
      = some (L i))
    (hin : ∀ i < j, ∀ loc ∈ L i, loc / 8 < cfg.RDR_BCH_MAX_BYTES)
    (hfail : c.decode (spec_chunk cfg data data_len j) (spec_slice cfg ecc j) = none) :
    (rdr_bch_checkout cfg (some c) data data_len ecc ecc_len).ret = -EIO_errno ∧
    (rdr_bch_checkout cfg (some c) data data_len ecc ecc_len).printed = none ∧
    (rdr_bch_checkout cfg (some c) data data_len ecc ecc_len).data.drop
        (j * cfg.RDR_BCH_MAX_BYTES) = data.drop (j * cfg.RDR_BCH_MAX_BYTES) ∧
    (∀ i < j, spec_chunk cfg (rdr_bch_checkout cfg (some c) data data_len ecc ecc_len).data
        data_len i = fix_bits (spec_chunk cfg data data_len i) 0 (L i)) := by
  obtain ⟨h1, h2, h3⟩ := spec_checkout_prefix cfg c data data_len ecc j L hdec hin j
    (Nat.le_refl _)
  have hchunk := spec_chunk_of_drop cfg _ _ data_len j h2
  have hstep : spec_checkout_upto cfg c data data_len ecc (j + 1) =
      { spec_checkout_upto cfg c data data_len ecc j with ok := false } := by
    rw [spec_checkout_upto_succ]
    simp only [spec_checkout_step, h1, if_true, hchunk, hfail]
  have hall : spec_checkout cfg c data data_len ecc =
      { spec_checkout_upto cfg c data data_len ecc j with ok := false } := by
    unfold spec_checkout
    rw [show spec_chunks cfg data_len = (j + 1) + (spec_chunks cfg data_len - (j + 1)) by omega,
      spec_checkout_upto_failed cfg c data data_len ecc (j + 1) (by rw [hstep]), hstep]
  rw [checkout_refines cfg c data data_len ecc ecc_len hwf (check_passes cfg data_len ecc_len hsuff),
    hall]
  simp only [Bool.false_eq_true, if_false]
  exact ⟨trivial, trivial, h2, h3⟩

/-! ## The remainder area -/

/-- C19, the code at the failing input: a downward pool over 4 GiB + 4096
bytes and the area table `[A0, 100, 200]`.  `rdr_field_areainfo_init`
allocates area 2 (200 bytes) and area 1 (100 bytes) and returns 0; the cursor
is then `0x100000ed4` bytes above the pool base, and this `u64` remainder
reaches `rdr_safemem_alloc` through its `uint size` parameter as `0xed4`:
`rdr_get_areainfo(0)` returns `log_len = 0xed4`, not the remainder.  On the
1 MiB pool `pool_area` the same table gives 200, 100 and the remainder. -/
theorem C19_remainder_truncated :
    (rdr_field_areainfo_init cfg0 fc0 (some rep3) pool_area_big areas3 mem0).1 = 0 ∧
    (rdr_field_areainfo_init cfg0 fc0 (some rep3) pool_area_big areas3 mem0).2 =
      pool_after_alloc cfg0 (some rep3)
        (pool_after_alloc cfg0 (some rep3)
          (pool_after_alloc cfg0 (some rep3) pool_area_big 4 200) 2 100) 1 0xed4 ∧
    (pool_after_alloc cfg0 (some rep3)
        (pool_after_alloc cfg0 (some rep3) pool_area_big 4 200) 2 100).cur_alloc_addr
      - pool_area_big.base_alloc_addr = 0x100000ed4 ∧
    (rdr_get_areainfo cfg0 fc0 (some rep3)
        (rdr_field_areainfo_init cfg0 fc0 (some rep3) pool_area_big areas3 mem0).2
        2 (some retinfo0) mem0).2.2 = some { log_addr := 0x180000f38, log_len := 200 } ∧
    (rdr_get_areainfo cfg0 fc0 (some rep3)
        (rdr_field_areainfo_init cfg0 fc0 (some rep3) pool_area_big areas3 mem0).2
        1 (some retinfo0) mem0).2.2 = some { log_addr := 0x180000ed4, log_len := 100 } ∧
    (rdr_get_areainfo cfg0 fc0 (some rep3)
        (rdr_field_areainfo_init cfg0 fc0 (some rep3) pool_area_big areas3 mem0).2
        0 (some retinfo0) mem0) =
      (0, (rdr_field_areainfo_init cfg0 fc0 (some rep3) pool_area_big areas3 mem0).2,
        some { log_addr := 0x180000000, log_len := 0xed4 }) ∧
    (rdr_field_areainfo_init cfg0 fc0 (some rep3) pool_area areas3 mem0).1 = 0 ∧
    (pool_after_alloc cfg0 (some rep3)
        (pool_after_alloc cfg0 (some rep3) pool_area 4 200) 2 100).cur_alloc_addr
      - pool_area.base_alloc_addr = 0xffed4 ∧
    (rdr_get_areainfo cfg0 fc0 (some rep3)
        (rdr_field_areainfo_init cfg0 fc0 (some rep3) pool_area areas3 mem0).2
        0 (some retinfo0) mem0).2.2 = some { log_addr := 0x80000000, log_len := 0xffed4 } := by
  decide

/-! ## Cold and warm reinitialisation -/

set_option maxRecDepth 100000 in
/-- C20, the code at the failing input: a warm boot (boot type 1, not
`AP_S_COLDBOOT`) over the region content `prior_region`, whose head passes
the ECC check and the magic test.  `rdr_create_last_backup` calls
`rdr_show_base_info(true)`, whose area lookups go to the pool of the live
region (lines 345-348); `rdr_safemem_get` scans up to the stored `curnum = 5`,
finds the id of area 0 in slot 4, behind the directory, and
`rdr_bch_checkout` corrects the slot in place.  `rdr_field_init` returns 0 and
the first payload slot, at byte offset `RDR_BASEINFO_SIZE`, is not what it was
before the call.  The last two lines are a cold boot on which `vmalloc` fails:
`rdr_field_init` returns -1 before the `memset` and the region is not zeroed. -/
theorem C20_warm_boot_touches_payload :
    board_warm.reboot_type ≠ hc0.AP_S_COLDBOOT ∧
    hc0.RDR_BASEINFO_SIZE = hc0.offsetof_pool + cfg0.sizeof_pool
      + dir_slots cfg0 hc0 * cfg0.sizeof_safemem ∧
    dir_slots cfg0 hc0 = 4 ∧
    (rdr_field_init cfg0 fc0 hc0 (some rep3) board_warm areas3 (boot_state prior_region)
      mem0 mem0 mem0).1 = 0 ∧
    payload cfg0 hc0 prior_region = [stale_entry, zero_safemem cfg0] ∧
    payload cfg0 hc0 (rdr_field_init cfg0 fc0 hc0 (some rep3) board_warm areas3
      (boot_state prior_region) mem0 mem0 mem0).2.region
      = [entry_at first_boot_region.pool 2, zero_safemem cfg0] ∧
    payload cfg0 hc0 (rdr_field_init cfg0 fc0 hc0 (some rep3) board_warm areas3
      (boot_state prior_region) mem0 mem0 mem0).2.region ≠ payload cfg0 hc0 prior_region ∧
    board_cold_nomem.reboot_type = hc0.AP_S_COLDBOOT ∧
    (rdr_field_init cfg0 fc0 hc0 (some rep3) board_cold_nomem areas3 (boot_state prior_region)
      mem0 mem0 mem0) = (-1, boot_state prior_region) := by
  decide

/-! ## Order of the stores of `rdr_safemem_alloc` -/

/-- The program points end in the pool that `rdr_safemem_alloc` leaves behind. -/
theorem alloc_points_last (cfg : Config) (bch : Option bch_control) (p : rdr_safemem_pool)
    (id size : Nat) (m : bbox_mem)
    (h : ¬ (p.magic ≠ SAFEMEM_POOL_MAGIC ∨ id = 0)) :
    ((alloc_points cfg bch p id size).getLast?).map (fun x => x.pool) =
      (rdr_safemem_alloc cfg bch (some p) id size (some m)).2.1 := by
  unfold alloc_points rdr_safemem_alloc
  simp only [h, if_false]
  by_cases hfull : p.curnum = p.maxnum
  · simp [hfull]
  simp only [hfull, if_false]
  by_cases hdup : (p.mem.take p.curnum).any (fun e => id == safe_id e.rawdata) = true
  · simp [hdup]
  simp only [hdup, if_false]
  cases hroom : no_room p size
  · have hroom' := hroom
    unfold no_room at hroom'
    simp only [hroom', Bool.false_eq_true, if_false]
    unfold alloc_raw alloc_paddr alloc_vaddr alloc_cursor
    split <;> split <;> simp_all
  · have hroom' := hroom
    unfold no_room at hroom'
    simp [hroom']

/-- Every call that passes the checks goes through a program point at which
the lock is released, `curnum` has been incremented and the ECC bytes of the
new slot are the ones from before the call. -/
theorem alloc_points_window (cfg : Config) (bch : Option bch_control) (p : rdr_safemem_pool)
    (id size : Nat) (h : ¬ (p.magic ≠ SAFEMEM_POOL_MAGIC ∨ id = 0))
    (hfull : p.curnum ≠ p.maxnum)
    (hdup : (p.mem.take p.curnum).any (fun e => id == safe_id e.rawdata) = false)
    (hroom : no_room p size = false) :
    ∃ x ∈ alloc_points cfg bch p id size, x.line = 219 ∧ x.locked = false ∧
      x.pool.curnum = (p.curnum + 1) % U32 ∧
      (x.pool.mem.getD p.curnum (zero_safemem cfg)).ecc
        = (p.mem.getD p.curnum (zero_safemem cfg)).ecc := by
  unfold alloc_points
  simp only [h, hfull, hdup, hroom, if_false, Bool.false_eq_true]
  refine ⟨{ line := 219, locked := false,
            pool := { p with
              curnum := (p.curnum + 1) % U32
              cur_alloc_addr := alloc_cursor p size
              mem := p.mem.set p.curnum
                { p.mem.getD p.curnum (zero_safemem cfg) with
                  rawdata := alloc_raw p id size } } }, ?_, rfl, rfl, rfl, ?_⟩
  · split <;> simp
  · simp only [List.getD_eq_getElem?_getD, List.getElem?_set]
    split
    · split
      · simp_all
      · rename_i hle
        rw [List.getElem?_eq_none (by omega)]
    · rfl

/-- C27, the code at a call that passes every check: `alloc(7, 64)` on
`pool_small`.  The program points are the lines 178, 206, 218, 219, 223:
`curnum++` (line 206) is executed before `rdr_bch_encode` (lines 221-223).  At
line 219 the lock has been released, `curnum` is 1 and counts the new entry,
and the ECC bytes of the entry are still the zeroes of the empty slot, not the
ECC of its tuple; a reader that calls `rdr_safemem_get(pool, 7)` at this point
gets `-EIO`.  The ECC is there at line 223 only. -/
theorem C27_count_published_before_encode :
    (alloc_points cfg0 (some rep3) pool_small 7 64).map (fun x => x.line)
      = [178, 206, 218, 219, 223] ∧
    (alloc_points cfg0 (some rep3) pool_small 7 64).map (fun x => x.locked)
      = [true, true, true, false, false] ∧
    (alloc_points cfg0 (some rep3) pool_small 7 64).map (fun x => x.pool.curnum)
      = [0, 1, 1, 1, 1] ∧
    (alloc_points cfg0 (some rep3) pool_small 7 64).map
        (fun x => decide ((entry_at x.pool 0).ecc = rep3.encode (alloc_raw pool_small 7 64)))
      = [false, false, false, false, true] ∧
    ((point_at (alloc_points cfg0 (some rep3) pool_small 7 64) 219).map
        (fun x => (rdr_safemem_get cfg0 (some rep3) (some x.pool) 7 (some mem0)).ret))
      = some (-EIO_errno) ∧
    ((alloc_points cfg0 (some rep3) pool_small 7 64).getLast?).map (fun x => x.pool)
      = some pool7 := by
  decide

/-! ## The cursor and the bounds of the pool -/

/-- C28, the code at the failing input: the upward pool `pool_high` over the
backing range `[0xffffffffffffe000, 0xfffffffffffff000)`, which does not wrap.
`alloc(7, 0x2000)` asks for twice the range: `cur_alloc_addr + size` wraps to
0, the test of line 194 does not fire, and the call returns 0 with the region
`[0xffffffffffffe000, 2^64)`, which runs past `end_alloc_addr`, and with the
cursor at 0, below `base_alloc_addr`.  The next call, `alloc(8, 0x800)`,
returns the region `[0, 0x800)`, which lies outside the pool. -/
theorem C28_region_outside_pool :
    pool_wf pool_high ∧ pool_high.low_to_high = true ∧
    pool_high.base_alloc_addr = 0xffffffffffffe000 ∧
    pool_high.end_alloc_addr = 0xfffffffffffff000 ∧
    pool_high.base_alloc_addr + bk_high.size < U64 ∧
    rdr_safemem_alloc cfg0 (some rep3) (some pool_high) 7 0x2000 (some mem0) =
      (0, some (pool_after_alloc cfg0 (some rep3) pool_high 7 0x2000),
       some { vaddr := 0xffffffffffffe000, paddr := 0x80000000, size := 0x2000 }) ∧
    pool_high.end_alloc_addr < 0xffffffffffffe000 + 0x2000 ∧
    (pool_after_alloc cfg0 (some rep3) pool_high 7 0x2000).cur_alloc_addr = 0 ∧
    (pool_after_alloc cfg0 (some rep3) pool_high 7 0x2000).cur_alloc_addr
      < pool_high.base_alloc_addr ∧
    (rdr_safemem_alloc cfg0 (some rep3)
        (some (pool_after_alloc cfg0 (some rep3) pool_high 7 0x2000)) 8 0x800 (some mem0)).1
      = 0 ∧
    (rdr_safemem_alloc cfg0 (some rep3)
        (some (pool_after_alloc cfg0 (some rep3) pool_high 7 0x2000)) 8 0x800 (some mem0)).2.2
      = some { vaddr := 0, paddr := 0x80002000, size := 0x800 } := by
  decide

/-! ## Validation of the prior record -/

theorem checkout_loop_mem_length (cfg : Config) (c : bch_control) (eo : Nat) :
    ∀ (n dt et : Nat) (mem : List Nat) (num : Nat) (st : List Nat),
      (checkout_loop_mem cfg c eo n dt et mem num st).2.2.2.1.length = mem.length := by
  intro n
  induction n with
  | zero =>
    intro dt et mem num st
    rfl
  | succ n ih =>
    intro dt et mem num st
    unfold checkout_loop_mem
    split
    · rfl
    · rw [ih, fix_bits_length]

/-- The checkout keeps the length of the memory it works on. -/
theorem checkout_mem_length (cfg : Config) (bch : Option bch_control) (mem : List Nat)
    (data_len eo ecc_len : Nat) :
    (rdr_bch_checkout_mem cfg bch mem data_len eo ecc_len).mem.length = mem.length := by
  unfold rdr_bch_checkout_mem
  cases bch with
  | none => rfl
  | some c =>
    simp only []
    split
    · rfl
    · have hl := checkout_loop_mem_length cfg c eo (data_len / cfg.RDR_BCH_MAX_BYTES) 0 0 mem 0 []
      split
      · rename_i h
        rw [h] at hl
        exact hl
      · rename_i h
        rw [h] at hl
        split
        · split
          · exact hl
          · simp only [fix_bits_length]
            exact hl
        · exact hl

/-- Without a codec, or when the length test of line 63 fails, the checkout
of the head leaves the region as it is. -/
theorem region_after_checkout_none (cfg : Config) (hc : HeadConfig) (r : rdr_struct_s) :
    region_after_checkout cfg hc none r = r := by
  simp [region_after_checkout, head_checkout, rdr_bch_checkout_mem]

theorem fix_bits_append_left (d e : List Nat) (dt : Nat) (L : List Nat)
    (h : ∀ l ∈ L, dt + l / 8 < d.length) :
    fix_bits (d ++ e) dt L = fix_bits d dt L ++ e := by
  induction L generalizing d with
  | nil => rfl
  | cons l L ih =>
    have hl := h l (List.mem_cons_self _ _)
    simp only [fix_bits, List.foldl_cons] at ih ⊢
    rw [xor_byte_append_left d e _ _ hl]
    apply ih
    intro x hx
    rw [xor_byte_length]
    exact h x (List.mem_cons_of_mem _ hx)

theorem checkout_loop_mem_stores (cfg : Config) (c : bch_control) (eo : Nat) :
    ∀ (n dt et : Nat) (mem : List Nat) (num : Nat) (st : List Nat),
      ∃ t, (checkout_loop_mem cfg c eo n dt et mem num st).2.2.2.2.2 = st ++ t := by
  intro n
  induction n with
  | zero =>
    intro dt et mem num st
    exact ⟨[], by simp [checkout_loop_mem]⟩
  | succ n ih =>
    intro dt et mem num st
    unfold checkout_loop_mem
    split
    · exact ⟨[], by simp⟩
    · rename_i errloc _
      obtain ⟨t, ht⟩ := ih (dt + cfg.RDR_BCH_MAX_BYTES) (et + cfg.RDR_BCH_ECC_BYTES)
        (fix_bits mem dt errloc) (num + errloc.length)
        (st ++ errloc.map (fun loc => dt + loc / 8))
      exact ⟨errloc.map (fun loc => dt + loc / 8) ++ t, by rw [ht, List.append_assoc]⟩

theorem checkout_loop_mem_succ (cfg : Config) (c : bch_control) (eo n dt et : Nat)
    (mem : List Nat) (num : Nat) (st : List Nat) :
    checkout_loop_mem cfg c eo (n + 1) dt et mem num st
      = match c.decode ((mem.drop dt).take cfg.RDR_BCH_MAX_BYTES)
          ((mem.drop (eo + et)).take cfg.RDR_BCH_ECC_BYTES) with
        | none => (false, dt, et, mem, num, st)
        | some errloc =>
          checkout_loop_mem cfg c eo n (dt + cfg.RDR_BCH_MAX_BYTES)
            (et + cfg.RDR_BCH_ECC_BYTES) (fix_bits mem dt errloc) (num + errloc.length)
            (st ++ errloc.map (fun loc => dt + loc / 8)) := rfl

theorem checkout_loop_succ (cfg : Config) (c : bch_control) (ecc : List Nat) (n dt et : Nat)
    (data : List Nat) (num : Nat) :
    checkout_loop cfg c ecc (n + 1) dt et data num
      = match c.decode ((data.drop dt).take cfg.RDR_BCH_MAX_BYTES)
          ((ecc.drop et).take cfg.RDR_BCH_ECC_BYTES) with
        | none => (false, dt, et, data, num)
        | some errloc =>
          checkout_loop cfg c ecc n (dt + cfg.RDR_BCH_MAX_BYTES) (et + cfg.RDR_BCH_ECC_BYTES)
            (fix_bits data dt errloc) (num + errloc.length) := rfl

theorem drop_take_append_left (d e : List Nat) (dt len : Nat) (h : dt + len ≤ d.length) :
    ((d ++ e).drop dt).take len = (d.drop dt).take len := by
  rw [List.drop_append_of_le_length (by omega)]
  exact List.take_append_of_le_length (by rw [List.length_drop]; omega)

theorem drop_append_right (d e : List Nat) (k : Nat) :
    (d ++ e).drop (d.length + k) = e.drop k := by
  rw [List.drop_append]

/-- Where no fix store leaves the data bytes, the loop on one memory is the
loop of `rdr_bch_checkout` on `data`, with the ECC bytes behind it untouched. -/
theorem checkout_loop_mem_agrees (cfg : Config) (c : bch_control) (ecc : List Nat) (L : Nat) :
    ∀ (n dt et : Nat) (d : List Nat) (num : Nat) (st : List Nat),
      d.length = L → dt + n * cfg.RDR_BCH_MAX_BYTES ≤ L →
      (∀ o ∈ (checkout_loop_mem cfg c L n dt et (d ++ ecc) num st).2.2.2.2.2, o < L) →
      (checkout_loop_mem cfg c L n dt et (d ++ ecc) num st).1
        = (checkout_loop cfg c ecc n dt et d num).1 ∧
      (checkout_loop_mem cfg c L n dt et (d ++ ecc) num st).2.1
        = (checkout_loop cfg c ecc n dt et d num).2.1 ∧
      (checkout_loop_mem cfg c L n dt et (d ++ ecc) num st).2.2.1
        = (checkout_loop cfg c ecc n dt et d num).2.2.1 ∧
      (checkout_loop_mem cfg c L n dt et (d ++ ecc) num st).2.2.2.1
        = (checkout_loop cfg c ecc n dt et d num).2.2.2.1 ++ ecc ∧
      (checkout_loop_mem cfg c L n dt et (d ++ ecc) num st).2.2.2.2.1
        = (checkout_loop cfg c ecc n dt et d num).2.2.2.2 ∧
      ((checkout_loop cfg c ecc n dt et d num).2.2.2.1).length = L := by
  intro n
  induction n with
  | zero =>
    intro dt et d num st hd _ _
    exact ⟨rfl, rfl, rfl, rfl, rfl, hd⟩
  | succ n ih =>
    intro dt et d num st hd hle hst
    have hmul : (n + 1) * cfg.RDR_BCH_MAX_BYTES = n * cfg.RDR_BCH_MAX_BYTES
        + cfg.RDR_BCH_MAX_BYTES := Nat.succ_mul _ _
    have hdt : dt + cfg.RDR_BCH_MAX_BYTES ≤ d.length := by omega
    have hblock : ((d ++ ecc).drop dt).take cfg.RDR_BCH_MAX_BYTES
        = (d.drop dt).take cfg.RDR_BCH_MAX_BYTES := drop_take_append_left d ecc dt _ hdt
    have hecc : ((d ++ ecc).drop (L + et)).take cfg.RDR_BCH_ECC_BYTES
        = (ecc.drop et).take cfg.RDR_BCH_ECC_BYTES := by
      rw [← hd, drop_append_right]
    rw [checkout_loop_mem_succ, hblock, hecc] at hst
    rw [checkout_loop_mem_succ, checkout_loop_succ, hblock, hecc]
    cases hdec : c.decode ((d.drop dt).take cfg.RDR_BCH_MAX_BYTES)
        ((ecc.drop et).take cfg.RDR_BCH_ECC_BYTES) with
    | none => exact ⟨rfl, rfl, rfl, rfl, rfl, hd⟩
    | some errloc =>
      rw [hdec] at hst
      simp only at hst ⊢
      obtain ⟨t, ht⟩ := checkout_loop_mem_stores cfg c L n (dt + cfg.RDR_BCH_MAX_BYTES)
        (et + cfg.RDR_BCH_ECC_BYTES) (fix_bits (d ++ ecc) dt errloc) (num + errloc.length)
        (st ++ errloc.map (fun loc => dt + loc / 8))
      have hin : ∀ l ∈ errloc, dt + l / 8 < d.length := by
        intro l hl
        rw [hd]
        apply hst
        rw [ht]
        simp only [List.mem_append, List.mem_map]
        exact Or.inl (Or.inr ⟨l, hl, rfl⟩)
      have hfix := fix_bits_append_left d ecc dt errloc hin
      rw [hfix] at hst ⊢
      exact ih _ _ _ _ _ (by rw [fix_bits_length]; exact hd) (by omega) hst

theorem checkout_loop_offsets (cfg : Config) (c : bch_control) (ecc : List Nat) :
    ∀ (n dt et : Nat) (d : List Nat) (num : Nat),
      (checkout_loop cfg c ecc n dt et d num).1 = true →
      (checkout_loop cfg c ecc n dt et d num).2.1 = dt + n * cfg.RDR_BCH_MAX_BYTES ∧
      (checkout_loop cfg c ecc n dt et d num).2.2.1 = et + n * cfg.RDR_BCH_ECC_BYTES := by
  intro n
  induction n with
  | zero =>
    intro dt et d num _
    simp [checkout_loop]
  | succ n ih =>
    intro dt et d num h
    rw [checkout_loop_succ] at h ⊢
    cases hdec : c.decode ((d.drop dt).take cfg.RDR_BCH_MAX_BYTES)
        ((ecc.drop et).take cfg.RDR_BCH_ECC_BYTES) with
    | none =>
      rw [hdec] at h
      simp at h
    | some errloc =>
      rw [hdec] at h
      simp only at h ⊢
      obtain ⟨h1, h2⟩ := ih _ _ _ _ h
      rw [h1, h2, Nat.succ_mul, Nat.succ_mul]
      omega

/-- Where no fix store leaves the data bytes, `rdr_bch_checkout` on one
memory, the ECC right behind the data, is `rdr_bch_checkout` on `data` and
`ecc` taken apart: same return value, same corrected data, ECC untouched. -/
theorem checkout_mem_agrees (cfg : Config) (bch : Option bch_control) (data ecc : List Nat)
    (ecc_len : Nat)
    (hst : ∀ o ∈ (rdr_bch_checkout_mem cfg bch (data ++ ecc) data.length data.length
      ecc_len).stores, o < data.length) :
    (rdr_bch_checkout_mem cfg bch (data ++ ecc) data.length data.length ecc_len).ret
      = (rdr_bch_checkout cfg bch data data.length ecc ecc_len).ret ∧
    (rdr_bch_checkout_mem cfg bch (data ++ ecc) data.length data.length ecc_len).mem
      = (rdr_bch_checkout cfg bch data data.length ecc ecc_len).data ++ ecc ∧
    (rdr_bch_checkout_mem cfg bch (data ++ ecc) data.length data.length ecc_len).printed
      = (rdr_bch_checkout cfg bch data data.length ecc ecc_len).printed := by
  cases bch with
  | none => exact ⟨rfl, rfl, rfl⟩
  | some c =>
    unfold rdr_bch_checkout_mem rdr_bch_checkout at *
    simp only at hst ⊢
    by_cases hlen : ecc_len < (data.length + cfg.RDR_BCH_MAX_BYTES - 1) % U32
        / cfg.RDR_BCH_MAX_BYTES * cfg.RDR_BCH_ECC_BYTES % U32
    · simp only [hlen, if_true]
      exact ⟨trivial, trivial, trivial⟩
    · simp only [hlen, if_false] at hst ⊢
      have hagree := checkout_loop_mem_agrees cfg c ecc data.length
        (data.length / cfg.RDR_BCH_MAX_BYTES) 0 0 data 0 [] rfl
        (by rw [Nat.zero_add]; exact Nat.div_mul_le_self _ _)
      have hoff := checkout_loop_offsets cfg c ecc (data.length / cfg.RDR_BCH_MAX_BYTES) 0 0
        data 0
      generalize hm : checkout_loop_mem cfg c data.length (data.length / cfg.RDR_BCH_MAX_BYTES)
        0 0 (data ++ ecc) 0 [] = rm at hst hagree ⊢
      generalize checkout_loop cfg c ecc (data.length / cfg.RDR_BCH_MAX_BYTES) 0 0 data 0 = r2
        at hagree hoff ⊢
      obtain ⟨ok, dt, et, m1, num, st⟩ := rm
      obtain ⟨ok2, dt2, et2, d1, num2⟩ := r2
      simp only at hagree hoff
      have hloop : ∀ o ∈ st, o < data.length := by
        intro o ho
        cases ok with
        | false => exact hst o ho
        | true =>
          simp only at hst
          split at hst
          · split at hst
            · exact hst o ho
            · exact hst o (List.mem_append_left _ ho)
          · exact hst o ho
      obtain ⟨h1, h2, h3, h4, h5, h6⟩ := hagree hloop
      subst h1 h2 h3 h4 h5
      cases ok with
      | false => exact ⟨rfl, rfl, rfl⟩
      | true =>
        simp only at hst ⊢
        by_cases hrem : data.length % cfg.RDR_BCH_MAX_BYTES ≠ 0
        · simp only [hrem, ne_eq, not_false_eq_true, if_true] at hst ⊢
          obtain ⟨hdt, _⟩ := hoff rfl
          have hsum : dt + data.length % cfg.RDR_BCH_MAX_BYTES ≤ d1.length := by
            have := Nat.div_add_mod' data.length cfg.RDR_BCH_MAX_BYTES
            omega
          have hblock := drop_take_append_left d1 ecc dt
            (data.length % cfg.RDR_BCH_MAX_BYTES) hsum
          have hecc : ((d1 ++ ecc).drop (data.length + et)).take cfg.RDR_BCH_ECC_BYTES
              = (ecc.drop et).take cfg.RDR_BCH_ECC_BYTES := by
            rw [← h6, drop_append_right]
          rw [hblock, hecc] at hst ⊢
          cases hdec : c.decode ((d1.drop dt).take (data.length % cfg.RDR_BCH_MAX_BYTES))
              ((ecc.drop et).take cfg.RDR_BCH_ECC_BYTES) with
          | none => exact ⟨rfl, rfl, rfl⟩
          | some errloc =>
            rw [hdec] at hst
            simp only at hst ⊢
            have hin : ∀ l ∈ errloc, dt + l / 8 < d1.length := by
              intro l hl
              rw [h6]
              apply hst
              simp only [List.mem_append, List.mem_map]
              exact Or.inr ⟨l, hl, rfl⟩
            exact ⟨trivial, fix_bits_append_left d1 ecc dt errloc hin, trivial⟩
        · simp only [hrem, if_false]
          exact ⟨trivial, trivial, trivial⟩

/-- Where every fix store of the head checkout lands in the head bytes, the
checkout is `rdr_bch_checkout` on the head bytes and the field `ecc` taken
apart, and it changes the head bytes only. -/
theorem head_checkout_inside (cfg : Config) (hc : HeadConfig) (bch : Option bch_control)
    (r : rdr_struct_s) (hlayout : r.top_head.length = hc.offsetof_ecc)
    (hst : ∀ o ∈ (head_checkout cfg hc bch r).stores, o < hc.offsetof_ecc) :
    (head_checkout cfg hc bch r).ret
      = (rdr_bch_checkout cfg bch r.top_head hc.offsetof_ecc r.ecc hc.sizeof_head_ecc).ret ∧
    region_after_checkout cfg hc bch r
      = { r with top_head :=
            (rdr_bch_checkout cfg bch r.top_head hc.offsetof_ecc r.ecc hc.sizeof_head_ecc).data } := by
  unfold region_after_checkout
  unfold head_checkout at *
  rw [← hlayout] at hst ⊢
  obtain ⟨h1, h2, _⟩ := checkout_mem_agrees cfg bch r.top_head r.ecc hc.sizeof_head_ecc hst
  have hlen : (rdr_bch_checkout cfg bch r.top_head r.top_head.length r.ecc
      hc.sizeof_head_ecc).data.length = r.top_head.length := by
    have := checkout_mem_length cfg bch (r.top_head ++ r.ecc) r.top_head.length
      r.top_head.length hc.sizeof_head_ecc
    rw [h2, List.length_append, List.length_append] at this
    omega
  refine ⟨h1, ?_⟩
  rw [h2]
  generalize (rdr_bch_checkout cfg bch r.top_head r.top_head.length r.ecc
    hc.sizeof_head_ecc).data = D at hlen ⊢
  rw [← hlen, List.take_left, List.drop_left]

theorem stage_le_two (start done v : Nat) : stage start done v ≤ 2 := by
  unfold stage; split
  · exact Nat.le_refl 2
  · split <;> omega

theorem stage_done (start done : Nat) : stage start done done = 2 := by
  unfold stage; simp

/-- One operation other than `rdr_field_baseinfo_reinit` leaves each of the
two flags as it is or stores its DONE value, and leaves `reboot_flag` as it is
or stores `RDR_REBOOT_DONE`. -/
theorem run_op_flags (hc : HeadConfig) (fl : FlagConfig) (r : rdr_struct_s) (op : base_info_op)
    (hop : op ≠ base_info_op.baseinfo_reinit) :
    ((run_op hc fl r op).base_info.start_flag = r.base_info.start_flag ∨
      (run_op hc fl r op).base_info.start_flag = fl.RDR_PROC_EXEC_DONE) ∧
    ((run_op hc fl r op).base_info.savefile_flag = r.base_info.savefile_flag ∨
      (run_op hc fl r op).base_info.savefile_flag = fl.RDR_DUMP_LOG_DONE) ∧
    ((run_op hc fl r op).base_info.reboot_flag = r.base_info.reboot_flag ∨
      (run_op hc fl r op).base_info.reboot_flag = fl.RDR_REBOOT_DONE) := by
  cases op with
  | save_args a b c => exact ⟨Or.inl rfl, Or.inl rfl, Or.inl rfl⟩
  | fill_edata e date =>
    cases e <;> cases date <;> exact ⟨Or.inl rfl, Or.inl rfl, Or.inl rfl⟩
  | procexec_done => exact ⟨Or.inr rfl, Or.inl rfl, Or.inl rfl⟩
  | dumplog_done => exact ⟨Or.inl rfl, Or.inr rfl, Or.inl rfl⟩
  | reboot_done => exact ⟨Or.inl rfl, Or.inl rfl, Or.inr rfl⟩
  | baseinfo_reinit => exact absurd rfl hop

/-- A sequence of operations without `rdr_field_baseinfo_reinit` leaves each
flag as it is or at its DONE value. -/
theorem run_ops_flags (hc : HeadConfig) (fl : FlagConfig) (ops : List base_info_op) :
    ∀ r : rdr_struct_s, base_info_op.baseinfo_reinit ∉ ops →
    ((run_ops hc fl r ops).base_info.start_flag = r.base_info.start_flag ∨
      (run_ops hc fl r ops).base_info.start_flag = fl.RDR_PROC_EXEC_DONE) ∧
    ((run_ops hc fl r ops).base_info.savefile_flag = r.base_info.savefile_flag ∨
      (run_ops hc fl r ops).base_info.savefile_flag = fl.RDR_DUMP_LOG_DONE) ∧
    ((run_ops hc fl r ops).base_info.reboot_flag = r.base_info.reboot_flag ∨
      (run_ops hc fl r ops).base_info.reboot_flag = fl.RDR_REBOOT_DONE) := by
  induction ops with
  | nil => intro r _; exact ⟨Or.inl rfl, Or.inl rfl, Or.inl rfl⟩
  | cons op ops ih =>
    intro r hno
    have hop : op ≠ base_info_op.baseinfo_reinit := fun h =>
      hno (h ▸ List.mem_cons_self _ _)
    have hrest : base_info_op.baseinfo_reinit ∉ ops := fun h =>
      hno (List.mem_cons_of_mem _ h)
    obtain ⟨h1, h2, h3⟩ := run_op_flags hc fl r op hop
    obtain ⟨i1, i2, i3⟩ := ih (run_op hc fl r op) hrest
    simp only [run_ops, List.foldl_cons] at i1 i2 i3 ⊢
    refine ⟨?_, ?_, ?_⟩
    · rcases i1 with i | i
      · rw [i]; exact h1
      · exact Or.inr i
    · rcases i2 with i | i
      · rw [i]; exact h2
      · exact Or.inr i
    · rcases i3 with i | i
      · rw [i]; exact h3
      · exact Or.inr i

/-- C22, the code against the claim: after the first boot,
`rdr_field_procexec_done` and `rdr_field_dumplog_done` bring both flags to
DONE, and `rdr_field_baseinfo_reinit` then stores the START values: both flags
move from stage 2 back to stage 1. -/
theorem C22_counterexample :
    stage fl0.RDR_PROC_EXEC_START fl0.RDR_PROC_EXEC_DONE
      (run_ops hc0 fl0 first_boot_region
        [base_info_op.procexec_done, base_info_op.dumplog_done]).base_info.start_flag = 2 ∧
    stage fl0.RDR_DUMP_LOG_START fl0.RDR_DUMP_LOG_DONE
      (run_ops hc0 fl0 first_boot_region
        [base_info_op.procexec_done, base_info_op.dumplog_done]).base_info.savefile_flag = 2 ∧
    stage fl0.RDR_PROC_EXEC_START fl0.RDR_PROC_EXEC_DONE
      (run_ops hc0 fl0 first_boot_region
        [base_info_op.procexec_done, base_info_op.dumplog_done,
         base_info_op.baseinfo_reinit]).base_info.start_flag = 1 ∧
    stage fl0.RDR_DUMP_LOG_START fl0.RDR_DUMP_LOG_DONE
      (run_ops hc0 fl0 first_boot_region
        [base_info_op.procexec_done, base_info_op.dumplog_done,
         base_info_op.baseinfo_reinit]).base_info.savefile_flag = 1 := by
  decide

/-- C22, as amended: with the stages ordered NONE < START < DONE, over every
sequence of the operations `rdr_save_args`, `rdr_fill_edata`,
`rdr_field_procexec_done`, `rdr_field_dumplog_done` and
`rdr_field_reboot_done`, from every region content, `start_flag` and
`savefile_flag` never move to an earlier stage, and a flag that has reached
DONE stays DONE (so does `reboot_flag`).  The operation
`rdr_field_baseinfo_reinit` is not forward-only: whatever the stage it stores
`RDR_PROC_EXEC_START` in `start_flag` and `RDR_DUMP_LOG_START` in
`savefile_flag`; it leaves `reboot_flag` unchanged. -/
theorem C22_flags_forward_only (hc : HeadConfig) (fl : FlagConfig) (ops : List base_info_op)
    (r : rdr_struct_s) (hno : base_info_op.baseinfo_reinit ∉ ops) :
    stage fl.RDR_PROC_EXEC_START fl.RDR_PROC_EXEC_DONE r.base_info.start_flag ≤
      stage fl.RDR_PROC_EXEC_START fl.RDR_PROC_EXEC_DONE
        (run_ops hc fl r ops).base_info.start_flag ∧
    stage fl.RDR_DUMP_LOG_START fl.RDR_DUMP_LOG_DONE r.base_info.savefile_flag ≤
      stage fl.RDR_DUMP_LOG_START fl.RDR_DUMP_LOG_DONE
        (run_ops hc fl r ops).base_info.savefile_flag ∧
    (r.base_info.start_flag = fl.RDR_PROC_EXEC_DONE →
      (run_ops hc fl r ops).base_info.start_flag = fl.RDR_PROC_EXEC_DONE) ∧
    (r.base_info.savefile_flag = fl.RDR_DUMP_LOG_DONE →
      (run_ops hc fl r ops).base_info.savefile_flag = fl.RDR_DUMP_LOG_DONE) ∧
    (r.base_info.reboot_flag = fl.RDR_REBOOT_DONE →
      (run_ops hc fl r ops).base_info.reboot_flag = fl.RDR_REBOOT_DONE) ∧
    (rdr_field_baseinfo_reinit hc fl r).base_info.start_flag = fl.RDR_PROC_EXEC_START ∧
    (rdr_field_baseinfo_reinit hc fl r).base_info.savefile_flag = fl.RDR_DUMP_LOG_START ∧
    (rdr_field_baseinfo_reinit hc fl r).base_info.reboot_flag = r.base_info.reboot_flag := by
  obtain ⟨h1, h2, h3⟩ := run_ops_flags hc fl ops r hno
  refine ⟨?_, ?_, ?_, ?_, ?_, rfl, rfl, rfl⟩
  · rcases h1 with h | h
    · rw [h]
    · rw [h, stage_done]; exact stage_le_two _ _ _
  · rcases h2 with h | h
    · rw [h]
    · rw [h, stage_done]; exact stage_le_two _ _ _
  · intro hd
    rcases h1 with h | h
    · rw [h, hd]
    · exact h
  · intro hd
    rcases h2 with h | h
    · rw [h, hd]
    · exact h
  · intro hd
    rcases h3 with h | h
    · rw [h, hd]
    · exact h

/-- Instance of C22 as amended: an exception is recorded, the dump and the
reboot are marked done; the flags end at DONE and stay there over further
operations. -/
theorem C22_flags_forward_only_witness :
    (stage fl0.RDR_PROC_EXEC_START fl0.RDR_PROC_EXEC_DONE
        first_boot_region.base_info.start_flag ≤
      stage fl0.RDR_PROC_EXEC_START fl0.RDR_PROC_EXEC_DONE
        (run_ops hc0 fl0 first_boot_region
          [base_info_op.save_args 1 2 3, base_info_op.procexec_done,
           base_info_op.dumplog_done, base_info_op.reboot_done,
           base_info_op.fill_edata none none]).base_info.start_flag) ∧
    (run_ops hc0 fl0 first_boot_region
          [base_info_op.save_args 1 2 3, base_info_op.procexec_done,
           base_info_op.dumplog_done, base_info_op.reboot_done,
           base_info_op.fill_edata none none]).base_info.start_flag = fl0.RDR_PROC_EXEC_DONE ∧
    (run_ops hc0 fl0 first_boot_region
          [base_info_op.save_args 1 2 3, base_info_op.procexec_done,
           base_info_op.dumplog_done, base_info_op.reboot_done,
           base_info_op.fill_edata none none]).base_info.savefile_flag
      = fl0.RDR_DUMP_LOG_DONE :=
  ⟨(C22_flags_forward_only hc0 fl0
      [base_info_op.save_args 1 2 3, base_info_op.procexec_done, base_info_op.dumplog_done,
       base_info_op.reboot_done, base_info_op.fill_edata none none] first_boot_region
      (by decide)).1, by decide, by decide⟩

/-! ## The module-dump registry -/

/-- C23, counterexample: in the ready state the in-range module 0, whose slot
size is zero, is answered with `-EPERM`, not `-EINVAL`; and for a slot with a
size but a NULL address the call fails after it has stored NULL in
`*dump_addr`. -/
theorem C23_counterexample :
    get_module_dump_mem_addr 4 true moddump4 0 (some 0x1234) 7 = (-EPERM, some 0x1234, 7) ∧
    (-EPERM : Int) ≠ -EINVAL ∧
    get_module_dump_mem_addr 4 true moddump4_null 1 (some 0x1234) 7
      = (-EINVAL, some 0, 7) := by
  decide

/-- C23, as amended: `get_module_dump_mem_addr` returns `-EPERM` whenever the
ready state has not been reached, before any other test; once ready it returns
`-EINVAL` for a module id `>= MODU_MAX` and for a NULL `dump_addr`, and `-EPERM`
for an in-range module whose slot size is zero, in each case without writing
an output; for a slot with a size and a NULL address it stores NULL in
`*dump_addr` and returns `-EINVAL`; otherwise it returns 0 with the stored
address in `*dump_addr` and the stored size, as a `u32`, in `*size`. -/
theorem C23_get_region_contract (MODU_MAX : Nat) (g_moddump : List module_dump_mem_info)
    (modu : Nat) (dump_addr : Option Nat) (size : Nat) :
    get_module_dump_mem_addr MODU_MAX false g_moddump modu dump_addr size
      = (-EPERM, dump_addr, size) ∧
    (MODU_MAX ≤ modu →
      get_module_dump_mem_addr MODU_MAX true g_moddump modu dump_addr size
        = (-EINVAL, dump_addr, size)) ∧
    (modu < MODU_MAX → dump_addr = none →
      get_module_dump_mem_addr MODU_MAX true g_moddump modu dump_addr size
        = (-EINVAL, dump_addr, size)) ∧
    (modu < MODU_MAX → dump_addr ≠ none → (g_moddump.getD modu zero_moddump).mem.size = 0 →
      get_module_dump_mem_addr MODU_MAX true g_moddump modu dump_addr size
        = (-EPERM, dump_addr, size)) ∧
    (modu < MODU_MAX → dump_addr ≠ none → (g_moddump.getD modu zero_moddump).mem.size ≠ 0 →
      (g_moddump.getD modu zero_moddump).mem.vaddr = 0 →
      get_module_dump_mem_addr MODU_MAX true g_moddump modu dump_addr size
        = (-EINVAL, some 0, size)) ∧
    (modu < MODU_MAX → dump_addr ≠ none → (g_moddump.getD modu zero_moddump).mem.size ≠ 0 →
      (g_moddump.getD modu zero_moddump).mem.vaddr ≠ 0 →
      get_module_dump_mem_addr MODU_MAX true g_moddump modu dump_addr size
        = (0, some (g_moddump.getD modu zero_moddump).mem.vaddr,
            (g_moddump.getD modu zero_moddump).mem.size % U32) ∧
      ((g_moddump.getD modu zero_moddump).mem.size < U32 →
        (g_moddump.getD modu zero_moddump).mem.size % U32
          = (g_moddump.getD modu zero_moddump).mem.size)) := by
  refine ⟨?_, ?_, ?_, ?_, ?_, ?_⟩
  · simp [get_module_dump_mem_addr]
  · intro h
    simp [get_module_dump_mem_addr, h]
  · intro h hd
    subst hd
    simp [get_module_dump_mem_addr, Nat.not_le.mpr h]
  · intro h hd hs
    cases dump_addr with
    | none => exact absurd rfl hd
    | some a =>
      simp only [get_module_dump_mem_addr, Bool.not_true, Bool.false_eq_true, if_false, ge_iff_le,
        Nat.not_le.mpr h, hs, if_true]
  · intro h hd hs hv
    cases dump_addr with
    | none => exact absurd rfl hd
    | some a =>
      simp only [get_module_dump_mem_addr, Bool.not_true, Bool.false_eq_true, if_false, ge_iff_le,
        Nat.not_le.mpr h, hs, hv, if_true]
  · intro h hd hs hv
    cases dump_addr with
    | none => exact absurd rfl hd
    | some a =>
      refine ⟨?_, fun hlt => Nat.mod_eq_of_lt hlt⟩
      simp only [get_module_dump_mem_addr, Bool.not_true, Bool.false_eq_true, if_false, ge_iff_le,
        Nat.not_le.mpr h, hs, hv, if_true]

/-- Witness for C23: in the ready state the region of module 1 of `moddump4`
is returned, address and size. -/
theorem C23_get_region_contract_witness :
    get_module_dump_mem_addr 4 true moddump4 1 (some 0x1234) 7
      = (0, some 0xffff800010000040, 64) :=
  ((C23_get_region_contract 4 moddump4 1 (some 0x1234) 7).2.2.2.2.2
    (by decide) (by decide) (by decide) (by decide)).1

theorem take_strlen (s : List Nat) : s.take (strlen s) = s.takeWhile (fun b => b != 0) := by
  unfold strlen
  induction s with
  | nil => rfl
  | cons a t ih =>
    by_cases h : (a != 0) = true
    · simp [List.takeWhile_cons, h, ih]
    · simp [List.takeWhile_cons, h]

theorem strlen_le (s : List Nat) : strlen s ≤ s.length := by
  unfold strlen
  exact (List.takeWhile_sublist _).length_le

theorem takeWhile_take_append_zero (s t : List Nat) (n : Nat) :
    (((s.takeWhile (fun b => b != 0)).take n) ++ 0 :: t).takeWhile (fun b => b != 0)
      = (s.takeWhile (fun b => b != 0)).take n := by
  have hall : ∀ x ∈ (s.takeWhile (fun b => b != 0)).take n, (x != 0) = true := by
    intro x hx
    have hx2 := List.mem_takeWhile_imp (List.mem_of_mem_take hx)
    exact hx2
  generalize (s.takeWhile (fun b => b != 0)).take n = l at hall
  induction l with
  | nil => simp
  | cons a r ih =>
    have ha := hall a (List.mem_cons_self _ _)
    have := ih (fun x hx => hall x (List.mem_cons_of_mem _ hx))
    simp only [List.cons_append, List.takeWhile_cons, ha, if_true, this]

/-- The name `register_module_dump_mem_func` stores in a twelve-byte field. -/
theorem stored_name (old nm : List Nat) (hold : old.length = AMNTN_MODULE_NAME_LEN) :
    (strncpy old nm (AMNTN_MODULE_NAME_LEN - 1)).set (AMNTN_MODULE_NAME_LEN - 1) 0
      = (nm.takeWhile (fun b => b != 0)).take (AMNTN_MODULE_NAME_LEN - 1)
        ++ List.replicate
          (AMNTN_MODULE_NAME_LEN - min (AMNTN_MODULE_NAME_LEN - 1) (strlen nm)) 0 := by
  have hpre : nm.take (min (AMNTN_MODULE_NAME_LEN - 1) (strlen nm))
      = (nm.takeWhile (fun b => b != 0)).take (AMNTN_MODULE_NAME_LEN - 1) := by
    rw [← take_strlen, List.take_take]
  have hle := strlen_le nm
  have hplen : ((nm.takeWhile (fun b => b != 0)).take (AMNTN_MODULE_NAME_LEN - 1)).length
      = min (AMNTN_MODULE_NAME_LEN - 1) (strlen nm) := by
    rw [← hpre, List.length_take]
    omega
  unfold strncpy write_at
  rw [hpre]
  generalize hp : (nm.takeWhile (fun b => b != 0)).take (AMNTN_MODULE_NAME_LEN - 1) = pre
    at hplen ⊢
  generalize min (AMNTN_MODULE_NAME_LEN - 1) (strlen nm) = m at hplen ⊢
  have hm : m ≤ 11 := by
    have := hp ▸ List.length_take_le (AMNTN_MODULE_NAME_LEN - 1) (nm.takeWhile (fun b => b != 0))
    simp only [AMNTN_MODULE_NAME_LEN] at this
    omega
  simp only [AMNTN_MODULE_NAME_LEN] at hold ⊢
  have hX : (pre ++ List.replicate (12 - 1 - m) 0).length = 11 := by
    simp only [List.length_append, List.length_replicate, hplen]
    omega
  obtain ⟨x, hx⟩ : ∃ x, old.drop 11 = [x] := by
    apply List.length_eq_one.mp
    rw [List.length_drop, hold]
  have h12 : 12 - m = (12 - 1 - m) + 1 := by omega
  rw [List.take_zero, List.nil_append, Nat.zero_add, hX, hx, h12, List.replicate_succ',
    ← List.append_assoc, List.set_append]
  simp [hX]

theorem getD_set_other {α : Type} (l : List α) (n j : Nat) (x d : α) (h : j ≠ n) :
    (l.set n x).getD j d = l.getD j d := by
  simp [List.getD_eq_getElem?_getD, List.getElem?_set_ne (Ne.symm h)]

theorem getD_mem {α : Type} (l : List α) (n : Nat) (d : α) (h : n < l.length) :
    l.getD n d ∈ l := by
  rw [List.getD_eq_getElem l d h]
  exact List.getElem_mem h

/-- C24: `register_module_dump_mem_func` returns `-EINVAL`, the table
untouched, when the module id is `>= MODU_MAX`, when the function is null or
when the name is null; for an in-range module whose slot size is 0 it fails
(with -1) and leaves the table unchanged; for an in-range module with a slot
it returns 0, stores the function, and stores the name cut to at most
`AMNTN_MODULE_NAME_LEN - 1` bytes and NUL-padded to the end of the field, every
other entry and the slot's region being unchanged. -/
theorem C24_register_contract (MODU_MAX : Nat) (g_moddump : List module_dump_mem_info)
    (func : Option Nat) (module_name : Option (List Nat)) (modu : Nat)
    (hlen : g_moddump.length = MODU_MAX)
    (hname : ∀ e ∈ g_moddump, e.module_name.length = AMNTN_MODULE_NAME_LEN) :
    ((MODU_MAX ≤ modu ∨ func = none ∨ module_name = none) →
      register_module_dump_mem_func MODU_MAX g_moddump func module_name modu
        = (-EINVAL, g_moddump)) ∧
    (∀ f nm, modu < MODU_MAX → func = some f → module_name = some nm →
      ((g_moddump.getD modu zero_moddump).mem.size = 0 →
        register_module_dump_mem_func MODU_MAX g_moddump func module_name modu
          = (-1, g_moddump)) ∧
      ((g_moddump.getD modu zero_moddump).mem.size ≠ 0 →
        (register_module_dump_mem_func MODU_MAX g_moddump func module_name modu).1 = 0 ∧
        (register_module_dump_mem_func MODU_MAX g_moddump func module_name modu).2.length
          = MODU_MAX ∧
        (∀ j, j ≠ modu →
          (register_module_dump_mem_func MODU_MAX g_moddump func module_name modu).2.getD j
            zero_moddump = g_moddump.getD j zero_moddump) ∧
        ((register_module_dump_mem_func MODU_MAX g_moddump func module_name modu).2.getD modu
            zero_moddump).dump_funcptr = some f ∧
        ((register_module_dump_mem_func MODU_MAX g_moddump func module_name modu).2.getD modu
            zero_moddump).mem = (g_moddump.getD modu zero_moddump).mem ∧
        ((register_module_dump_mem_func MODU_MAX g_moddump func module_name modu).2.getD modu
            zero_moddump).module_name
          = (nm.takeWhile (fun b => b != 0)).take (AMNTN_MODULE_NAME_LEN - 1)
            ++ List.replicate
              (AMNTN_MODULE_NAME_LEN - min (AMNTN_MODULE_NAME_LEN - 1) (strlen nm)) 0 ∧
        (((register_module_dump_mem_func MODU_MAX g_moddump func module_name modu).2.getD modu
            zero_moddump).module_name).takeWhile (fun b => b != 0)
          = (nm.takeWhile (fun b => b != 0)).take (AMNTN_MODULE_NAME_LEN - 1))) := by
  refine ⟨?_, ?_⟩
  · intro h
    unfold register_module_dump_mem_func
    by_cases hm : modu ≥ MODU_MAX
    · rw [if_pos hm]
    · rw [if_neg hm]
      rcases h with h | h | h
      · exact absurd h hm
      · subst h
        rfl
      · subst h
        cases func <;> rfl
  · intro f nm hm hf hn
    subst hf hn
    have hm2 : ¬ modu ≥ MODU_MAX := Nat.not_le.mpr hm
    have hml : modu < g_moddump.length := by omega
    refine ⟨?_, ?_⟩
    · intro hs
      simp only [register_module_dump_mem_func, hm2, if_false, hs, ne_eq, not_true_eq_false]
    · intro hs
      have hold := hname _ (getD_mem g_moddump modu zero_moddump hml)
      have hst := stored_name (g_moddump.getD modu zero_moddump).module_name nm hold
      have hreg : register_module_dump_mem_func MODU_MAX g_moddump (some f) (some nm) modu
          = (0, g_moddump.set modu
              { g_moddump.getD modu zero_moddump with
                  dump_funcptr := some f
                  module_name :=
                    (nm.takeWhile (fun b => b != 0)).take (AMNTN_MODULE_NAME_LEN - 1)
                    ++ List.replicate
                      (AMNTN_MODULE_NAME_LEN - min (AMNTN_MODULE_NAME_LEN - 1) (strlen nm))
                      0 }) := by
        simp only [register_module_dump_mem_func, hm2, if_false, hs, ne_eq, not_false_eq_true,
          if_true, hst]
      rw [hreg]
      refine ⟨rfl, ?_, ?_, ?_, ?_, ?_, ?_⟩
      · simp [hlen]
      · intro j hj
        exact getD_set_other _ _ _ _ _ hj
      · rw [getD_set_self _ _ _ _ hml]
      · rw [getD_set_self _ _ _ _ hml]
      · rw [getD_set_self _ _ _ _ hml]
      · rw [getD_set_self _ _ _ _ hml]
        have hpos : AMNTN_MODULE_NAME_LEN - min (AMNTN_MODULE_NAME_LEN - 1) (strlen nm)
            = (AMNTN_MODULE_NAME_LEN - min (AMNTN_MODULE_NAME_LEN - 1) (strlen nm) - 1) + 1 := by
          simp only [AMNTN_MODULE_NAME_LEN]
          omega
        show List.takeWhile _ (_ ++ List.replicate _ 0) = _
        rw [hpos, List.replicate_succ]
        exact takeWhile_take_append_zero nm _ _

/-- Witness for C24: on the four-module registry, a fourteen-byte name
registered for module 2 is stored as its first eleven bytes and a NUL, and an
out-of-range id is refused. -/
theorem C24_register_contract_witness :
    register_module_dump_mem_func 4 moddump4 (some 0xffff800008002000) (some name_long) 7
      = (-EINVAL, moddump4) ∧
    ((register_module_dump_mem_func 4 moddump4 (some 0xffff800008002000) (some name_long)
        2).2.getD 2 zero_moddump).module_name
      = [105, 110, 116, 101, 114, 99, 111, 110, 110, 101, 99, 0] :=
  ⟨(C24_register_contract 4 moddump4 (some 0xffff800008002000) (some name_long) 7
      (by decide) (by decide)).1 (Or.inl (by decide)),
   by decide⟩

theorem save_loop_calls (cb : dump_call → Int) (g : List module_dump_mem_info)
    (hsize : ∀ e ∈ g, e.mem.size < U32) :
    ∀ (n i : Nat), i + n = g.length →
      (save_loop cb g n i).1 = (g.drop i).filterMap spec_dump_call ∧
      (save_loop cb g n i).2
        = ((g.drop i).filter (spec_call_fails cb)).map (fun e => e.module_name) := by
  intro n
  induction n with
  | zero =>
    intro i hi
    have : g.drop i = [] := List.drop_eq_nil_of_le (by omega)
    simp [save_loop, this]
  | succ n ih =>
    intro i hi
    have hlt : i < g.length := by omega
    have hd : g.drop i = g[i] :: g.drop (i + 1) := List.drop_eq_getElem_cons hlt
    have hg : g.getD i zero_moddump = g[i] := List.getD_eq_getElem g zero_moddump hlt
    have hs := hsize g[i] (List.getElem_mem hlt)
    obtain ⟨ih1, ih2⟩ := ih (i + 1) (by omega)
    rw [hd]
    unfold save_loop
    simp only [hg]
    cases hf : g[i].dump_funcptr with
    | none =>
      have hsd : spec_dump_call g[i] = none := by simp [spec_dump_call, hf]
      have hfl : spec_call_fails cb g[i] = false := by simp [spec_call_fails, hsd]
      simp only [List.filterMap_cons, hsd, List.filter_cons, hfl, Bool.false_eq_true, if_false]
      exact ⟨ih1, ih2⟩
    | some f =>
      have hsd : spec_dump_call g[i]
          = some { func := f, addr := g[i].mem.vaddr, size := g[i].mem.size } := by
        simp [spec_dump_call, hf]
      have hfl : spec_call_fails cb g[i]
          = decide (cb { func := f, addr := g[i].mem.vaddr, size := g[i].mem.size } ≠ 0) := by
        simp [spec_call_fails, hsd]
      simp only [List.filterMap_cons, hsd, List.filter_cons, hfl, Nat.mod_eq_of_lt hs]
      refine ⟨by rw [ih1], ?_⟩
      by_cases hc : cb { func := f, addr := g[i].mem.vaddr, size := g[i].mem.size } ≠ 0
      · rw [if_pos hc, if_pos (decide_eq_true hc), List.map_cons, ih2]
      · rw [if_neg hc, if_neg (by simpa using hc), ih2]

/-- C25: whatever the dump functions return, `save_module_dump_mem` calls the
function of every table entry that has one exactly once, in table order, with
that entry's stored address and size: the calls made are the calls owed the
entries, entry by entry, entries without a function contributing none.  The
calls do not depend on what a function returns (a non-zero return only adds
the module's name to the log), nothing is returned and the table is unchanged.
Region sizes fit the `unsigned int` parameter, as every size
`rdr_safemem_alloc` hands out does. -/
theorem C25_run_all_dumps (MODU_MAX : Nat) (cb : dump_call → Int)
    (g_moddump : List module_dump_mem_info) (hlen : g_moddump.length = MODU_MAX)
    (hsize : ∀ e ∈ g_moddump, e.mem.size < U32) :
    (save_module_dump_mem MODU_MAX cb g_moddump).calls
      = g_moddump.filterMap spec_dump_call ∧
    (save_module_dump_mem MODU_MAX cb g_moddump).failed
      = (g_moddump.filter (spec_call_fails cb)).map (fun e => e.module_name) ∧
    (save_module_dump_mem MODU_MAX cb g_moddump).g_moddump = g_moddump ∧
    (∀ cb2 : dump_call → Int,
      (save_module_dump_mem MODU_MAX cb2 g_moddump).calls
        = (save_module_dump_mem MODU_MAX cb g_moddump).calls) := by
  have h1 := save_loop_calls cb g_moddump hsize MODU_MAX 0 (by omega)
  refine ⟨h1.1, h1.2, rfl, ?_⟩
  intro cb2
  have h2 := save_loop_calls cb2 g_moddump hsize MODU_MAX 0 (by omega)
  show (save_loop cb2 g_moddump MODU_MAX 0).1 = (save_loop cb g_moddump MODU_MAX 0).1
  rw [h1.1, h2.1]

/-- Witness for C25: with two functions registered, the first of which fails,
both are called, module 1 before module 2, each with its region. -/
theorem C25_run_all_dumps_witness :
    (save_module_dump_mem 4 cb_first_fails moddump4_two).calls
      = [{ func := 0xffff800008001000, addr := 0xffff800010000040, size := 64 },
         { func := 0xffff800008002000, addr := 0xffff800010000080, size := 128 }] ∧
    (save_module_dump_mem 4 cb_first_fails moddump4_two).failed
      = [[105, 100, 109, 0, 0, 0, 0, 0, 0, 0, 0, 0]] :=
  ⟨((C25_run_all_dumps 4 cb_first_fails moddump4_two (by decide) (by decide)).1).trans
      (by decide),
   by decide⟩

/-! ## The registry's allocation loop -/

theorem alloc_shape (cfg : Config) (bch : Option bch_control) (p : rdr_safemem_pool)
    (id size : Nat) (m : bbox_mem) :
    ∃ r q m', rdr_safemem_alloc cfg bch (some p) id size (some m) = (r, some q, some m') := by
  unfold rdr_safemem_alloc
  simp only []
  repeat' split
  all_goals exact ⟨_, _, _, rfl⟩

/-- One `rdr_safemem_alloc` call on a valid pool: a failure leaves `*mem` and
the live directory as they were, a success appends one live entry that holds
the id, the size and the addresses handed back. -/
theorem alloc_step_live (cfg : Config) (c : bch_control) (bch : Option bch_control)
    (p : rdr_safemem_pool) (id size : Nat) (m : bbox_mem)
    (hwf : cfg.wf) (hp : pool_wf p) (hb : bch = none ∨ bch = some c)
    (hid : id < U32) (hsz : size < U32) :
    ∃ r q m', rdr_safemem_alloc cfg bch (some p) id size (some m) = (r, some q, some m') ∧
      pool_wf q ∧
      (r ≠ 0 → m' = m ∧ live q = live p) ∧
      (r = 0 → m'.size = size ∧
        ∃ e, live q = live p ++ [e] ∧ safe_id e.rawdata = id ∧ safe_size e.rawdata = size ∧
          safe_vaddr e.rawdata = m'.vaddr ∧ safe_paddr e.rawdata = m'.paddr) := by
  obtain ⟨r, q, m', h⟩ := alloc_shape cfg bch p id size m
  refine ⟨r, q, m', h, ?_⟩
  rcases alloc_cases cfg c bch p q id size m (some m') r hwf hp.1 hb h with
    ⟨hq, hm, hr⟩ | ⟨_, hr, hm, _, _, _, _, hq⟩ | ⟨_, hr, hm, hid0, hnf, hfresh, _, hq⟩
  · have hr0 : r ≠ 0 := by
      rcases hr with hr | hr <;> rw [hr] <;> decide
    simp only [Option.some.injEq] at hm
    rw [hq]
    exact ⟨hp, fun _ => ⟨hm, rfl⟩, fun h0 => absurd h0 hr0⟩
  · have hr0 : r ≠ 0 := by rw [hr]; decide
    simp only [Option.some.injEq] at hm
    have hlive := live_rollback cfg p id size (by have := hp.2.1; have := hp.2.2.1; omega)
    rw [hq]
    exact ⟨pool_wf_rollback cfg p id size hp, fun _ => ⟨hm, hlive⟩, fun h0 => absurd h0 hr0⟩
  · have hlt : p.curnum + 1 < U32 := by have := hp.2.1; have := hp.2.2.1; omega
    have hlen : p.curnum < p.mem.length := by have := hp.2.1; have := hp.2.2.2.1; omega
    have hlive := live_ok cfg c p id size hlt hlen
    simp only [Option.some.injEq] at hm
    rw [hq]
    refine ⟨pool_wf_ok cfg c p id size hp hid0 hid hnf hfresh, fun h0 => absurd hr h0, ?_⟩
    intro _
    rw [hm]
    refine ⟨?_, alloc_entry cfg c p id size, hlive, alloc_entry_id cfg c p id size hid, ?_, rfl,
      rfl⟩
    · simp only [alloc_out, alloc_raw, safe_size_pack]
      exact Nat.mod_eq_of_lt hsz
    · simp only [alloc_entry, alloc_raw, safe_size_pack]
      exact Nat.mod_eq_of_lt hsz

theorem module_dump_loop_succ (cfg : Config) (bch : Option bch_control)
    (prop : List property_table) (n i : Nat) (pool : Option rdr_safemem_pool)
    (info : List module_dump_mem_info) :
    module_dump_loop cfg bch prop (n + 1) i pool info
      = if (prop.getD i zero_property).size = 0 then
          module_dump_loop cfg bch prop n (i + 1) pool info
        else if (rdr_safemem_alloc cfg bch pool ((MEMID_MODULE_DUMP + i) % U32)
            ((prop.getD i zero_property).size % U32)
            (some (info.getD i zero_moddump).mem)).1 ≠ 0 then
          ((rdr_safemem_alloc cfg bch pool ((MEMID_MODULE_DUMP + i) % U32)
            ((prop.getD i zero_property).size % U32)
            (some (info.getD i zero_moddump).mem)).2.1,
           info.set i { info.getD i zero_moddump with
             mem := (rdr_safemem_alloc cfg bch pool ((MEMID_MODULE_DUMP + i) % U32)
               ((prop.getD i zero_property).size % U32)
               (some (info.getD i zero_moddump).mem)).2.2.getD (info.getD i zero_moddump).mem })
        else
          module_dump_loop cfg bch prop n (i + 1)
            (rdr_safemem_alloc cfg bch pool ((MEMID_MODULE_DUMP + i) % U32)
              ((prop.getD i zero_property).size % U32)
              (some (info.getD i zero_moddump).mem)).2.1
            (info.set i { info.getD i zero_moddump with
              mem := (rdr_safemem_alloc cfg bch pool ((MEMID_MODULE_DUMP + i) % U32)
                ((prop.getD i zero_property).size % U32)
                (some (info.getD i zero_moddump).mem)).2.2.getD
                  (info.getD i zero_moddump).mem }) := rfl

theorem set_getD_same {α : Type} (l : List α) (i : Nat) (d : α) (h : i < l.length) :
    l.set i (l.getD i d) = l := by
  rw [List.getD_eq_getElem l d h]
  apply List.ext_getElem (by simp)
  intro j h1 h2
  by_cases hj : i = j
  · subst hj
    simp
  · rw [List.getElem_set_ne hj]

theorem registry_pool_skip (cfg : Config) (bch : Option bch_control)
    (prop : List property_table) (g0 : List module_dump_mem_info) (p0 : rdr_safemem_pool)
    (k : Nat) (h : (prop.getD k zero_property).size = 0) :
    registry_pool cfg bch prop g0 p0 (k + 1) = registry_pool cfg bch prop g0 p0 k := by
  simp only [registry_pool, h, if_true]

theorem registry_pool_step (cfg : Config) (bch : Option bch_control)
    (prop : List property_table) (g0 : List module_dump_mem_info) (p0 : rdr_safemem_pool)
    (k : Nat) (h : (prop.getD k zero_property).size ≠ 0) :
    registry_pool cfg bch prop g0 p0 (k + 1)
      = (rdr_safemem_alloc cfg bch (some (registry_pool cfg bch prop g0 p0 k))
          (MEMID_MODULE_DUMP + k) (prop.getD k zero_property).size
          (some (g0.getD k zero_moddump).mem)).2.1.getD (registry_pool cfg bch prop g0 p0 k) := by
  simp only [registry_pool, h, if_false]

/-- The allocation loop of `module_dump_init` over the modules `i .. i + n - 1`,
entered with the pool the registry has reached at module `i`.  It stops at a
module `k`: every call before `k` returned 0 on the pool reached there, the
call for `k` failed on the pool reached there, and every table entry from `k`
on is as before. -/
theorem module_dump_loop_spec (cfg : Config) (c : bch_control) (bch : Option bch_control)
    (prop : List property_table) (hwf : cfg.wf) (hb : bch = none ∨ bch = some c)
    (hprop : ∀ j, (prop.getD j zero_property).size < U32)
    (p0 : rdr_safemem_pool) (g0 : List module_dump_mem_info) :
    ∀ (n i : Nat) (p : rdr_safemem_pool) (info : List module_dump_mem_info),
      pool_wf p → i + n ≤ info.length → MEMID_MODULE_DUMP + i + n ≤ U32 →
      p = registry_pool cfg bch prop g0 p0 i →
      (∀ j, i ≤ j → info.getD j zero_moddump = g0.getD j zero_moddump) →
      ∃ q k, module_dump_loop cfg bch prop n i (some p) info
          = (some q, (module_dump_loop cfg bch prop n i (some p) info).2) ∧
        pool_wf q ∧ i ≤ k ∧ k ≤ i + n ∧
        (module_dump_loop cfg bch prop n i (some p) info).2.length = info.length ∧
        (∃ t, live q = live p ++ t) ∧
        (∀ j, ((module_dump_loop cfg bch prop n i (some p) info).2.getD j
              zero_moddump).dump_funcptr = (info.getD j zero_moddump).dump_funcptr ∧
            ((module_dump_loop cfg bch prop n i (some p) info).2.getD j
              zero_moddump).module_name = (info.getD j zero_moddump).module_name) ∧
        (∀ j, j < i ∨ k ≤ j →
          (module_dump_loop cfg bch prop n i (some p) info).2.getD j zero_moddump
            = info.getD j zero_moddump) ∧
        (∀ j, i ≤ j → j < k → (prop.getD j zero_property).size = 0 →
          (module_dump_loop cfg bch prop n i (some p) info).2.getD j zero_moddump
            = info.getD j zero_moddump) ∧
        (∀ j, i ≤ j → j < k → (prop.getD j zero_property).size ≠ 0 →
          rdr_safemem_alloc cfg bch (some (registry_pool cfg bch prop g0 p0 j))
              (MEMID_MODULE_DUMP + j) (prop.getD j zero_property).size
              (some (g0.getD j zero_moddump).mem)
            = (0, some (registry_pool cfg bch prop g0 p0 (j + 1)),
                some ((module_dump_loop cfg bch prop n i (some p) info).2.getD j
                  zero_moddump).mem) ∧
          ((module_dump_loop cfg bch prop n i (some p) info).2.getD j zero_moddump).mem.size
            = (prop.getD j zero_property).size ∧
          ∃ e ∈ live q, safe_id e.rawdata = MEMID_MODULE_DUMP + j ∧
            safe_size e.rawdata = (prop.getD j zero_property).size ∧
            safe_vaddr e.rawdata
              = ((module_dump_loop cfg bch prop n i (some p) info).2.getD j
                  zero_moddump).mem.vaddr ∧
            safe_paddr e.rawdata
              = ((module_dump_loop cfg bch prop n i (some p) info).2.getD j
                  zero_moddump).mem.paddr) ∧
        (k < i + n → (prop.getD k zero_property).size ≠ 0 ∧
          (rdr_safemem_alloc cfg bch (some (registry_pool cfg bch prop g0 p0 k))
            (MEMID_MODULE_DUMP + k) (prop.getD k zero_property).size
            (some (g0.getD k zero_moddump).mem)).1 ≠ 0 ∧
          (rdr_safemem_alloc cfg bch (some (registry_pool cfg bch prop g0 p0 k))
            (MEMID_MODULE_DUMP + k) (prop.getD k zero_property).size
            (some (g0.getD k zero_moddump).mem)).2.1 = some q) ∧
        (k = i + n → q = registry_pool cfg bch prop g0 p0 k) := by
  intro n
  induction n with
  | zero =>
    intro i p info hp _ _ hcur _
    refine ⟨p, i, rfl, hp, Nat.le_refl _, Nat.le_refl _, rfl, ⟨[], by simp⟩,
      fun _ => ⟨rfl, rfl⟩, fun _ _ => rfl, fun _ _ _ _ => rfl, ?_, ?_, fun _ => hcur⟩
    · intro j h1 h2
      omega
    · intro h
      omega
  | succ n ih =>
    intro i p info hp hlen hid hcur hinfo
    have hil : i < info.length := by omega
    rw [module_dump_loop_succ]
    by_cases hs : (prop.getD i zero_property).size = 0
    · rw [if_pos hs]
      obtain ⟨q, k, h1, h2, h3, h4, h5, h6, h7, h8, h9, h10, h11, h12⟩ :=
        ih (i + 1) p info hp (by omega) (by omega)
          (by rw [registry_pool_skip cfg bch prop g0 p0 i hs]; exact hcur)
          (fun j hj => hinfo j (by omega))
      refine ⟨q, k, h1, h2, by omega, by omega, h5, h6, h7, ?_, ?_, ?_, ?_, ?_⟩
      · intro j hj
        exact h8 j (by omega)
      · intro j hj1 hj2 hj3
        by_cases hji : j = i
        · exact h8 j (by omega)
        · exact h9 j (by omega) hj2 hj3
      · intro j hj1 hj2 hj3
        have hji : j ≠ i := by
          intro hji
          rw [hji] at hj3
          exact hj3 hs
        exact h10 j (by omega) hj2 hj3
      · intro hk
        exact h11 (by omega)
      · intro hk
        exact h12 (by omega)
    · rw [if_neg hs]
      have hidm : (MEMID_MODULE_DUMP + i) % U32 = MEMID_MODULE_DUMP + i :=
        Nat.mod_eq_of_lt (by omega)
      have hszm : (prop.getD i zero_property).size % U32 = (prop.getD i zero_property).size :=
        Nat.mod_eq_of_lt (hprop i)
      rw [hidm, hszm]
      obtain ⟨r, q1, m', hal, hq1, hfail, hok⟩ :=
        alloc_step_live cfg c bch p (MEMID_MODULE_DUMP + i) (prop.getD i zero_property).size
          (info.getD i zero_moddump).mem hwf hp hb (by omega) (hprop i)
      have hal0 : rdr_safemem_alloc cfg bch (some (registry_pool cfg bch prop g0 p0 i))
          (MEMID_MODULE_DUMP + i) (prop.getD i zero_property).size
          (some (g0.getD i zero_moddump).mem) = (r, some q1, some m') := by
        rw [← hcur, ← hinfo i (Nat.le_refl _)]
        exact hal
      rw [hal]
      simp only [Option.getD_some]
      by_cases hr : r ≠ 0
      · rw [if_pos hr]
        obtain ⟨hm, hlive⟩ := hfail hr
        have hsame : info.set i { info.getD i zero_moddump with mem := m' } = info := by
          rw [hm]
          exact set_getD_same info i zero_moddump hil
        rw [hsame]
        refine ⟨q1, i, rfl, hq1, Nat.le_refl _, by omega, rfl, ⟨[], by simp [hlive]⟩,
          fun _ => ⟨rfl, rfl⟩, fun _ _ => rfl, fun _ _ _ _ => rfl, ?_, ?_, ?_⟩
        · intro j h1 h2
          omega
        · intro _
          rw [hal0]
          exact ⟨hs, hr, rfl⟩
        · intro h
          omega
      · rw [if_neg hr]
        have hr0 : r = 0 := by
          by_contra h
          exact hr h
        obtain ⟨hmsz, e, hlive, he1, he2, he3, he4⟩ := hok hr0
        have hother : ∀ j, j ≠ i →
            (info.set i { info.getD i zero_moddump with mem := m' }).getD j zero_moddump
              = info.getD j zero_moddump :=
          fun j hj => getD_set_other _ _ _ _ _ hj
        have hself : (info.set i { info.getD i zero_moddump with mem := m' }).getD i zero_moddump
            = { info.getD i zero_moddump with mem := m' } :=
          getD_set_self _ _ _ _ hil
        have hnext : q1 = registry_pool cfg bch prop g0 p0 (i + 1) := by
          rw [registry_pool_step cfg bch prop g0 p0 i hs, hal0]
          rfl
        obtain ⟨q, k, h1, h2, h3, h4, h5, h6, h7, h8, h9, h10, h11, h12⟩ :=
          ih (i + 1) q1 (info.set i { info.getD i zero_moddump with mem := m' }) hq1
            (by rw [List.length_set]; omega) (by omega) hnext
            (fun j hj => by rw [hother j (by omega)]; exact hinfo j (by omega))
        refine ⟨q, k, h1, h2, by omega, by omega, ?_, ?_, ?_, ?_, ?_, ?_, ?_, ?_⟩
        · rw [h5, List.length_set]
        · obtain ⟨t, ht⟩ := h6
          exact ⟨e :: t, by rw [ht, hlive]; simp⟩
        · intro j
          rw [(h7 j).1, (h7 j).2]
          by_cases hji : j = i
          · rw [hji, hself]
            exact ⟨rfl, rfl⟩
          · rw [hother j hji]
            exact ⟨rfl, rfl⟩
        · intro j hj
          rw [h8 j (by omega), hother j (by omega)]
        · intro j hj1 hj2 hj3
          have hji : j ≠ i := by
            intro hji
            rw [hji] at hj3
            exact hs hj3
          rw [h9 j (by omega) hj2 hj3, hother j hji]
        · intro j hj1 hj2 hj3
          by_cases hji : j = i
          · rw [hji, h8 i (by omega), hself]
            refine ⟨?_, hmsz, e, ?_, he1, he2, he3, he4⟩
            · rw [hal0, hr0, hnext]
            · obtain ⟨t, ht⟩ := h6
              rw [ht, hlive]
              simp
          · exact h10 j (by omega) hj2 hj3
        · intro hk
          exact h11 (by omega)
        · intro hk
          exact h12 (by omega)

/-- C26: for every property table and valid pool, once the property table has
been loaded `module_dump_init` returns 0, whether its loop runs to the end
(`k = MODU_MAX`) or stops at the first module `k` whose allocation fails.
Every module with configured size 0 is skipped.  For every module `i` before
`k` with a non-zero size, the call `rdr_safemem_alloc(pool, MEMID_MODULE_DUMP +
i, size_i, &g_moddump[i].mem)` on the pool reached at `i` returned 0: the pool
holds a live entry under that id with exactly the configured size, and the
table entry records that region.  The call for module `k` failed on the pool
reached at `k` and left the final pool; module `k` and every module after it
have their table entry, region size included, as it was before the call.  If
the loop runs to the end, the final pool is the pool reached after all
modules.  If the table could not be loaded, the error is returned and nothing
is allocated. -/
theorem C26_registry_init (cfg : Config) (bch : Option bch_control) (MODU_MAX : Nat)
    (prop : List property_table) (p : rdr_safemem_pool) (g_moddump : List module_dump_mem_info)
    (hwf : cfg.wf) (hp : pool_wf p) (hlen : g_moddump.length = MODU_MAX)
    (hprop : ∀ e ∈ prop, e.size < U32) (hmax : MEMID_MODULE_DUMP + MODU_MAX ≤ U32) :
    (∀ ret : Int, ret ≠ 0 →
      module_dump_init cfg bch MODU_MAX (ret, prop) (some p) g_moddump
        = (ret, some p, g_moddump)) ∧
    ∃ q g k, module_dump_init cfg bch MODU_MAX (0, prop) (some p) g_moddump = (0, some q, g) ∧
      k ≤ MODU_MAX ∧ pool_wf q ∧ g.length = MODU_MAX ∧
      (∀ j, (g.getD j zero_moddump).dump_funcptr = (g_moddump.getD j zero_moddump).dump_funcptr ∧
        (g.getD j zero_moddump).module_name = (g_moddump.getD j zero_moddump).module_name) ∧
      (∀ j, j < k → (prop.getD j zero_property).size = 0 →
        g.getD j zero_moddump = g_moddump.getD j zero_moddump) ∧
      (∀ j, j < k → (prop.getD j zero_property).size ≠ 0 →
        rdr_safemem_alloc cfg bch (some (registry_pool cfg bch prop g_moddump p j))
            (MEMID_MODULE_DUMP + j) (prop.getD j zero_property).size
            (some (g_moddump.getD j zero_moddump).mem)
          = (0, some (registry_pool cfg bch prop g_moddump p (j + 1)),
              some (g.getD j zero_moddump).mem) ∧
        (g.getD j zero_moddump).mem.size = (prop.getD j zero_property).size ∧
        ∃ e ∈ live q, safe_id e.rawdata = MEMID_MODULE_DUMP + j ∧
          safe_size e.rawdata = (prop.getD j zero_property).size ∧
          safe_vaddr e.rawdata = (g.getD j zero_moddump).mem.vaddr ∧
          safe_paddr e.rawdata = (g.getD j zero_moddump).mem.paddr) ∧
      (∀ j, k ≤ j → g.getD j zero_moddump = g_moddump.getD j zero_moddump) ∧
      (k < MODU_MAX → (prop.getD k zero_property).size ≠ 0 ∧
        (rdr_safemem_alloc cfg bch (some (registry_pool cfg bch prop g_moddump p k))
          (MEMID_MODULE_DUMP + k) (prop.getD k zero_property).size
          (some (g_moddump.getD k zero_moddump).mem)).1 ≠ 0 ∧
        (rdr_safemem_alloc cfg bch (some (registry_pool cfg bch prop g_moddump p k))
          (MEMID_MODULE_DUMP + k) (prop.getD k zero_property).size
          (some (g_moddump.getD k zero_moddump).mem)).2.1 = some q) ∧
      (k = MODU_MAX → q = registry_pool cfg bch prop g_moddump p MODU_MAX) := by
  refine ⟨?_, ?_⟩
  · intro ret hret
    simp only [module_dump_init, hret, ne_eq, not_false_eq_true, if_true]
  · obtain ⟨c, hb⟩ : ∃ c : bch_control, bch = none ∨ bch = some c := by
      cases bch with
      | none => exact ⟨⟨fun _ => [], fun _ _ => none⟩, Or.inl rfl⟩
      | some c => exact ⟨c, Or.inr rfl⟩
    have hprop2 : ∀ j, (prop.getD j zero_property).size < U32 := by
      intro j
      by_cases hj : j < prop.length
      · exact hprop _ (getD_mem prop j zero_property hj)
      · rw [List.getD_eq_default _ _ (by omega)]
        decide
    obtain ⟨q, k, h1, h2, _, h4, h5, _, h7, h8, h9, h10, h11, h12⟩ :=
      module_dump_loop_spec cfg c bch prop hwf hb hprop2 p g_moddump MODU_MAX 0 p g_moddump hp
        (by omega) (by omega) rfl (fun _ _ => rfl)
    refine ⟨q, (module_dump_loop cfg bch prop MODU_MAX 0 (some p) g_moddump).2, k, ?_,
      by omega, h2, by rw [h5, hlen], h7, ?_, ?_, ?_, ?_, ?_⟩
    · simp only [module_dump_init, ne_eq, not_true_eq_false, if_false]
      rw [← h1]
    · intro j hj hs
      exact h9 j (Nat.zero_le _) hj hs
    · intro j hj hs
      exact h10 j (Nat.zero_le _) hj hs
    · intro j hj
      exact h8 j (Or.inr hj)
    · intro hk
      exact h11 (by omega)
    · intro hk
      rw [← hk]
      exact h12 (by omega)

/-- Witness for C26: on a three-slot pool of 1 MiB, with sizes 64, 2 MiB, 0
and 128 configured, `module_dump_init` returns 0; module 0 gets its 64 bytes
under id 100, the allocation of module 1 fails, and modules 1 to 3 are left
without a region, module 3 too although its 128 bytes would fit.  With sizes
0, 64, 0 and 128 the modules 1 and 3 get their regions under the ids 101 and
103. -/
theorem C26_registry_init_witness :
    (module_dump_init cfg0 (some rep3) 4 (0, props4_big) (some pool_small) moddump4_zero).1 = 0 ∧
    (module_dump_init cfg0 (some rep3) 4 (0, props4_big) (some pool_small)
        moddump4_zero).2.2.map (fun e => e.mem.size) = [64, 0, 0, 0] ∧
    (module_dump_init cfg0 (some rep3) 4 (0, props4_big) (some pool_small)
        moddump4_zero).2.1.map (fun q => (live q).map (fun e => safe_id e.rawdata))
      = some [100] ∧
    (module_dump_init cfg0 (some rep3) 4 (0, props4) (some pool_small)
        moddump4_zero).2.2.map (fun e => e.mem.size) = [0, 64, 0, 128] ∧
    (module_dump_init cfg0 (some rep3) 4 (0, props4) (some pool_small)
        moddump4_zero).2.1.map (fun q => (live q).map (fun e => safe_id e.rawdata))
      = some [101, 103] := by
  refine ⟨?_, by decide, by decide, by decide, by decide⟩
  obtain ⟨q, g, k, h, _⟩ :=
    (C26_registry_init cfg0 (some rep3) 4 props4_big pool_small moddump4_zero
      (by decide) (by decide) (by decide) (by decide) (by decide)).2
  rw [h]

/-! ## The suspend dump -/

theorem wakeup_loop_num (sources : List wakeup_source) :
    ∀ s : suspend_info, (wakeup_loop sources s).1.num = s.num + sources.length ∧
      (wakeup_loop sources s).2 = (List.range sources.length).map (fun (i : Nat) => s.num + Int.ofNat i) ∧
      (wakeup_loop sources s).1.info.length = s.info.length := by
  induction sources with
  | nil =>
    intro s
    simp [wakeup_loop]
  | cons ws rest ih =>
    intro s
    simp only [wakeup_loop, List.length_cons]
    obtain ⟨h1, h2, h3⟩ := ih
      { s with
          info := if 0 ≤ s.num ∧ s.num < MAX_WAKEUP_RECORD_NUM then
              s.info.set s.num.toNat
                (wakeup_record (s.info.getD s.num.toNat zero_wakeup_info) ws)
            else s.info
          num := s.num + 1 }
    refine ⟨?_, ?_, ?_⟩
    · rw [h1]
      push_cast
      omega
    · rw [h2, List.range_succ_eq_map]
      simp only [List.map_cons, List.map_map, Int.ofNat_zero, add_zero, List.cons.injEq, true_and]
      refine ⟨by simp, ?_⟩
      apply List.map_congr_left
      intro i _
      simp only [Function.comp, Int.ofNat_eq_coe, Nat.cast_succ]
      omega
    · rw [h3]
      split <;> simp

set_option maxRecDepth 100000 in
/-- C30, evaluation: on the suspend slot as `suspend_dump_init` leaves it
(zeroed, `num = 0`, an array of 20 records), one `ap_suspend_dump` with modid
`MODID_AP_SUSPEND_DEVICE_FAIL` and 21 wakeup sources stores records at the
indices 0 to 20 and leaves `wake_info.num = 21`: index 20 is past the array.
With 11 sources, the second call starts at index 11, since `num` is not reset,
and stores at the indices 11 to 21.  In general a call with `n` sources stores
at the indices `num .. num + n - 1` and adds `n` to `num`, without any test
against `MAX_WAKEUP_RECORD_NUM`. -/
theorem C30_wakeup_records_unbounded :
    (suspend_dump_init cfg0 (some rep3) 3232 176 (some pool_small) mem0 none).1 = 0 ∧
    suspend_slot0 = some (zero_suspend_info 176) ∧
    (zero_suspend_info 176).info.length = MAX_WAKEUP_RECORD_NUM ∧
    (ap_suspend_dump 9 (List.replicate 21 ws0) suspend_slot0 9 0).2
      = [0, 1, 2, 3, 4, 5, 6, 7, 8, 9, 10, 11, 12, 13, 14, 15, 16, 17, 18, 19, 20] ∧
    ((ap_suspend_dump 9 (List.replicate 21 ws0) suspend_slot0 9 0).1.map
      (fun s => s.num)) = some 21 ∧
    ¬ ((20 : Int) < MAX_WAKEUP_RECORD_NUM) ∧
    (ap_suspend_dump_times 9 (List.replicate 11 ws0) 9 0 2 suspend_slot0).2
      = [[0, 1, 2, 3, 4, 5, 6, 7, 8, 9, 10], [11, 12, 13, 14, 15, 16, 17, 18, 19, 20, 21]] ∧
    (∀ (sources : List wakeup_source) (s : suspend_info) (etype : Nat),
      (ap_suspend_dump 9 sources (some s) 9 etype).2
        = (List.range sources.length).map (fun (i : Nat) => s.num + Int.ofNat i) ∧
      (ap_suspend_dump 9 sources (some s) 9 etype).1.map (fun t => t.num)
        = some (s.num + sources.length)) := by
  refine ⟨by decide, by decide, by decide, by decide, by decide, by decide, by decide, ?_⟩
  intro sources s etype
  have h := wakeup_loop_num sources { s with stats := List.replicate s.stats.length 0 }
  simp only [ap_suspend_dump, ne_eq, not_true_eq_false, if_false, Option.map_some']
  exact ⟨h.2.1, by rw [h.1]⟩

/-! ## The areas tile the head pool -/

theorem sub64_of_le (a b : Nat) (ha : a < U64) (hb : b ≤ a) : sub64 a b = a - b := by
  unfold sub64 U64 at *
  omega

theorem tiles_sum (l : List rdr_safemem) :
    ∀ a b, tiles a l b = true → a + (l.map (fun e => safe_size e.rawdata)).sum = b := by
  induction l with
  | nil =>
    intro a b h
    simpa [tiles] using h
  | cons e l ih =>
    intro a b h
    simp only [tiles, Bool.and_eq_true, decide_eq_true_eq] at h
    have := ih _ _ h.2
    simp only [List.map_cons, List.sum_cons]
    omega

/-- One successful `rdr_safemem_alloc` on a tiled downward pool: the new
region lies right below the old cursor and the pool stays tiled. -/
theorem alloc_down_step (cfg : Config) (c : bch_control) (bch : Option bch_control)
    (p q : rdr_safemem_pool) (id size top : Nat) (m m' : bbox_mem)
    (hwf : cfg.wf) (hb : bch = none ∨ bch = some c) (hinv : tiled_down top p)
    (hid : id < U32) (hsz : size < U32)
    (h : rdr_safemem_alloc cfg bch (some p) id size (some m) = (0, some q, some m')) :
    tiled_down top q ∧ q.base_alloc_addr = p.base_alloc_addr ∧
      q.cur_alloc_addr + size = p.cur_alloc_addr ∧ m'.vaddr = q.cur_alloc_addr ∧
      ∃ e, live q = live p ++ [e] ∧ safe_id e.rawdata = id ∧ safe_size e.rawdata = size := by
  obtain ⟨hp, hdir, hlow, hle, htile⟩ := hinv
  have hcur64 : p.cur_alloc_addr < U64 := hp.2.2.2.2.2.2.1
  rcases alloc_cases cfg c bch p q id size m (some m') 0 hwf hp.1 hb h with
    ⟨_, _, hr⟩ | ⟨_, hr, _⟩ | ⟨_, _, hm, hid0, hnf, hfresh, hroom, hq⟩
  · rcases hr with hr | hr <;> simp [EINVAL, ENOMEM] at hr
  · simp [ENOMEM] at hr
  · have hlt : p.curnum + 1 < U32 := by have := hp.2.1; have := hp.2.2.1; omega
    have hlen : p.curnum < p.mem.length := by have := hp.2.1; have := hp.2.2.2.1; omega
    have hlive := live_ok cfg c p id size hlt hlen
    have hsub : sub64 p.cur_alloc_addr size = p.cur_alloc_addr - size :=
      sub64_of_le _ _ hcur64 (by omega)
    have hroom2 : p.base_alloc_addr ≤ p.cur_alloc_addr - size := by
      simp only [no_room, hdir, Bool.false_eq_true, if_false, decide_eq_false_iff_not, hsub]
        at hroom
      omega
    have hvaddr : safe_vaddr (alloc_entry cfg c p id size).rawdata = p.cur_alloc_addr - size := by
      simp only [alloc_entry, alloc_raw, safe_vaddr_pack, alloc_vaddr, hdir, Bool.false_eq_true,
        if_false, hsub]
      exact Nat.mod_eq_of_lt (by omega)
    have hsize : safe_size (alloc_entry cfg c p id size).rawdata = size := by
      simp only [alloc_entry, alloc_raw, safe_size_pack]
      exact Nat.mod_eq_of_lt hsz
    have hqcur : q.cur_alloc_addr = p.cur_alloc_addr - size := by
      rw [hq]
      simp only [alloc_pool_ok, alloc_cursor, hdir, Bool.false_eq_true, if_false, hsub]
    have hqbase : q.base_alloc_addr = p.base_alloc_addr := by
      rw [hq]
      rfl
    have hqdir : q.low_to_high = false := by
      rw [hq]
      exact hdir
    have hqlive : live q = live p ++ [alloc_entry cfg c p id size] := by
      rw [hq]
      exact hlive
    simp only [Option.some.injEq] at hm
    refine ⟨⟨?_, hqdir, by rw [hqbase]; exact hlow, by rw [hqbase, hqcur]; exact hroom2, ?_⟩,
      hqbase, by rw [hqcur]; omega, ?_, alloc_entry cfg c p id size, hqlive,
      alloc_entry_id cfg c p id size hid, hsize⟩
    · rw [hq]
      exact pool_wf_ok cfg c p id size hp hid0 hid hnf hfresh
    · rw [hqlive, List.reverse_append, List.reverse_singleton, List.singleton_append]
      simp only [tiles, Bool.and_eq_true, decide_eq_true_eq, hvaddr, hsize, hqcur, true_and]
      have : p.cur_alloc_addr - size + size = p.cur_alloc_addr := by omega
      rw [this]
      exact htile
    · rw [hm, hqcur]
      show safe_vaddr (alloc_raw p id size) = _
      exact hvaddr

theorem areainfo_loop_succ (cfg : Config) (fc : FieldConfig) (bch : Option bch_control)
    (data : rdr_area_data) (i : Nat) (pool : rdr_safemem_pool) (mem : bbox_mem) :
    areainfo_loop cfg fc bch data (i + 1) pool mem
      = if (rdr_safemem_alloc cfg bch (some pool)
            (fc.RDR_CORE_INDEX_2_CORE ((i + 1 : Nat) : Int) % U32)
            (data.data.getD (i + 1) 0 % U32) (some mem)).1 ≠ 0 then
          (some (rdr_safemem_alloc cfg bch (some pool)
              (fc.RDR_CORE_INDEX_2_CORE ((i + 1 : Nat) : Int) % U32)
              (data.data.getD (i + 1) 0 % U32) (some mem)).1,
            (rdr_safemem_alloc cfg bch (some pool)
              (fc.RDR_CORE_INDEX_2_CORE ((i + 1 : Nat) : Int) % U32)
              (data.data.getD (i + 1) 0 % U32) (some mem)).2.1.getD pool,
            (rdr_safemem_alloc cfg bch (some pool)
              (fc.RDR_CORE_INDEX_2_CORE ((i + 1 : Nat) : Int) % U32)
              (data.data.getD (i + 1) 0 % U32) (some mem)).2.2.getD mem)
        else
          areainfo_loop cfg fc bch data i
            ((rdr_safemem_alloc cfg bch (some pool)
              (fc.RDR_CORE_INDEX_2_CORE ((i + 1 : Nat) : Int) % U32)
              (data.data.getD (i + 1) 0 % U32) (some mem)).2.1.getD pool)
            ((rdr_safemem_alloc cfg bch (some pool)
              (fc.RDR_CORE_INDEX_2_CORE ((i + 1 : Nat) : Int) % U32)
              (data.data.getD (i + 1) 0 % U32) (some mem)).2.2.getD mem) := rfl

theorem areainfo_loop_some (cfg : Config) (fc : FieldConfig) (bch : Option bch_control)
    (data : rdr_area_data) :
    ∀ (i : Nat) (p q : rdr_safemem_pool) (mem mem' : bbox_mem) (ret : Int),
      areainfo_loop cfg fc bch data i p mem = (some ret, q, mem') → ret ≠ 0 := by
  intro i
  induction i with
  | zero =>
    intro p q mem mem' ret h
    simp [areainfo_loop] at h
  | succ i ih =>
    intro p q mem mem' ret h
    rw [areainfo_loop_succ] at h
    split at h
    · rename_i hne
      simp only [Prod.mk.injEq, Option.some.injEq] at h
      rw [← h.1]
      exact hne
    · exact ih _ _ _ _ _ h

/-- The loop of `rdr_field_areainfo_init` on a tiled downward pool, when it
runs to its end: the areas `i`, ..., 1 are appended in this order, each right
below the one before, and `mem` holds the last one. -/
theorem areainfo_loop_tiles (cfg : Config) (c : bch_control) (fc : FieldConfig)
    (bch : Option bch_control) (data : rdr_area_data) (top : Nat)
    (hwf : cfg.wf) (hb : bch = none ∨ bch = some c) :
    ∀ (i : Nat) (p q : rdr_safemem_pool) (mem mem' : bbox_mem),
      tiled_down top p → areainfo_loop cfg fc bch data i p mem = (none, q, mem') →
      tiled_down top q ∧ q.base_alloc_addr = p.base_alloc_addr ∧
        (0 < i → mem'.vaddr = q.cur_alloc_addr) ∧
        ∃ t, live q = live p ++ t ∧
          t.map (fun e => safe_id e.rawdata)
            = ((List.range i).map
                (fun k => fc.RDR_CORE_INDEX_2_CORE ((k + 1 : Nat) : Int) % U32)).reverse ∧
          t.map (fun e => safe_size e.rawdata)
            = ((List.range i).map (fun k => data.data.getD (k + 1) 0 % U32)).reverse := by
  have hU : 0 < U32 := by unfold U32; omega
  intro i
  induction i with
  | zero =>
    intro p q mem mem' hinv h
    simp only [areainfo_loop, Prod.mk.injEq, true_and] at h
    rw [← h.1]
    exact ⟨hinv, rfl, fun h0 => absurd h0 (Nat.lt_irrefl 0), [], by simp, by simp, by simp⟩
  | succ i ih =>
    intro p q mem mem' hinv h
    rw [areainfo_loop_succ] at h
    obtain ⟨r, q1, m1, hal⟩ := alloc_shape cfg bch p
      (fc.RDR_CORE_INDEX_2_CORE ((i + 1 : Nat) : Int) % U32) (data.data.getD (i + 1) 0 % U32) mem
    rw [hal] at h
    simp only [Option.getD_some] at h
    split at h
    · simp at h
    · rename_i hr
      have hr0 : r = 0 := by
        by_contra hne
        exact hr hne
      rw [hr0] at hal
      obtain ⟨hinv1, hbase1, hcur1, hm1, e, hlive1, he1, he2⟩ :=
        alloc_down_step cfg c bch p q1 _ _ top mem m1 hwf hb hinv (Nat.mod_lt _ hU)
          (Nat.mod_lt _ hU) hal
      obtain ⟨hinvq, hbaseq, hmem, t, hliveq, ht1, ht2⟩ := ih q1 q m1 mem' hinv1 h
      refine ⟨hinvq, by rw [hbaseq, hbase1], ?_, e :: t, ?_, ?_, ?_⟩
      · intro _
        by_cases hi : 0 < i
        · exact hmem hi
        · have hi0 : i = 0 := by omega
          subst hi0
          simp only [areainfo_loop, Prod.mk.injEq, true_and] at h
          rw [← h.1, ← h.2]
          exact hm1
      · rw [hliveq, hlive1]
        simp
      · rw [List.map_cons, ht1, he1, List.range_succ, List.map_append, List.reverse_append]
        rfl
      · rw [List.map_cons, ht2, he2, List.range_succ, List.map_append, List.reverse_append]
        rfl

/-- C29: let `rdr_field_mempool_init` set up the head pool (downward, over the
payload of `top_head.size - RDR_BASEINFO_SIZE` bytes behind the base-info
prefix), with a payload smaller than 2^32 bytes that lies above the first
4 GiB of the address space and does not run past its end, as the mapping of
the reserved region does.  Then for every area table with `2 <= n < 2^31`
areas, after a successful `rdr_field_areainfo_init` the pool cursor equals
`base_alloc_addr`, the pool holds exactly the `n` areas, and taken in
increasing index order (ids `RDR_CORE_INDEX_2_CORE(0)`, ...,
`RDR_CORE_INDEX_2_CORE(n - 1)`) area 0 starts at the pool base, each area
starts where the one before ends, and the last ends at the end of the payload;
the areas `i >= 1` have their configured sizes, and the sizes of all areas sum
to the payload size. -/
theorem C29_areas_tile_pool (cfg : Config) (fc : FieldConfig) (hc : HeadConfig)
    (bch : Option bch_control) (board : Board) (r0 r : rdr_struct_s) (q : rdr_safemem_pool)
    (data : rdr_area_data) (mem : bbox_mem) (hwf : cfg.wf)
    (hinit : rdr_field_mempool_init cfg hc board r0 = (0, r))
    (hn : 2 ≤ data.value) (hn31 : data.value < 2147483648)
    (hpay : sub64 (top_size r0.top_head) hc.RDR_BASEINFO_SIZE < U32)
    (hlow : U32 ≤ add64 board.reserved.vaddr hc.RDR_BASEINFO_SIZE)
    (hhigh : add64 board.reserved.vaddr hc.RDR_BASEINFO_SIZE
      + sub64 (top_size r0.top_head) hc.RDR_BASEINFO_SIZE < U64)
    (hok : rdr_field_areainfo_init cfg fc bch r.pool data mem = (0, q)) :
    q.cur_alloc_addr = q.base_alloc_addr ∧
    q.base_alloc_addr = add64 board.reserved.vaddr hc.RDR_BASEINFO_SIZE ∧
    (live q).length = data.value ∧
    (live q).reverse.map (fun e => safe_id e.rawdata)
      = (List.range data.value).map (fun k => fc.RDR_CORE_INDEX_2_CORE ((k : Nat) : Int) % U32) ∧
    ((live q).reverse.map (fun e => safe_size e.rawdata)).tail
      = (List.range (data.value - 1)).map (fun k => data.data.getD (k + 1) 0 % U32) ∧
    tiles q.base_alloc_addr (live q).reverse
      (q.base_alloc_addr + sub64 (top_size r0.top_head) hc.RDR_BASEINFO_SIZE) = true ∧
    ((live q).map (fun e => safe_size e.rawdata)).sum
      = sub64 (top_size r0.top_head) hc.RDR_BASEINFO_SIZE := by
  have hU : 0 < U32 := by unfold U32; omega
  obtain ⟨c, hb⟩ : ∃ c : bch_control, bch = none ∨ bch = some c := by
    cases bch with
    | none => exact ⟨⟨fun _ => [], fun _ _ => none⟩, Or.inl rfl⟩
    | some c => exact ⟨c, Or.inr rfl⟩
  -- the fresh pool
  generalize hbase : add64 board.reserved.vaddr hc.RDR_BASEINFO_SIZE = base at hlow hhigh ⊢
  generalize hpl : sub64 (top_size r0.top_head) hc.RDR_BASEINFO_SIZE = payload
    at hpay hhigh ⊢
  have hfresh : tiled_down (base + payload) r.pool ∧ r.pool.base_alloc_addr = base ∧
      live r.pool = [] := by
    simp only [rdr_field_mempool_init, Prod.mk.injEq] at hinit
    obtain ⟨h1, h2⟩ := hinit
    rw [hbase, hpl] at h1 h2
    generalize hres : rdr_safemem_pool_init cfg (some r0.pool) (some name0)
      ((hc.RDR_BASEINFO_SIZE - hc.offsetof_pool) % U32)
      (some { size := payload, vaddr := base,
              paddr := add64 board.reserved.paddr hc.RDR_BASEINFO_SIZE }) false = res
      at h1 h2
    obtain ⟨ret, op⟩ := res
    simp only at h1 h2
    subst h1
    have hsome : ∃ p, op = some p := by
      simp only [rdr_safemem_pool_init] at hres
      split at hres
      · simp [EINVAL] at hres
      · simp only [Prod.mk.injEq, true_and] at hres
        exact ⟨_, hres.symm⟩
    obtain ⟨p, hp⟩ := hsome
    subst hp
    have hwfp := pool_wf_init cfg r0.pool p name0 _ _ false
      (by show base < U64; omega) (add64_lt _ _) hres
    have hfields : p.base_alloc_addr = base ∧ p.cur_alloc_addr = base + payload ∧
        p.low_to_high = false := by
      simp only [rdr_safemem_pool_init] at hres
      split at hres
      · simp [EINVAL] at hres
      · simp only [Prod.mk.injEq, Option.some.injEq, true_and] at hres
        subst hres
        refine ⟨rfl, ?_, rfl⟩
        show (if false = true then base else add64 base payload) = base + payload
        simp only [Bool.false_eq_true, if_false, add64]
        exact Nat.mod_eq_of_lt hhigh
    have hlive : live p = [] := by
      simp [live, hwfp.2]
    rw [← h2]
    simp only [Option.getD_some]
    refine ⟨⟨hwfp.1, hfields.2.2, by rw [hfields.1]; exact hlow,
      by rw [hfields.1, hfields.2.1]; omega, ?_⟩, hfields.1, hlive⟩
    rw [hlive, hfields.2.1]
    simp [tiles]
  obtain ⟨hinv0, hbase0, hlive0⟩ := hfresh
  -- the loop ran to its end
  have hlast : (if data.value % U32 < 2147483648 then data.value % U32 - 1 else 0)
      = data.value - 1 := by
    have hv : data.value % U32 = data.value := Nat.mod_eq_of_lt (by unfold U32; omega)
    rw [hv, if_pos hn31]
  simp only [rdr_field_areainfo_init, hlast] at hok
  generalize hloop : areainfo_loop cfg fc bch data (data.value - 1) r.pool mem = lres at hok
  obtain ⟨oret, q1, mem1⟩ := lres
  cases oret with
  | some ret =>
    simp only [Prod.mk.injEq] at hok
    exact absurd hok.1 (areainfo_loop_some cfg fc bch data _ _ _ _ _ _ hloop)
  | none =>
    simp only at hok
    obtain ⟨hinv1, hbase1, hmem1, t, hlive1, ht1, ht2⟩ :=
      areainfo_loop_tiles cfg c fc bch data (base + payload) hwf hb _ _ _ _ _ hinv0 hloop
    have hmv : mem1.vaddr = q1.cur_alloc_addr := hmem1 (by omega)
    have hcur64 : q1.cur_alloc_addr < U64 := hinv1.1.2.2.2.2.2.2.1
    have hge : q1.base_alloc_addr ≤ q1.cur_alloc_addr := hinv1.2.2.2.1
    have hsum1 := tiles_sum _ _ _ hinv1.2.2.2.2
    have hsz : sub64 mem1.vaddr q1.base_alloc_addr = q1.cur_alloc_addr - q1.base_alloc_addr := by
      rw [hmv]
      exact sub64_of_le _ _ hcur64 hge
    have hszlt : q1.cur_alloc_addr - q1.base_alloc_addr < U32 := by
      rw [hbase1, hbase0]
      omega
    rw [hsz, Nat.mod_eq_of_lt hszlt] at hok
    obtain ⟨r2, q2, m2, hal⟩ := alloc_shape cfg bch q1 (fc.RDR_CORE_INDEX_2_CORE 0 % U32)
      (q1.cur_alloc_addr - q1.base_alloc_addr) mem1
    rw [hal] at hok
    simp only [Option.getD_some, Prod.mk.injEq] at hok
    obtain ⟨hr2, hq2⟩ := hok
    subst hr2 hq2
    obtain ⟨hinv2, hbase2, hcur2, _, e, hlive2, he1, he2⟩ :=
      alloc_down_step cfg c bch q1 q2 _ _ (base + payload) mem1 m2 hwf hb hinv1
        (Nat.mod_lt _ hU) hszlt hal
    have hq2base : q2.base_alloc_addr = base := by rw [hbase2, hbase1, hbase0]
    have hq2cur : q2.cur_alloc_addr = q2.base_alloc_addr := by
      rw [hbase2]
      omega
    have hlq : live q2 = t ++ [e] := by
      rw [hlive2, hlive1, hlive0, List.nil_append]
    have hn1 : data.value = (data.value - 1) + 1 := by omega
    have htile := hinv2.2.2.2.2
    rw [hq2cur, hq2base] at htile
    have htlen : t.length = data.value - 1 := by
      have := congrArg List.length ht1
      simpa using this
    refine ⟨hq2cur, hq2base, ?_, ?_, ?_, ?_, ?_⟩
    · rw [hlq, List.length_append, htlen, List.length_singleton]
      omega
    · rw [hlq, List.reverse_append, List.reverse_singleton, List.singleton_append, List.map_cons,
        List.map_reverse, ht1, List.reverse_reverse, he1]
      conv => rhs; rw [hn1, List.range_succ_eq_map]
      simp only [List.map_cons, List.map_map, Nat.cast_zero, List.cons.injEq, true_and]
      rfl
    · rw [hlq, List.reverse_append, List.reverse_singleton, List.singleton_append, List.map_cons,
        List.tail_cons, List.map_reverse, ht2, List.reverse_reverse]
    · rw [hq2base]
      exact htile
    · have hs := tiles_sum _ _ _ htile
      have hrev : ((live q2).reverse.map (fun e => safe_size e.rawdata)).sum
          = ((live q2).map (fun e => safe_size e.rawdata)).sum := by
        rw [List.map_reverse, List.sum_reverse]
      rw [hrev] at hs
      omega

set_option maxRecDepth 100000 in
/-- Witness for C29: on the 1 MiB region of `board_cold`, with the area table
`[A0, 100, 200]`, the three areas end at the pool base and their sizes sum to
the payload of `0x100000 - 896` bytes. -/
theorem C29_areas_tile_pool_witness :
    (live tiled_pool).length = 3 ∧
    tiled_pool.cur_alloc_addr = tiled_pool.base_alloc_addr ∧
    ((live tiled_pool).map (fun e => safe_size e.rawdata)).sum = 1047680 ∧
    (live tiled_pool).reverse.map (fun e => safe_size e.rawdata) = [1047380, 100, 200] :=
  have h := C29_areas_tile_pool cfg0 fc0 hc0 (some rep3) board_cold first_boot_region fresh_head
    tiled_pool areas3 mem0 (by decide) (by decide) (by decide) (by decide) (by decide)
    (by decide) (by decide) (by decide)
  ⟨h.2.2.1, h.1, h.2.2.2.2.2.2.trans (by decide), by decide⟩

set_option maxRecDepth 100000 in
/-- Why the pool is taken above the first 4 GiB: were the reserved region
mapped at the address `0xc80` (`board_low`, a payload at `[0x1000, 0x2000)`),
a request of `0x3000` bytes for area 2 would pass the test of line 197, whose
subtraction wraps, and `rdr_field_areainfo_init` would return 0 with the
cursor at `0xffffffff00001000`.  The kernel maps no region there. -/
theorem areainfo_below_4g :
    (rdr_field_mempool_init cfg0 hc0 board_low
      (rdr_field_top_init cfg0 hc0 (some rep3) board_low blank_region).2).1 = 0 ∧
    sub64 (top_size low_head.top_head) hc0.RDR_BASEINFO_SIZE = 0x1000 ∧
    low_head.pool.low_to_high = false ∧ low_head.pool.curnum = 0 ∧
    low_head.pool.base_alloc_addr = 0x1000 ∧ low_head.pool.cur_alloc_addr = 0x2000 ∧
    (rdr_field_areainfo_init cfg0 fc0 (some rep3) low_head.pool areas3_big mem0).1 = 0 ∧
    (rdr_field_init cfg0 fc0 hc0 (some rep3) board_low areas3_big (boot_state blank_region)
      mem0 mem0 mem0).1 = 0 ∧
    (rdr_field_areainfo_init cfg0 fc0 (some rep3) low_head.pool areas3_big mem0).2.cur_alloc_addr
      = 0xffffffff00001000 ∧
    (rdr_field_areainfo_init cfg0 fc0 (some rep3) low_head.pool areas3_big mem0).2.base_alloc_addr
      = 0x1000 ∧
    (live (rdr_field_areainfo_init cfg0 fc0 (some rep3) low_head.pool areas3_big mem0).2).map
        (fun e => (safe_id e.rawdata, safe_vaddr e.rawdata, safe_size e.rawdata))
      = [(4, 0xfffffffffffff000, 0x3000), (2, 0xffffffffffffef9c, 100),
         (1, 0xffffffff00001000, 0xffffdf9c)] ∧
    ((live (rdr_field_areainfo_init cfg0 fc0 (some rep3) low_head.pool areas3_big mem0).2).map
        (fun e => safe_size e.rawdata)).sum = 0x100001000 ∧
    tiles 0x1000
      (live (rdr_field_areainfo_init cfg0 fc0 (some rep3) low_head.pool areas3_big mem0).2).reverse
      0x2000 = false := by
  decide
